import Mathlib

/-!
# XTon codec (`xton.c`): shallow embedding and verified properties

The C extension works on a NUL-terminated UTF-8 buffer through a cursor
`const char **s`.  Here a buffer is a `List Nat` of byte values, the cursor is
the list of bytes that remain, and the terminating NUL is what `peek` reads at
the end of the list.  Every parser returns the cursor it leaves behind, also
when it returns `NULL`, because `parse_value` keeps going from that cursor.
The interpreter's error indicator (`PyErr_SetString`, `PyErr_Clear`) is threaded
explicitly.  Memory allocation is assumed to succeed.
-/

namespace XTon

/-! ## Host values -/

/-- Exceptions that the extension, or the CPython calls it makes, leave in the
error indicator. -/
inductive PyErr where
  /-- ValueError: Unterminated XTon quoted string. -/
  | unterminatedString
  /-- ValueError: Expected '/' or ']' in XTon array. -/
  | malformedArray
  /-- ValueError: Unterminated XTon array. -/
  | unterminatedArray
  /-- ValueError: Expected '-' after key in XTon object. -/
  | missingKeySeparator
  /-- ValueError: Expected '/' or '>' in XTon object. -/
  | malformedObject
  /-- ValueError: Unterminated XTon object. -/
  | unterminatedObject
  /-- ValueError: Invalid XTon format or unsupported type. -/
  | invalidFormat
  /-- ValueError: Extra characters after XTon value. -/
  | extraCharacters
  /-- UnicodeDecodeError raised by the strict UTF-8 decoder. -/
  | unicodeDecode
  /-- ValueError: embedded null character (argument format "s"). -/
  | embeddedNull
  /-- TypeError: XTon dictionary keys must be strings. -/
  | nonStringKey
  /-- TypeError: Unsupported Python type for XTon serialization. -/
  | unsupportedType
  /-- ValueError: Exceeds the limit for integer string conversion (raised by
  `PyObject_Repr` of an `int`). -/
  | intMaxStrDigits
  deriving DecidableEq, Repr

/-- An IEEE-754 binary64 value.  A finite value is `(-1)^neg * m * 2^e`, kept
canonical: `m < 2^53`, `-1074 ≤ e ≤ 971`, and `2^52 ≤ m` unless `e = -1074`. -/
inductive Dbl where
  | fin (neg : Bool) (m : Nat) (e : Int)
  | inf (neg : Bool)
  | nan
  deriving DecidableEq, Repr

/-- The Python objects the codec distinguishes.  A `str` is held as its UTF-8
bytes (what `PyUnicode_AsUTF8AndSize` yields), so a `str` that has no UTF-8
form (a lone surrogate) is not among them; a `dict` is its items in insertion
order; `other` is any object of a type the codec does not know. -/
inductive PyObj where
  | none
  | bool (b : Bool)
  | long (n : Int)
  | float (d : Dbl)
  | str (s : List Nat)
  | list (xs : List PyObj)
  | dict (kvs : List (PyObj × PyObj))
  | other (tag : Nat)

/-! ## Character classes (`ctype.h`, "C" locale) -/

/-- The byte under the cursor, `**s`; the end of the list is the terminating NUL. -/
def peek : List Nat → Nat
  | [] => 0
  | c :: _ => c

/-- The function `isspace`: space, `\t`, `\n`, `\v`, `\f`, `\r`; no byte of a
multi-byte UTF-8 sequence is white space. -/
def isspace (c : Nat) : Bool := c == 32 || (9 ≤ c && c ≤ 13)

/-- The function `isdigit`: `0` to `9`. -/
def isdigit (c : Nat) : Bool := 48 ≤ c && c ≤ 57

/-- The function `isxdigit`: a decimal digit, `A` to `F` or `a` to `f`. -/
def isxdigit (c : Nat) : Bool :=
  isdigit c || (65 ≤ c && c ≤ 70) || (97 ≤ c && c ≤ 102)

/-- Delimiters are `/ < > [ ] -`, NUL and whitespace. -/
def is_xton_identifier_delimiter (c : Nat) : Bool :=
  c == 47 || c == 60 || c == 62 || c == 91 || c == 93 || c == 45 || c == 0 || isspace c

/-- Helper function to skip whitespace: the cursor after the leading run of
white space. -/
def skip_whitespace (s : List Nat) : List Nat := s.dropWhile isspace

/-! ## `strtod` and binary64 rounding -/

/-- Number of binary digits of `n`, by halving; the first argument bounds the
number of steps. -/
def bitlen_aux : Nat → Nat → Nat
  | 0, _ => 0
  | f + 1, n => if n = 0 then 0 else bitlen_aux f (n / 2) + 1

def bitlen (n : Nat) : Nat := bitlen_aux n n

/-- The pair `(a, b)` with `a / b = num / (den * 2^e)`. -/
def scale2 (num den : Nat) (e : Int) : Nat × Nat :=
  if 0 ≤ e then (num, den * 2 ^ e.toNat) else (num * 2 ^ (-e).toNat, den)

/-- Round `q + r/d` (with `r < d`) to an integer, ties to even. -/
def round_half_even (q r d : Nat) : Nat :=
  if 2 * r < d then q
  else if d < 2 * r then q + 1
  else if q % 2 = 0 then q else q + 1

/-- The binary64 value nearest to `num / den` (ties to even), with the sign
`neg`; overflow gives infinity, underflow a subnormal or zero. -/
def round_ratio (neg : Bool) (num den : Nat) : Dbl :=
  if num = 0 then Dbl.fin neg 0 (-1074)
  else
    let e0 : Int := (bitlen num : Int) - (bitlen den : Int) - 52
    let p0 := scale2 num den e0
    let e1 : Int := if p0.1 / p0.2 < 2 ^ 52 then e0 - 1 else e0
    let e : Int := if e1 < -1074 then -1074 else e1
    let p := scale2 num den e
    let q := round_half_even (p.1 / p.2) (p.1 % p.2) p.2
    let m := if q = 2 ^ 53 then 2 ^ 52 else q
    let e2 : Int := if q = 2 ^ 53 then e + 1 else e
    if 971 < e2 then Dbl.inf neg else Dbl.fin neg m e2

/-- The binary64 value nearest to `d * base^x`. -/
def round_scaled (neg : Bool) (d base : Nat) (x : Int) : Dbl :=
  if 0 ≤ x then round_ratio neg (d * base ^ x.toNat) 1
  else round_ratio neg d (base ^ (-x).toNat)

/-- Value of a run of decimal digits. -/
def digits_val (ds : List Nat) : Nat := ds.foldl (fun a c => 10 * a + (c - 48)) 0

def xdigit_val (c : Nat) : Nat :=
  if isdigit c then c - 48 else if c ≤ 70 then c - 55 else c - 87

/-- Value of a run of hexadecimal digits. -/
def xdigits_val (ds : List Nat) : Nat := ds.foldl (fun a c => 16 * a + xdigit_val c) 0

/-- An optional sign: whether it is `-`, and the text after it. -/
def lex_sign : List Nat → Bool × List Nat
  | 45 :: r => (true, r)
  | 43 :: r => (false, r)
  | s => (false, s)

/-- Digits, an optional `.`, digits: the integer part, the fraction part and
the text after them.  Both parts are empty when there is no digit at all, and
then nothing is consumed. -/
def lex_mantissa (isd : Nat → Bool) (s : List Nat) : List Nat × List Nat × List Nat :=
  let ip := s.takeWhile isd
  let s1 := s.dropWhile isd
  match s1 with
  | 46 :: r =>
    let fp := r.takeWhile isd
    if ip = [] ∧ fp = [] then ([], [], s) else (ip, fp, r.dropWhile isd)
  | _ => (ip, [], s1)

/-- An optional exponent part: a marker byte, an optional sign and at least one
decimal digit; otherwise exponent 0 and nothing consumed. -/
def lex_exponent (mark : Nat → Bool) (s : List Nat) : Int × List Nat :=
  match s with
  | c :: r =>
    if mark c then
      let sg := lex_sign r
      let ds := sg.2.takeWhile isdigit
      if ds = [] then (0, s)
      else ((if sg.1 then -(digits_val ds : Int) else (digits_val ds : Int)), sg.2.dropWhile isdigit)
    else (0, s)
  | [] => (0, s)

/-- Hexadecimal floating constant `0x h.h p±d`, after the sign. -/
def strtod_hex (neg : Bool) (s : List Nat) : Option (Dbl × List Nat) :=
  match s with
  | 48 :: x :: r =>
    if x = 120 ∨ x = 88 then
      let m := lex_mantissa isxdigit r
      if m.1 = [] ∧ m.2.1 = [] then none
      else
        let x := lex_exponent (fun c => c == 112 || c == 80) m.2.2
        some (round_scaled neg (xdigits_val (m.1 ++ m.2.1)) 2 (x.1 - 4 * (m.2.1.length : Int)), x.2)
    else none
  | _ => none

/-- Decimal floating constant `d.d e±d`, after the sign. -/
def strtod_dec (neg : Bool) (s : List Nat) : Option (Dbl × List Nat) :=
  let m := lex_mantissa isdigit s
  if m.1 = [] ∧ m.2.1 = [] then none
  else
    let x := lex_exponent (fun c => c == 101 || c == 69) m.2.2
    some (round_scaled neg (digits_val (m.1 ++ m.2.1)) 10 (x.1 - (m.2.1.length : Int)), x.2)

/-- ASCII lower case of a byte. -/
def tolower (c : Nat) : Nat := if 65 ≤ c ∧ c ≤ 90 then c + 32 else c

/-- The constants `inf`, `infinity` and `nan`, in any letter case, after the
sign.  The optional parenthesised part after `nan` is not modelled; behind the
gate of `parse_value` the text handed to `strtod` never starts one of these. -/
def strtod_special (neg : Bool) (s : List Nat) : Option (Dbl × List Nat) :=
  if (s.take 8).map tolower = [105, 110, 102, 105, 110, 105, 116, 121] then
    some (Dbl.inf neg, s.drop 8)
  else if (s.take 3).map tolower = [105, 110, 102] then some (Dbl.inf neg, s.drop 3)
  else if (s.take 3).map tolower = [110, 97, 110] then some (Dbl.nan, s.drop 3)
  else none

/-- The C library's `strtod(nptr, &endptr)`: the value and `endptr`, or `none`
when no conversion is performed (`endptr == nptr`).  It skips white space, reads
an optional sign and then the longest hexadecimal, decimal or special constant,
and rounds the exact value to the nearest binary64 value. -/
def strtod (s : List Nat) : Option (Dbl × List Nat) :=
  let sg := lex_sign (skip_whitespace s)
  match strtod_special sg.1 sg.2 with
  | some r => some r
  | none =>
    match strtod_hex sg.1 sg.2 with
    | some r => some r
    | none => strtod_dec sg.1 sg.2

/-! ## Strict UTF-8 validation (`PyUnicode_FromStringAndSize`, `"utf-8", "strict"`) -/

/-- A continuation byte `80..BF`. -/
def utf8_cont (b : Nat) : Bool := 128 ≤ b && b ≤ 191

/-- Well-formed UTF-8: shortest form, no surrogates, at most U+10FFFF. -/
def utf8_valid : List Nat → Bool
  | [] => true
  | b0 :: rest =>
    if b0 < 128 then utf8_valid rest
    else if 194 ≤ b0 ∧ b0 ≤ 223 then
      match rest with
      | b1 :: r => utf8_cont b1 && utf8_valid r
      | _ => false
    else if 224 ≤ b0 ∧ b0 ≤ 239 then
      match rest with
      | b1 :: b2 :: r =>
        (if b0 = 224 then 160 ≤ b1 && b1 ≤ 191
         else if b0 = 237 then 128 ≤ b1 && b1 ≤ 159
         else utf8_cont b1) && utf8_cont b2 && utf8_valid r
      | _ => false
    else if 240 ≤ b0 ∧ b0 ≤ 244 then
      match rest with
      | b1 :: b2 :: b3 :: r =>
        (if b0 = 240 then 144 ≤ b1 && b1 ≤ 191
         else if b0 = 244 then 128 ≤ b1 && b1 ≤ 143
         else utf8_cont b1) && utf8_cont b2 && utf8_cont b3 && utf8_valid r
      | _ => false
    else false

/-! ## Decoder -/

/-- What a parser call leaves behind: a new reference `ok`, or `NULL`; in both
cases the cursor and the error indicator.  `ub` is a read past the terminating
NUL of the buffer; `fuel` means the step bound of the model was used up. -/
inductive Res where
  | ok (v : PyObj) (s : List Nat) (err : Option PyErr)
  | null (s : List Nat) (err : Option PyErr)
  | ub
  | fuel

/-- Decode collected bytes as strict UTF-8 into a `str`; the cursor is already
where the caller left it. -/
def decode_utf8 (bytes s : List Nat) (err : Option PyErr) : Res :=
  if utf8_valid bytes then Res.ok (PyObj.str bytes) s err
  else Res.null s (some PyErr.unicodeDecode)

/-- Parse a number: `strtod` at the cursor; `NULL` without an error when no
character was consumed. -/
def parse_number (s : List Nat) (err : Option PyErr) : Res :=
  match strtod s with
  | none => Res.null s err
  | some (v, s') => Res.ok (PyObj.float v) s' err

/-- The `while` loop of `parse_quoted_string`: the collected buffer and the
cursor where the loop stops (at NUL or at an unescaped quote).  `none` when a
backslash is the last byte of the buffer: the byte after it is the terminating
NUL, which is stored, and the cursor then steps past the end of the buffer. -/
def quoted_loop : List Nat → List Nat → Option (List Nat × List Nat)
  | [], buf => some (buf, [])
  | c :: rest, buf =>
    if c = 0 ∨ c = 39 then some (buf, c :: rest)
    else if c = 92 then
      match rest with
      | [] => none
      | d :: rest2 => quoted_loop rest2 (buf ++ [d])
    else quoted_loop rest (buf ++ [c])

/-- Parse a quoted string. -/
def parse_quoted_string (s : List Nat) (err : Option PyErr) : Res :=
  match s with
  | 39 :: rest =>
    match quoted_loop rest [] with
    | none => Res.ub
    | some (buf, s1) =>
      if peek s1 = 39 then decode_utf8 buf s1.tail err
      else Res.null s1 (some PyErr.unterminatedString)
  | _ => Res.null s err

/-- Parse an unquoted string (identifier). -/
def parse_unquoted_string (s : List Nat) (err : Option PyErr) : Res :=
  let run := s.takeWhile (fun c => !is_xton_identifier_delimiter c)
  if run = [] then Res.null s err
  else decode_utf8 run (s.dropWhile (fun c => !is_xton_identifier_delimiter c)) err

/-- Insert or replace, as `PyDict_SetItem`: an existing key keeps its place. -/
def dict_set_item : List (PyObj × PyObj) → List Nat → PyObj → List (PyObj × PyObj)
  | [], k, v => [(PyObj.str k, v)]
  | (PyObj.str k0, v0) :: rest, k, v =>
    if k0 = k then (PyObj.str k0, v) :: rest else (PyObj.str k0, v0) :: dict_set_item rest k v
  | kv :: rest, k, v => kv :: dict_set_item rest k v

/-- The element loop of `parse_array`, with `pv` the parser of one value.  The
first argument bounds the number of iterations. -/
def array_loop (pv : List Nat → Option PyErr → Res) :
    Nat → List Nat → Option PyErr → List PyObj → Res
  | 0, _, _, _ => Res.fuel
  | n + 1, s, err, acc =>
    if peek s = 0 then Res.null s (some PyErr.unterminatedArray)
    else
      match pv s err with
      | Res.ok v s1 e1 =>
        let s2 := skip_whitespace s1
        if peek s2 = 93 then Res.ok (PyObj.list (acc ++ [v])) s2.tail e1
        else if peek s2 = 47 then array_loop pv n (skip_whitespace s2.tail) e1 (acc ++ [v])
        else Res.null s2 (some PyErr.malformedArray)
      | r => r

/-- Parse an array. -/
def parse_array (pv : List Nat → Option PyErr → Res) (n : Nat)
    (s : List Nat) (err : Option PyErr) : Res :=
  match s with
  | 91 :: rest =>
    let s1 := skip_whitespace rest
    if peek s1 = 93 then Res.ok (PyObj.list []) s1.tail err
    else array_loop pv n s1 err []
  | _ => Res.null s err

/-- The key of a pair: a quoted string, else an unquoted string from wherever
the first attempt left the cursor. -/
def parse_key (s : List Nat) (err : Option PyErr) : Res :=
  match parse_quoted_string s err with
  | Res.null s1 e1 => parse_unquoted_string s1 e1
  | r => r

/-- The pair loop of `parse_object`. -/
def object_loop (pv : List Nat → Option PyErr → Res) :
    Nat → List Nat → Option PyErr → List (PyObj × PyObj) → Res
  | 0, _, _, _ => Res.fuel
  | n + 1, s, err, acc =>
    if peek s = 0 then Res.null s (some PyErr.unterminatedObject)
    else
      match parse_key s err with
      | Res.ok (PyObj.str k) s1 e1 =>
        let s2 := skip_whitespace s1
        if peek s2 ≠ 45 then Res.null s2 (some PyErr.missingKeySeparator)
        else
          match pv (skip_whitespace s2.tail) e1 with
          | Res.ok v s3 e3 =>
            let s4 := skip_whitespace s3
            if peek s4 = 62 then Res.ok (PyObj.dict (dict_set_item acc k v)) s4.tail e3
            else if peek s4 = 47 then
              object_loop pv n (skip_whitespace s4.tail) e3 (dict_set_item acc k v)
            else Res.null s4 (some PyErr.malformedObject)
          | r => r
      | Res.ok _ s1 e1 => Res.null s1 e1
      | r => r

/-- Parse an object. -/
def parse_object (pv : List Nat → Option PyErr → Res) (n : Nat)
    (s : List Nat) (err : Option PyErr) : Res :=
  match s with
  | 60 :: rest =>
    let s1 := skip_whitespace rest
    if peek s1 = 62 then Res.ok (PyObj.dict []) s1.tail err
    else object_loop pv n s1 err []
  | _ => Res.null s err

/-- The gate in front of `parse_number`: a digit, or `-` and a digit. -/
def number_gate (s : List Nat) : Bool :=
  isdigit (peek s) || (peek s == 45 && isdigit (peek s.tail))

/-- The string branches of `parse_value`: quoted, then unquoted from wherever
the quoted attempt left the cursor, then the error. -/
def parse_strings (s : List Nat) (err : Option PyErr) : Res :=
  match parse_quoted_string s err with
  | Res.null s1 e1 =>
    match parse_unquoted_string s1 e1 with
    | Res.null s2 _ => Res.null s2 (some PyErr.invalidFormat)
    | r => r
  | r => r

/-- The part of `parse_value` after the object and array attempts: the literal
tags, the gated number, then the strings. -/
def parse_scalar (s : List Nat) (err : Option PyErr) : Res :=
  if s.take 5 = [92, 116, 114, 117, 101] then Res.ok (PyObj.bool true) (s.drop 5) err
  else if s.take 6 = [92, 102, 97, 108, 115, 101] then Res.ok (PyObj.bool false) (s.drop 6) err
  else if s.take 5 = [92, 110, 111, 110, 101] then Res.ok PyObj.none (s.drop 5) err
  else if number_gate s then
    match parse_number s err with
    | Res.null s1 e1 => parse_strings s1 e1
    | r => r
  else parse_strings s err

/-- Central parsing logic for any XTon value.  Each attempt that returns `NULL`
hands its cursor and the error indicator to the next attempt.  The first
argument bounds the nesting depth and the iterations of the loops. -/
def parse_value : Nat → List Nat → Option PyErr → Res
  | 0, _, _ => Res.fuel
  | n + 1, s, err =>
    match parse_object (parse_value n) n (skip_whitespace s) err with
    | Res.null s1 e1 =>
      match parse_array (parse_value n) n s1 e1 with
      | Res.null s2 e2 => parse_scalar s2 e2
      | r => r
    | r => r

/-- What a call of the extension function gives back to the interpreter: the
returned reference (or `NULL`) together with the error indicator. -/
inductive Outcome where
  | ret (val : Option PyObj) (err : Option PyErr)
  | ub
  | fuel

/-- Attempt 2 of `xton_loads`: an unquoted key, `-`, a value, nothing after it. -/
def loads_pair (n : Nat) (s0 : List Nat) : Outcome :=
  match parse_unquoted_string s0 none with
  | Res.ok key s1 e1 =>
    let s2 := skip_whitespace s1
    if peek s2 = 45 then
      match parse_value n (skip_whitespace s2.tail) e1 with
      | Res.ok v s4 e4 =>
        if peek (skip_whitespace s4) ≠ 0 then Outcome.ret none (some PyErr.extraCharacters)
        else Outcome.ret (some (PyObj.dict [(key, v)])) e4
      | Res.null _ _ => Outcome.ret none (some PyErr.invalidFormat)
      | Res.ub => Outcome.ub
      | Res.fuel => Outcome.fuel
    else Outcome.ret none (some PyErr.invalidFormat)
  | Res.null _ _ => Outcome.ret none (some PyErr.invalidFormat)
  | Res.ub => Outcome.ub
  | Res.fuel => Outcome.fuel

/-- Main parsing function for an XTon string, with an explicit step bound. -/
def loads_with (n : Nat) (input : List Nat) : Outcome :=
  if 0 ∈ input then Outcome.ret none (some PyErr.embeddedNull)
  else
    let s0 := skip_whitespace input
    match parse_value n s0 none with
    | Res.ok v s1 e1 =>
      if peek (skip_whitespace s1) = 0 then Outcome.ret (some v) e1
      else loads_pair n s0
    | Res.null _ _ => loads_pair n s0
    | Res.ub => Outcome.ub
    | Res.fuel => Outcome.fuel

/-- The function `xton_loads`: the depth of nesting and the number of loop
iterations never exceed the length of the input, so that many steps suffice. -/
def xton_loads (input : List Nat) : Outcome := loads_with (input.length + 1) input

/-! ## `repr` of `int` and `float` (`PyObject_Repr`) -/

/-- Decimal digits of `n`, most significant first; the first argument bounds
the number of digits. -/
def nat_repr_aux : Nat → Nat → List Nat
  | 0, _ => []
  | f + 1, n => if n < 10 then [48 + n] else nat_repr_aux f (n / 10) ++ [48 + n % 10]

def nat_repr (n : Nat) : List Nat := nat_repr_aux (n + 1) n

/-- The decimal text of an integer: its decimal digits, after `-` when
negative.  It is what `repr` of a Python `int` gives when it gives a text. -/
def long_repr (n : Int) : List Nat :=
  if n < 0 then 45 :: nat_repr n.natAbs else nat_repr n.natAbs

/-- The interpreter's limit on the number of digits of an `int` in a conversion
to text (`sys.get_int_max_str_digits()`), at its default value. -/
def int_max_str_digits : Nat := 4300

/-- The call `PyObject_Repr` on a Python `int`: its decimal text, or `NULL`
with a ValueError when the `int` has more digits than the interpreter's
limit. -/
def int_repr (n : Int) : Except PyErr (List Nat) :=
  if int_max_str_digits < (nat_repr n.natAbs).length then Except.error PyErr.intMaxStrDigits
  else Except.ok (long_repr n)

/-- The pair `(a, b)` with `a / b = num / (den * 10^k)`. -/
def scale10 (num den : Nat) (k : Int) : Nat × Nat :=
  if 0 ≤ k then (num, den * 10 ^ k.toNat) else (num * 10 ^ (-k).toNat, den)

/-- For `num < den`: how many zeros follow the decimal point of `num / den`. -/
def lead_zeros : Nat → Nat → Nat → Nat
  | 0, _, _ => 0
  | f + 1, num, den => if den ≤ num * 10 then 0 else lead_zeros f (num * 10) den + 1

/-- The position `P` of the decimal point: `10^(P-1) ≤ num / den < 10^P`. -/
def dec_point (num den : Nat) : Int :=
  if den ≤ num then ((nat_repr (num / den)).length : Int)
  else -(lead_zeros den num den : Int)

/-- The `n`-digit decimal nearest to `num / den` that reads back as `target`,
as the integer formed by its digits, if there is one. -/
def repr_candidate (target : Dbl) (num den : Nat) (pt : Int) (n : Nat) : Option Nat :=
  let k : Int := pt - (n : Int)
  let p := scale10 num den k
  let lo := p.1 / p.2
  let okLo : Bool := round_scaled false lo 10 k == target
  let okHi : Bool := round_scaled false (lo + 1) 10 k == target
  if okLo && okHi then some (round_half_even lo (p.1 % p.2) p.2)
  else if okLo then some lo
  else if okHi then some (lo + 1)
  else none

/-- Try `n`, `n + 1`, ... digits, at most `f` times: the first digit count that
round-trips, with the integer formed by the digits. -/
def repr_search (target : Dbl) (num den : Nat) (pt : Int) : Nat → Nat → Option (Nat × Nat)
  | 0, _ => none
  | f + 1, n =>
    match repr_candidate target num den pt n with
    | some c => some (n, c)
    | none => repr_search target num den pt f (n + 1)

/-- Drop the zeros at the end of a digit string. -/
def strip_zeros (ds : List Nat) : List Nat := (ds.reverse.dropWhile (fun c => c == 48)).reverse

/-- The exponent of the scientific form: sign and at least two digits. -/
def exp_text (x : Int) : List Nat :=
  (if x < 0 then [101, 45] else [101, 43]) ++
    (if x.natAbs < 10 then 48 :: nat_repr x.natAbs else nat_repr x.natAbs)

/-- Lay out the digits `ds` with the decimal point after the first `pt` of
them, as `repr` does: scientific form when `pt > 16` or `pt < -3`, and never
without a fraction part in positional form. -/
def format_repr (ds : List Nat) (pt : Int) : List Nat :=
  if 16 < pt ∨ pt < -3 then
    ds.take 1 ++ (if ds.length ≤ 1 then [] else 46 :: ds.drop 1) ++ exp_text (pt - 1)
  else if pt ≤ 0 then [48, 46] ++ List.replicate (-pt).toNat 48 ++ ds
  else if (ds.length : Int) ≤ pt then ds ++ List.replicate (pt.toNat - ds.length) 48 ++ [46, 48]
  else ds.take pt.toNat ++ [46] ++ ds.drop pt.toNat

/-- The `repr` of a Python `float`: the shortest decimal string that reads back
as the same binary64 value. -/
def float_repr : Dbl → List Nat
  | Dbl.nan => [110, 97, 110]
  | Dbl.inf neg => (if neg then [45] else []) ++ [105, 110, 102]
  | Dbl.fin neg m e =>
    (if neg then [45] else []) ++
    (if m = 0 then [48, 46, 48]
     else
      let num := if 0 ≤ e then m * 2 ^ e.toNat else m
      let den := if 0 ≤ e then 1 else 2 ^ (-e).toNat
      let pt := dec_point num den
      match repr_search (Dbl.fin false m e) num den pt 17 1 with
      | some (n, c) =>
        format_repr (strip_zeros (nat_repr c)) (pt + ((nat_repr c).length : Int) - (n : Int))
      | none => [])

/-! ## Encoder -/

/-- The eight characters that the quoted form escapes: `- < > [ ] / ' \`. -/
def needs_escape (c : Nat) : Bool :=
  c == 45 || c == 60 || c == 62 || c == 91 || c == 93 || c == 47 || c == 39 || c == 92

/-- The text that `PyUnicode_FromString` makes of a C buffer: it ends at the
first NUL. -/
def c_string (buffer : List Nat) : List Nat := buffer.takeWhile (fun c => c != 0)

/-- The second loop of `_serialize_quoted_string`: every byte of `s`, after a
backslash when it is special. -/
def escape_loop : List Nat → List Nat
  | [] => []
  | c :: rest => if needs_escape c then 92 :: c :: escape_loop rest else c :: escape_loop rest

/-- Helper for string serialization, adding quotes and escaping.  The buffer
holds the opening quote, the escaped bytes, the closing quote and a NUL; the
result is made from the buffer by `PyUnicode_FromString`. -/
def _serialize_quoted_string (s : List Nat) : List Nat :=
  c_string ([39] ++ escape_loop s ++ [39] ++ [0])

/-- The test shared by `_serialize_maybe_unquoted_string` and `xton_dumps`. -/
def needs_quoting (s : List Nat) : Bool :=
  s.isEmpty || s.any (fun c => is_xton_identifier_delimiter c || c == 39 || c == 92)

/-- String representation (quoted or unquoted) for array elements and dict keys. -/
def _serialize_maybe_unquoted_string (s : List Nat) : List Nat :=
  if needs_quoting s then _serialize_quoted_string s else s

mutual
/-- Serialize one object. -/
def _serialize_to_xton : PyObj → Except PyErr (List Nat)
  | PyObj.none => Except.ok [92, 110, 111, 110, 101]
  | PyObj.bool true => Except.ok [92, 116, 114, 117, 101]
  | PyObj.bool false => Except.ok [92, 102, 97, 108, 115, 101]
  | PyObj.long n => int_repr n
  | PyObj.float d => Except.ok (float_repr d)
  | PyObj.str s => Except.ok (_serialize_quoted_string s)
  | PyObj.list xs =>
    match serialize_elements xs with
    | Except.ok parts => Except.ok ([91] ++ List.intercalate [47] parts ++ [93])
    | Except.error e => Except.error e
  | PyObj.dict kvs =>
    match serialize_pairs kvs with
    | Except.ok parts => Except.ok ([60] ++ List.intercalate [47] parts ++ [62])
    | Except.error e => Except.error e
  | PyObj.other _ => Except.error PyErr.unsupportedType
/-- The loop over the items of a list: a `str` item by
`_serialize_maybe_unquoted_string`, any other by `_serialize_to_xton`. -/
def serialize_elements : List PyObj → Except PyErr (List (List Nat))
  | [] => Except.ok []
  | PyObj.str s :: rest =>
    match serialize_elements rest with
    | Except.ok parts => Except.ok (_serialize_maybe_unquoted_string s :: parts)
    | Except.error e => Except.error e
  | x :: rest =>
    match _serialize_to_xton x with
    | Except.ok part =>
      match serialize_elements rest with
      | Except.ok parts => Except.ok (part :: parts)
      | Except.error e => Except.error e
    | Except.error e => Except.error e
/-- The loop over the items of a dict: the key must be a `str`. -/
def serialize_pairs : List (PyObj × PyObj) → Except PyErr (List (List Nat))
  | [] => Except.ok []
  | (PyObj.str k, v) :: rest =>
    match _serialize_to_xton v with
    | Except.ok sv =>
      match serialize_pairs rest with
      | Except.ok parts => Except.ok ((_serialize_maybe_unquoted_string k ++ [45] ++ sv) :: parts)
      | Except.error e => Except.error e
    | Except.error e => Except.error e
  | _ :: _ => Except.error PyErr.nonStringKey
end

/-- The function `xton_dumps`: a top-level dict with a single pair whose key is
a `str` that needs no quoting is written without the enclosing `<>`. -/
def xton_dumps (obj : PyObj) : Except PyErr (List Nat) :=
  match obj with
  | PyObj.dict [(PyObj.str k, v)] =>
    if needs_quoting k then _serialize_to_xton obj
    else
      match _serialize_to_xton v with
      | Except.ok sv => Except.ok (k ++ [45] ++ sv)
      | Except.error e => Except.error e
  | _ => _serialize_to_xton obj

/-! ## The specification's vocabulary -/

/-- The escaping of the quoting rule, in the words of the specification: each
occurrence of `- < > [ ] / ' \` gets a preceding backslash, all other bytes pass
through unchanged. -/
def spec_escape (s : List Nat) : List Nat :=
  s.flatMap (fun c => if c ∈ [45, 60, 62, 91, 93, 47, 39, 92] then [92, c] else [c])

/-- The quoted form of the specification: the escaped bytes wrapped in single quotes. -/
def spec_quoted (s : List Nat) : List Nat := [39] ++ spec_escape s ++ [39]

/-- How many bytes of `s` the quoting rule escapes. -/
def spec_escaped_count (s : List Nat) : Nat :=
  s.countP (fun c => decide (c ∈ [45, 60, 62, 91, 93, 47, 39, 92]))

/-- The specification's condition for a bare string: not empty, no delimiter
`/ < > [ ] -`, no whitespace, no single quote and no backslash. -/
def spec_bare (s : List Nat) : Bool :=
  !s.isEmpty && s.all (fun c => !(decide (c ∈ [47, 60, 62, 91, 93, 45]) || isspace c || c == 39 || c == 92))

/-- Python's `float == int`: the comparison is exact. -/
def Dbl.eq_int : Dbl → Int → Bool
  | Dbl.fin neg m e, n =>
    if 0 ≤ e then (if neg then -((m * 2 ^ e.toNat : Nat) : Int) else ((m * 2 ^ e.toNat : Nat) : Int)) == n
    else (if neg then -(m : Int) else (m : Int)) == n * ((2 ^ (-e).toNat : Nat) : Int)
  | _, _ => false

/-- The binary64 value nearest to the integer `n`. -/
def Dbl.of_int (n : Int) : Dbl := round_ratio (decide (n < 0)) n.natAbs 1

/-! ## Vocabulary of the proofs -/

/-- The condition of the top-level collapse in the words of the specification:
an object with exactly one entry, whose key is a string that requires no
quoting. -/
def spec_collapsible : PyObj → Bool
  | PyObj.dict [(PyObj.str k, _)] => spec_bare k
  | _ => false

/-- The condition of the top-level collapse with the NUL character counted
among the characters that require quoting: an object with exactly one entry,
whose key is a string that is not empty and holds no delimiter `/ < > [ ] -`,
no whitespace, no single quote, no backslash and no NUL character. -/
def collapsible : PyObj → Bool
  | PyObj.dict [(PyObj.str k, _)] => spec_bare k && !decide (0 ∈ k)
  | _ => false

/-- The full form of an object: the text of its entries between `<` and `>`. -/
def full_form (parts : List (List Nat)) : List Nat := [60] ++ List.intercalate [47] parts ++ [62]

/-- What follows a numeral when `strtod` reads exactly its digits: not a digit,
`.`, `e`, `E`, `x` or `X`. -/
def ends_numeral (r : List Nat) : Prop :=
  isdigit (peek r) = false ∧ peek r ≠ 46 ∧ peek r ≠ 101 ∧ peek r ≠ 69 ∧ peek r ≠ 120 ∧ peek r ≠ 88

/-- The text ends with a closing bracket. -/
def ends_bracket (s : List Nat) : Prop := s.getLast? = some 93

/-- The cursor `s'` is `s` without a prefix that holds no closing bracket. -/
def drops_to (s s' : List Nat) : Prop := ∃ p, s = p ++ s' ∧ 93 ∉ p

/-- A parser result that respects a text ending with a bracket: the cursor is a
suffix of the text, something is left after a successful parse, and the parser
neither read past the end nor ran out of steps. -/
def res_in_tail (s : List Nat) : Res → Prop
  | Res.ok _ s' _ => s' <:+ s ∧ s' ≠ []
  | Res.null s' _ => s' <:+ s
  | Res.ub => False
  | Res.fuel => False

/-- Progress of a parser call from the cursor `s`: a successful parse moves the
cursor forward, a failed one does not move it backward, and the step bound of
the model was not reached. -/
def res_progress (s : List Nat) : Res → Prop
  | Res.ok _ s' _ => s'.length < s.length
  | Res.null s' _ => s'.length ≤ s.length
  | Res.ub => True
  | Res.fuel => False

/-! ## Vocabulary of the encoder claims -/

mutual
/-- Some object, at the top or nested in a list or in an object value, has a
key that is not a `str`. -/
def has_non_string_key : PyObj → Bool
  | PyObj.list xs => any_non_string_key xs
  | PyObj.dict kvs => pairs_non_string_key kvs
  | _ => false
/-- Some element of the list has such a key. -/
def any_non_string_key : List PyObj → Bool
  | [] => false
  | x :: xs => has_non_string_key x || any_non_string_key xs
/-- Some key of the items is not a `str`, or some value has such a key. -/
def pairs_non_string_key : List (PyObj × PyObj) → Bool
  | [] => false
  | (PyObj.str _, v) :: rest => has_non_string_key v || pairs_non_string_key rest
  | _ :: _ => true
end

mutual
/-- Every value that is reached renders: none is of a type outside None, bool,
int, float, str, list and dict, and no int has more digits than the
interpreter's limit.  Keys are not looked at. -/
def values_render : PyObj → Bool
  | PyObj.other _ => false
  | PyObj.long n => decide ((nat_repr n.natAbs).length ≤ int_max_str_digits)
  | PyObj.list xs => all_values_render xs
  | PyObj.dict kvs => pairs_values_render kvs
  | _ => true
/-- Every element of the list renders. -/
def all_values_render : List PyObj → Bool
  | [] => true
  | x :: xs => values_render x && all_values_render xs
/-- Every value of the items renders. -/
def pairs_values_render : List (PyObj × PyObj) → Bool
  | [] => true
  | (_, v) :: rest => values_render v && pairs_values_render rest
end

/-! ## The rendering rules in the words of the specification -/

/-- The string rule for array elements and object keys: quoted only if
required, otherwise bare. -/
def spec_string_if_required (s : List Nat) : List Nat :=
  if spec_bare s then s else spec_quoted s

mutual
/-- The general rule of the specification, variant by variant: the literal
tags, a string always quoted, an array and an object from their parts; a number
is rendered as the encoder renders it by design, an `int` by its decimal text
and a `float` by `repr` also when it has no fractional part (there the number
rule of the specification gives an integer literal).  The specification has no
rule for a value of another type; the empty text stands for it. -/
def spec_render : PyObj → List Nat
  | PyObj.none => [92, 110, 111, 110, 101]
  | PyObj.bool true => [92, 116, 114, 117, 101]
  | PyObj.bool false => [92, 102, 97, 108, 115, 101]
  | PyObj.long n => long_repr n
  | PyObj.float d => float_repr d
  | PyObj.str s => spec_quoted s
  | PyObj.list xs => [91] ++ List.intercalate [47] (spec_render_elements xs) ++ [93]
  | PyObj.dict kvs => [60] ++ List.intercalate [47] (spec_render_entries kvs) ++ [62]
  | PyObj.other _ => []
/-- The elements of an array: a string by the array-element string rule, any
other value by the general rule. -/
def spec_render_elements : List PyObj → List (List Nat)
  | [] => []
  | PyObj.str s :: rest => spec_string_if_required s :: spec_render_elements rest
  | x :: rest => spec_render x :: spec_render_elements rest
/-- The entries of an object, in the order of the mapping: the key by the
object-key string rule, `-`, the value by the general rule. -/
def spec_render_entries : List (PyObj × PyObj) → List (List Nat)
  | [] => []
  | (PyObj.str k, v) :: rest =>
    (spec_string_if_required k ++ [45] ++ spec_render v) :: spec_render_entries rest
  | _ :: rest => spec_render_entries rest
end

mutual
/-- A value of the data model whose rendering the rules above describe: no
value of an unsupported type, string keys only, no NUL character in any string,
and no `int` with more digits than the interpreter's limit. -/
def plain_value : PyObj → Bool
  | PyObj.other _ => false
  | PyObj.long n => decide ((nat_repr n.natAbs).length ≤ int_max_str_digits)
  | PyObj.str s => !decide (0 ∈ s)
  | PyObj.list xs => plain_values xs
  | PyObj.dict kvs => plain_entries kvs
  | _ => true
/-- Every element is such a value. -/
def plain_values : List PyObj → Bool
  | [] => true
  | x :: xs => plain_value x && plain_values xs
/-- Every key is a string without a NUL character and every value is such a
value. -/
def plain_entries : List (PyObj × PyObj) → Bool
  | [] => true
  | (PyObj.str k, v) :: rest => !decide (0 ∈ k) && plain_value v && plain_entries rest
  | _ :: _ => false
end

/-- An integer literal with no fractional suffix: an optional `-`, then one or
more decimal digits and nothing else. -/
def is_int_literal (t : List Nat) : Bool :=
  let ds := if peek t = 45 then t.tail else t
  !ds.isEmpty && ds.all isdigit

/-- The text begins with a digit and is, as a whole, one numeric constant of
the C library's `strtod` (as `1e-5` and `0x1p-5` are, and `12-5` is not). -/
def reads_as_number (t : List Nat) : Bool :=
  isdigit (peek t) &&
    match strtod t with
    | some (_, []) => true
    | _ => false

/-- Attempt 1 of `xton_loads` succeeds on the text `t`: `parse_value` returns a
value and only whitespace is left after it. -/
def first_attempt_ok (t : List Nat) : Bool :=
  match parse_value (t.length + 1) (skip_whitespace t) none with
  | Res.ok _ s1 _ => peek (skip_whitespace s1) == 0
  | _ => false

/-- What attempt 2 of `xton_loads` leaves on the text `t` when it reads an
unquoted key, `-` and a value: the cursor after the value and the whitespace
that follows it.  `none` when one of the three is not read. -/
def pair_rest (t : List Nat) : Option (List Nat) :=
  match parse_unquoted_string (skip_whitespace t) none with
  | Res.ok _ s1 e1 =>
    if peek (skip_whitespace s1) = 45 then
      match parse_value (t.length + 1) (skip_whitespace (skip_whitespace s1).tail) e1 with
      | Res.ok _ s4 _ => some (skip_whitespace s4)
      | _ => none
    else none
  | _ => none

/-- The text opens an object with `<` and the parse of that object reaches the
end of the text before the closing `>`: `parse_object`, called as attempt 1 of
`xton_loads` calls it, returns `NULL` with the cursor at the end of the text. -/
def object_open_at_end (t : List Nat) : Bool :=
  peek (skip_whitespace t) == 60 &&
    match parse_object (parse_value t.length) t.length (skip_whitespace t) none with
    | Res.null [] _ => true
    | _ => false

/-- The text `s` after an opening quote leaves the string open: no unescaped
single quote occurs before the end of the text, and the text does not end with
a backslash that starts an escape. -/
def string_left_open : List Nat → Bool
  | [] => true
  | c :: rest =>
    if c = 39 then false
    else if c = 92 then
      match rest with
      | [] => false
      | _ :: rest2 => string_left_open rest2
    else string_left_open rest

/-- The pairs that the loop of `parse_object` reads, in the order of the text,
with the cursor and the error indicator the loop ends with: the same loop as
`object_loop`, collecting the pairs instead of inserting them.  `none` when the
loop does not reach the closing `>` after a pair. -/
def object_entries (pv : List Nat → Option PyErr → Res) :
    Nat → List Nat → Option PyErr → Option (List (List Nat × PyObj) × List Nat × Option PyErr)
  | 0, _, _ => none
  | n + 1, s, err =>
    if peek s = 0 then none
    else
      match parse_key s err with
      | Res.ok (PyObj.str k) s1 e1 =>
        let s2 := skip_whitespace s1
        if peek s2 ≠ 45 then none
        else
          match pv (skip_whitespace s2.tail) e1 with
          | Res.ok v s3 e3 =>
            let s4 := skip_whitespace s3
            if peek s4 = 62 then some ([(k, v)], s4.tail, e3)
            else if peek s4 = 47 then
              match object_entries pv n (skip_whitespace s4.tail) e3 with
              | some (ps, s5, e5) => some ((k, v) :: ps, s5, e5)
              | none => none
            else none
          | _ => none
      | _ => none

/-- The pairs of an object text, as `xton_loads` reads them on its first
attempt: `<`, then either `>` at once or the pairs of `object_entries`. -/
def text_entries (t : List Nat) :
    Option (List (List Nat × PyObj) × List Nat × Option PyErr) :=
  match skip_whitespace t with
  | 60 :: rest =>
    let s1 := skip_whitespace rest
    if peek s1 = 62 then some ([], s1.tail, none)
    else object_entries (parse_value t.length) t.length s1 none
  | _ => none

/-- The mapping built by inserting the pairs one after the other. -/
def dict_of_pairs (ps : List (List Nat × PyObj)) : List (PyObj × PyObj) :=
  ps.foldl (fun d p => dict_set_item d p.1 p.2) []

/-- Look up a string key, as `PyDict_GetItem`. -/
def dict_get : List (PyObj × PyObj) → List Nat → Option PyObj
  | [], _ => none
  | (PyObj.str k0, v0) :: rest, k => if k0 = k then some v0 else dict_get rest k
  | _ :: rest, k => dict_get rest k

/-- Number of entries of a mapping under the string key `k`. -/
def dict_count : List (PyObj × PyObj) → List Nat → Nat
  | [], _ => 0
  | (PyObj.str k0, _) :: rest, k => (if k0 = k then 1 else 0) + dict_count rest k
  | _ :: rest, k => dict_count rest k

/-- The value of the last pair of `ps` whose key is `k`. -/
def last_value : List (List Nat × PyObj) → List Nat → Option PyObj
  | [], _ => none
  | p :: ps, k =>
    match last_value ps k with
    | some v => some v
    | none => if p.1 = k then some p.2 else none

/-- The cursor `b` is the cursor `a` in a text that has more whitespace at its
end. -/
def ws_ext (a b : List Nat) : Prop := ∃ y, (∀ c ∈ y, isspace c = true) ∧ b = a ++ y

/-- The second parser result is the first one in a text that has more
whitespace at its end: the same value or `NULL`, the same error indicator, and
the cursor at the same place.  Nothing is asked when the first parser read past
the end of the buffer or reached the step bound of the model. -/
def res_ext : Res → Res → Prop
  | Res.ok v s e, r => ∃ s2, r = Res.ok v s2 e ∧ ws_ext s s2
  | Res.null s e, r => ∃ s2, r = Res.null s2 e ∧ ws_ext s s2
  | Res.ub, _ => True
  | Res.fuel, _ => True

/-- A parser result whose cursor is not before the cursor `s` the parser
started at: what is left of the text is an end part of what was left.  Nothing
is said of a call that read past the end of the buffer or reached the step
bound of the model. -/
def res_forward (s : List Nat) : Res → Prop
  | Res.ok _ s2 _ => s2 <:+ s
  | Res.null s2 _ => s2 <:+ s
  | Res.ub => True
  | Res.fuel => True

/-! # Theorems -/

/-! ## Basic facts about the character classes and the cursor -/

theorem isspace_not_delim {c : Nat} (h : is_xton_identifier_delimiter c = false) :
    isspace c = false := by
  simp [is_xton_identifier_delimiter] at h
  exact h.2

theorem skip_whitespace_cons_of_not_space {c : Nat} (r : List Nat) (h : isspace c = false) :
    skip_whitespace (c :: r) = c :: r := by
  simp [skip_whitespace, List.dropWhile, h]

theorem needs_escape_iff (c : Nat) :
    needs_escape c = true ↔ c ∈ [45, 60, 62, 91, 93, 47, 39, 92] := by
  simp only [needs_escape, Bool.or_eq_true, beq_iff_eq, List.mem_cons, List.mem_singleton,
    List.mem_nil_iff, or_false, or_assoc]

theorem escape_loop_eq_spec (s : List Nat) : escape_loop s = spec_escape s := by
  induction s with
  | nil => rfl
  | cons c r ih =>
    by_cases h : needs_escape c = true
    · have h2 := (needs_escape_iff c).1 h
      simp only [escape_loop, h, if_true, spec_escape, List.flatMap_cons, h2] at *
      simp [ih]
    · have h2 : ¬ c ∈ [45, 60, 62, 91, 93, 47, 39, 92] := fun hc => h ((needs_escape_iff c).2 hc)
      simp only [escape_loop, h, spec_escape, List.flatMap_cons, h2, if_false] at *
      simp [ih]

theorem zero_not_mem_spec_escape {s : List Nat} (h : 0 ∉ s) : 0 ∉ spec_escape s := by
  induction s with
  | nil => simp [spec_escape]
  | cons c r ih =>
    have hc : c ≠ 0 := fun hc => h (by simp [hc])
    have hr : 0 ∉ r := fun hr => h (by simp [hr])
    have := ih hr
    simp only [spec_escape, List.flatMap_cons, List.mem_append, not_or] at *
    refine ⟨?_, this⟩
    split <;> simp [Ne.symm hc]

theorem c_string_append_nul {l : List Nat} (h : 0 ∉ l) : c_string (l ++ [0]) = l := by
  induction l with
  | nil => simp [c_string]
  | cons c r ih =>
    have hc : c ≠ 0 := fun hc => h (by simp [hc])
    have hr : 0 ∉ r := fun hr => h (by simp [hr])
    have := ih hr
    simp only [c_string] at *
    have hb : (c != 0) = true := by simp [hc]
    simp [List.takeWhile, hb, this]

/-- For a string without a NUL byte the helper produces the quoted form of the
specification. -/
theorem serialize_quoted_eq_spec {s : List Nat} (h : 0 ∉ s) :
    _serialize_quoted_string s = spec_quoted s := by
  have h1 : (0 : Nat) ∉ [39] ++ spec_escape s ++ [39] := by
    have := zero_not_mem_spec_escape h
    simp [this]
  unfold _serialize_quoted_string spec_quoted
  rw [escape_loop_eq_spec]
  exact c_string_append_nul h1

/-! ## The decoder on input that starts a string -/

theorem parse_object_of_ne {pv : List Nat → Option PyErr → Res} {n c : Nat} {r : List Nat}
    {err : Option PyErr} (h : c ≠ 60) : parse_object pv n (c :: r) err = Res.null (c :: r) err := by
  unfold parse_object
  split
  · rename_i heq
    simp at heq
    exact absurd heq.1 h
  · rfl

theorem parse_array_of_ne {pv : List Nat → Option PyErr → Res} {n c : Nat} {r : List Nat}
    {err : Option PyErr} (h : c ≠ 91) : parse_array pv n (c :: r) err = Res.null (c :: r) err := by
  unfold parse_array
  split
  · rename_i heq
    simp at heq
    exact absurd heq.1 h
  · rfl

theorem parse_object_nil {pv : List Nat → Option PyErr → Res} {n : Nat} {err : Option PyErr} :
    parse_object pv n [] err = Res.null [] err := rfl

theorem parse_array_nil {pv : List Nat → Option PyErr → Res} {n : Nat} {err : Option PyErr} :
    parse_array pv n [] err = Res.null [] err := rfl

theorem parse_scalar_of_plain {c : Nat} {r : List Nat} {err : Option PyErr}
    (h92 : c ≠ 92) (hd : isdigit c = false) (h45 : c ≠ 45) :
    parse_scalar (c :: r) err = parse_strings (c :: r) err := by
  have hg : number_gate (c :: r) = false := by
    simp [number_gate, peek, hd, h45]
  unfold parse_scalar
  simp [List.take, h92, hg]

/-- At a byte that opens neither a container, a tag nor a number, `parse_value`
is the string branch. -/
theorem parse_value_of_plain (n : Nat) {c : Nat} (r : List Nat) (err : Option PyErr)
    (hs : isspace c = false) (h60 : c ≠ 60) (h91 : c ≠ 91) (h92 : c ≠ 92)
    (hd : isdigit c = false) (h45 : c ≠ 45) :
    parse_value (n + 1) (c :: r) err = parse_strings (c :: r) err := by
  unfold parse_value
  rw [skip_whitespace_cons_of_not_space r hs, parse_object_of_ne h60]
  simp only
  rw [parse_array_of_ne h91]
  simp only
  exact parse_scalar_of_plain h92 hd h45

theorem quoted_loop_stop {c : Nat} (h : c = 0 ∨ c = 39) (rest buf : List Nat) :
    quoted_loop (c :: rest) buf = some (buf, c :: rest) := by
  rw [quoted_loop.eq_def]
  simp [h]

theorem quoted_loop_escape (d : Nat) (rest buf : List Nat) :
    quoted_loop (92 :: d :: rest) buf = quoted_loop rest (buf ++ [d]) := by
  rw [quoted_loop.eq_def]
  simp

theorem quoted_loop_escape_end (buf : List Nat) : quoted_loop [92] buf = none := by
  rw [quoted_loop.eq_def]
  simp

theorem quoted_loop_plain {c : Nat} (h0 : c ≠ 0) (h39 : c ≠ 39) (h92 : c ≠ 92)
    (rest buf : List Nat) : quoted_loop (c :: rest) buf = quoted_loop rest (buf ++ [c]) := by
  rw [quoted_loop.eq_def]
  simp [h0, h39, h92]

theorem quoted_loop_escaped (s : List Nat) (h : 0 ∉ s) (r buf : List Nat) :
    quoted_loop (spec_escape s ++ 39 :: r) buf = some (buf ++ s, 39 :: r) := by
  induction s generalizing buf with
  | nil => simpa [spec_escape] using quoted_loop_stop (Or.inr rfl) r buf
  | cons c s ih =>
    have hc : c ≠ 0 := fun hc => h (by simp [hc])
    have hr : 0 ∉ s := fun hr => h (by simp [hr])
    have e : spec_escape (c :: s) =
        (if c ∈ [45, 60, 62, 91, 93, 47, 39, 92] then [92, c] else [c]) ++ spec_escape s := by
      simp [spec_escape]
    rw [e]
    by_cases hm : c ∈ [45, 60, 62, 91, 93, 47, 39, 92]
    · simp only [hm, if_true, List.cons_append, List.nil_append]
      rw [quoted_loop_escape, ih hr]
      simp
    · simp only [hm, if_false, List.cons_append, List.nil_append]
      have h39 : c ≠ 39 := fun hc => hm (by simp [hc])
      have h92 : c ≠ 92 := fun hc => hm (by simp [hc])
      rw [quoted_loop_plain hc h39 h92, ih hr]
      simp

theorem parse_quoted_string_spec_quoted (s : List Nat) (h0 : 0 ∉ s) (hu : utf8_valid s = true)
    (err : Option PyErr) :
    parse_quoted_string (spec_quoted s) err = Res.ok (PyObj.str s) [] err := by
  have e : spec_quoted s = 39 :: (spec_escape s ++ 39 :: []) := by simp [spec_quoted]
  rw [e]
  unfold parse_quoted_string
  simp only
  rw [quoted_loop_escaped s h0]
  simp [peek, decode_utf8, hu]

/-- Decoding the quoted form of a NUL-free, well-formed string gives back the string. -/
theorem loads_spec_quoted (s : List Nat) (h0 : 0 ∉ s) (hu : utf8_valid s = true) :
    xton_loads (spec_quoted s) = Outcome.ret (some (PyObj.str s)) none := by
  have e : spec_quoted s = 39 :: (spec_escape s ++ [39]) := by simp [spec_quoted]
  have hz : (0 : Nat) ∉ spec_quoted s := by
    have := zero_not_mem_spec_escape h0
    simp [spec_quoted, this]
  have hp : parse_value ((spec_quoted s).length + 1) (spec_quoted s) none
      = Res.ok (PyObj.str s) [] none := by
    have hq := parse_quoted_string_spec_quoted s h0 hu none
    rw [e] at hq ⊢
    rw [parse_value_of_plain _ _ _ (by decide) (by decide) (by decide) (by decide) (by decide)
      (by decide)]
    unfold parse_strings
    rw [hq]
  unfold xton_loads loads_with
  rw [if_neg hz]
  have hs : skip_whitespace (spec_quoted s) = spec_quoted s := by
    rw [e]; exact skip_whitespace_cons_of_not_space _ (by decide)
  simp only [hs, hp]
  simp [skip_whitespace, peek]

/-! ## Runs of bytes -/

theorem takeWhile_run {p : Nat → Bool} {l r : List Nat} (hl : ∀ c ∈ l, p c = true)
    (hr : p (peek r) = false) : (l ++ r).takeWhile p = l := by
  rw [List.takeWhile_append_of_pos hl]
  cases r with
  | nil => simp
  | cons c r' =>
    have : ¬ p c = true := by simpa [peek] using hr
    simp [List.takeWhile_cons_of_neg this]

theorem dropWhile_run {p : Nat → Bool} {l r : List Nat} (hl : ∀ c ∈ l, p c = true)
    (hr : p (peek r) = false) : (l ++ r).dropWhile p = r := by
  rw [List.dropWhile_append_of_pos hl]
  cases r with
  | nil => simp
  | cons c r' =>
    have : ¬ p c = true := by simpa [peek] using hr
    simp [List.dropWhile_cons_of_neg this]

/-! ## Decimal numerals -/

theorem nat_repr_aux_ne_nil (f n : Nat) : nat_repr_aux (f + 1) n ≠ [] := by
  unfold nat_repr_aux
  split <;> simp

theorem nat_repr_ne_nil (n : Nat) : nat_repr n ≠ [] := nat_repr_aux_ne_nil n n

theorem nat_repr_aux_digits (f n : Nat) : ∀ c ∈ nat_repr_aux f n, isdigit c = true := by
  induction f generalizing n with
  | zero => simp [nat_repr_aux]
  | succ f ih =>
    unfold nat_repr_aux
    split
    · rename_i h
      intro c hc
      simp at hc
      subst hc
      simp [isdigit]; omega
    · intro c hc
      simp only [List.mem_append, List.mem_singleton] at hc
      rcases hc with hc | hc
      · exact ih _ c hc
      · subst hc
        simp [isdigit]; omega

theorem nat_repr_digits (n : Nat) : ∀ c ∈ nat_repr n, isdigit c = true :=
  nat_repr_aux_digits (n + 1) n

theorem digits_val_append_single (ds : List Nat) (c : Nat) :
    digits_val (ds ++ [c]) = 10 * digits_val ds + (c - 48) := by
  simp [digits_val, List.foldl_append]

theorem digits_val_nat_repr_aux (f n : Nat) (h : n < f) : digits_val (nat_repr_aux f n) = n := by
  induction f generalizing n with
  | zero => omega
  | succ f ih =>
    unfold nat_repr_aux
    split
    · simp [digits_val]
    · rename_i h10
      rw [digits_val_append_single, ih (n / 10) (by omega)]
      omega

/-- The decimal numeral of `n` reads back as `n`. -/
theorem digits_val_nat_repr (n : Nat) : digits_val (nat_repr n) = n :=
  digits_val_nat_repr_aux (n + 1) n (by omega)

/-! ## `strtod` on a plain run of digits -/

theorem isdigit_not_space {c : Nat} (h : isdigit c = true) : isspace c = false := by
  simp [isdigit] at h
  simp [isspace]; omega

theorem lex_mantissa_digits {ds r : List Nat} (hd : ∀ c ∈ ds, isdigit c = true)
    (hr : ends_numeral r) : lex_mantissa isdigit (ds ++ r) = (ds, [], r) := by
  unfold lex_mantissa
  rw [takeWhile_run hd hr.1, dropWhile_run hd hr.1]
  cases r with
  | nil => rfl
  | cons c r' =>
    have : c ≠ 46 := by simpa [peek] using hr.2.1
    dsimp only
    split
    · rename_i heq
      simp at heq
      exact absurd heq.1 this
    · rfl

theorem lex_exponent_none {r : List Nat} (hr : ends_numeral r) :
    lex_exponent (fun c => c == 101 || c == 69) r = (0, r) := by
  cases r with
  | nil => rfl
  | cons c r' =>
    have h1 : c ≠ 101 := by simpa [peek] using hr.2.2.1
    have h2 : c ≠ 69 := by simpa [peek] using hr.2.2.2.1
    simp [lex_exponent, h1, h2]

theorem strtod_dec_digits (neg : Bool) {ds r : List Nat} (hne : ds ≠ [])
    (hd : ∀ c ∈ ds, isdigit c = true) (hr : ends_numeral r) :
    strtod_dec neg (ds ++ r) = some (round_ratio neg (digits_val ds) 1, r) := by
  unfold strtod_dec
  simp only [lex_mantissa_digits hd hr, lex_exponent_none hr]
  simp [hne, round_scaled]

theorem strtod_hex_digits (neg : Bool) {ds r : List Nat} (hne : ds ≠ [])
    (hd : ∀ c ∈ ds, isdigit c = true) (hr : ends_numeral r) :
    strtod_hex neg (ds ++ r) = none := by
  cases ds with
  | nil => exact absurd rfl hne
  | cons d ds' =>
    cases ds' with
    | nil =>
      cases r with
      | nil => simp [strtod_hex]
      | cons c r' =>
        have h1 : c ≠ 120 := by simpa [peek] using hr.2.2.2.2.1
        have h2 : c ≠ 88 := by simpa [peek] using hr.2.2.2.2.2
        unfold strtod_hex
        split
        · rename_i heq
          simp at heq
          obtain ⟨-, rfl, -⟩ := heq
          simp [h1, h2]
        · rfl
    | cons d2 ds'' =>
      have hd2 : isdigit d2 = true := hd d2 (by simp)
      have h1 : d2 ≠ 120 := by intro h; subst h; simp [isdigit] at hd2
      have h2 : d2 ≠ 88 := by intro h; subst h; simp [isdigit] at hd2
      unfold strtod_hex
      split
      · rename_i heq
        simp at heq
        obtain ⟨-, rfl, -⟩ := heq
        simp [h1, h2]
      · rfl

theorem strtod_special_digit (neg : Bool) {d : Nat} (r : List Nat) (hd : isdigit d = true) :
    strtod_special neg (d :: r) = none := by
  have h1 : tolower d ≠ 105 := by
    simp [isdigit] at hd
    simp [tolower]; split <;> omega
  have h2 : tolower d ≠ 110 := by
    simp [isdigit] at hd
    simp [tolower]; split <;> omega
  simp [strtod_special, List.take, h1, h2]

theorem lex_sign_digit {d : Nat} (r : List Nat) (hd : isdigit d = true) :
    lex_sign (d :: r) = (false, d :: r) := by
  have h1 : d ≠ 45 := by intro h; subst h; simp [isdigit] at hd
  have h2 : d ≠ 43 := by intro h; subst h; simp [isdigit] at hd
  unfold lex_sign
  split
  · rename_i heq; simp at heq; exact absurd heq.1 h1
  · rename_i heq; simp at heq; exact absurd heq.1 h2
  · rfl

/-- On a run of digits that ends the numeral, `strtod` reads exactly the digits. -/
theorem strtod_digits {ds r : List Nat} (hne : ds ≠ [])
    (hd : ∀ c ∈ ds, isdigit c = true) (hr : ends_numeral r) :
    strtod (ds ++ r) = some (round_ratio false (digits_val ds) 1, r) := by
  obtain ⟨d, ds', rfl⟩ := List.exists_cons_of_ne_nil hne
  have hd0 : isdigit d = true := hd d (by simp)
  unfold strtod
  rw [List.cons_append, skip_whitespace_cons_of_not_space _ (isdigit_not_space hd0),
    lex_sign_digit _ hd0]
  simp only
  rw [strtod_special_digit _ _ hd0]
  simp only
  rw [← List.cons_append, strtod_hex_digits false hne hd hr, strtod_dec_digits false hne hd hr]

/-- The same after a minus sign. -/
theorem strtod_minus_digits {ds r : List Nat} (hne : ds ≠ [])
    (hd : ∀ c ∈ ds, isdigit c = true) (hr : ends_numeral r) :
    strtod (45 :: (ds ++ r)) = some (round_ratio true (digits_val ds) 1, r) := by
  obtain ⟨d, ds', rfl⟩ := List.exists_cons_of_ne_nil hne
  have hd0 : isdigit d = true := hd d (by simp)
  unfold strtod
  rw [skip_whitespace_cons_of_not_space _ (by decide)]
  simp only [lex_sign]
  rw [List.cons_append, strtod_special_digit _ _ hd0]
  simp only
  rw [← List.cons_append, strtod_hex_digits true hne hd hr, strtod_dec_digits true hne hd hr]

/-! ## The decoder on a numeral and on a bare key -/

theorem ends_numeral_nil : ends_numeral [] := by
  simp [ends_numeral, peek, isdigit]

theorem ends_numeral_bracket : ends_numeral [93] := by
  simp [ends_numeral, peek, isdigit]

theorem parse_scalar_digits {ds r : List Nat} (err : Option PyErr) (hne : ds ≠ [])
    (hd : ∀ c ∈ ds, isdigit c = true) (hr : ends_numeral r) :
    parse_scalar (ds ++ r) err = Res.ok (PyObj.float (round_ratio false (digits_val ds) 1)) r err := by
  obtain ⟨d, ds', rfl⟩ := List.exists_cons_of_ne_nil hne
  have hd0 : isdigit d = true := hd d (by simp)
  have h92 : d ≠ 92 := by intro h; subst h; simp [isdigit] at hd0
  have hg : number_gate (d :: ds' ++ r) = true := by simp [number_gate, peek, hd0]
  unfold parse_scalar
  simp only [hg, if_true]
  rw [show parse_number (d :: ds' ++ r) err
      = Res.ok (PyObj.float (round_ratio false (digits_val (d :: ds')) 1)) r err by
    unfold parse_number; rw [strtod_digits hne hd hr]]
  simp [List.take, h92]

theorem parse_scalar_minus_digits {ds r : List Nat} (err : Option PyErr) (hne : ds ≠ [])
    (hd : ∀ c ∈ ds, isdigit c = true) (hr : ends_numeral r) :
    parse_scalar (45 :: (ds ++ r)) err
      = Res.ok (PyObj.float (round_ratio true (digits_val ds) 1)) r err := by
  obtain ⟨d, ds', rfl⟩ := List.exists_cons_of_ne_nil hne
  have hd0 : isdigit d = true := hd d (by simp)
  have hg : number_gate (45 :: (d :: ds' ++ r)) = true := by simp [number_gate, peek, hd0]
  unfold parse_scalar
  simp only [hg, if_true]
  rw [show parse_number (45 :: (d :: ds' ++ r)) err
      = Res.ok (PyObj.float (round_ratio true (digits_val (d :: ds')) 1)) r err by
    unfold parse_number; rw [strtod_minus_digits hne hd hr]]
  simp [List.take]

/-- At a digit or a minus sign `parse_value` goes straight to the scalar branch. -/
theorem parse_value_of_number_start (n : Nat) {c : Nat} (r : List Nat) (err : Option PyErr)
    (h : isdigit c = true ∨ c = 45) :
    parse_value (n + 1) (c :: r) err = parse_scalar (c :: r) err := by
  have hs : isspace c = false := by
    rcases h with h | h
    · exact isdigit_not_space h
    · subst h; decide
  have h60 : c ≠ 60 := by
    rcases h with h | h
    · intro hc; subst hc; simp [isdigit] at h
    · subst h; decide
  have h91 : c ≠ 91 := by
    rcases h with h | h
    · intro hc; subst hc; simp [isdigit] at h
    · subst h; decide
  unfold parse_value
  rw [skip_whitespace_cons_of_not_space r hs, parse_object_of_ne h60]
  simp only
  rw [parse_array_of_ne h91]

theorem long_repr_cases (n : Int) :
    (n < 0 ∧ long_repr n = 45 :: nat_repr n.natAbs) ∨ (¬ n < 0 ∧ long_repr n = nat_repr n.natAbs) := by
  unfold long_repr
  by_cases h : n < 0
  · exact Or.inl ⟨h, by simp [h]⟩
  · exact Or.inr ⟨h, by simp [h]⟩

/-- The decimal text of an integer parses, as a whole, to the nearest binary64 value. -/
theorem parse_value_long_repr (f : Nat) (n : Int) (err : Option PyErr) :
    parse_value (f + 1) (long_repr n) err = Res.ok (PyObj.float (Dbl.of_int n)) [] err := by
  have hne := nat_repr_ne_nil n.natAbs
  have hd := nat_repr_digits n.natAbs
  rcases long_repr_cases n with ⟨hn, e⟩ | ⟨hn, e⟩
  · rw [e, parse_value_of_number_start f _ err (Or.inr rfl)]
    have := parse_scalar_minus_digits err hne hd ends_numeral_nil
    rw [List.append_nil, digits_val_nat_repr] at this
    rw [this]
    simp [Dbl.of_int, hn]
  · obtain ⟨d, ds', hds⟩ := List.exists_cons_of_ne_nil hne
    have hd0 : isdigit d = true := hd d (by simp [hds])
    have := parse_scalar_digits err hne hd ends_numeral_nil
    rw [List.append_nil, digits_val_nat_repr] at this
    rw [e, hds, parse_value_of_number_start f _ err (Or.inl hd0), ← hds, this]
    simp [Dbl.of_int, hn]

/-- A string that needs no quoting: not empty, and no byte of it is a
delimiter, a quote or a backslash. -/
theorem needs_quoting_false_iff (k : List Nat) :
    needs_quoting k = false ↔
      k ≠ [] ∧ ∀ c ∈ k, is_xton_identifier_delimiter c = false ∧ c ≠ 39 ∧ c ≠ 92 := by
  cases k with
  | nil => simp [needs_quoting]
  | cons c r =>
    simp only [needs_quoting, List.isEmpty_cons, Bool.false_or, List.any_eq_false, ne_eq,
      reduceCtorEq, not_false_eq_true, true_and]
    constructor
    · intro h x hx
      have := h x hx
      simp only [Bool.or_eq_true, beq_iff_eq, not_or] at this
      exact ⟨by simpa using this.1.1, this.1.2, this.2⟩
    · intro h x hx
      have := h x hx
      simp [this.1, this.2.1, this.2.2]

theorem parse_unquoted_string_run {k r : List Nat} (err : Option PyErr) (hne : k ≠ [])
    (hk : ∀ c ∈ k, is_xton_identifier_delimiter c = false)
    (hr : is_xton_identifier_delimiter (peek r) = true) :
    parse_unquoted_string (k ++ r) err = decode_utf8 k r err := by
  have hk2 : ∀ c ∈ k, (fun c => !is_xton_identifier_delimiter c) c = true := by
    intro c hc; simp [hk c hc]
  have hr2 : (fun c => !is_xton_identifier_delimiter c) (peek r) = false := by simp [hr]
  unfold parse_unquoted_string
  simp only [takeWhile_run hk2 hr2, dropWhile_run hk2 hr2, hne, if_false]

theorem parse_unquoted_string_at_delim {r : List Nat} (err : Option PyErr)
    (hr : is_xton_identifier_delimiter (peek r) = true) :
    parse_unquoted_string r err = Res.null r err := by
  unfold parse_unquoted_string
  cases r with
  | nil => simp
  | cons c r' =>
    have : is_xton_identifier_delimiter c = true := by simpa [peek] using hr
    simp [List.takeWhile, this]

theorem parse_quoted_string_of_ne {c : Nat} (r : List Nat) (err : Option PyErr) (h : c ≠ 39) :
    parse_quoted_string (c :: r) err = Res.null (c :: r) err := by
  unfold parse_quoted_string
  split
  · rename_i heq; simp at heq; exact absurd heq.1 h
  · rfl

theorem parse_quoted_string_nil (err : Option PyErr) :
    parse_quoted_string [] err = Res.null [] err := rfl

theorem zero_not_mem_long_repr (n : Int) : 0 ∉ long_repr n := by
  have hd := nat_repr_digits n.natAbs
  have h0 : 0 ∉ nat_repr n.natAbs := fun h => by simpa [isdigit] using hd 0 h
  rcases long_repr_cases n with ⟨-, e⟩ | ⟨-, e⟩ <;> rw [e] <;> simp [h0]

/-- Decoding `key-number` text whose key is bare and does not start with a digit. -/
theorem loads_bare_pair (k : List Nat) (n : Int) (hq : needs_quoting k = false)
    (hd : isdigit (peek k) = false) (hu : utf8_valid k = true) :
    xton_loads (k ++ [45] ++ long_repr n)
      = Outcome.ret (some (PyObj.dict [(PyObj.str k, PyObj.float (Dbl.of_int n))])) none := by
  obtain ⟨hne, hk⟩ := (needs_quoting_false_iff k).1 hq
  have hkd : ∀ c ∈ k, is_xton_identifier_delimiter c = false := fun c hc => (hk c hc).1
  obtain ⟨c, k', rfl⟩ := List.exists_cons_of_ne_nil hne
  have hc := hk c (by simp)
  have hcd : isdigit c = false := by simpa [peek] using hd
  have hcs : isspace c = false := isspace_not_delim hc.1
  have hc' : c ≠ 60 ∧ c ≠ 91 ∧ c ≠ 45 := by
    have := hc.1
    simp [is_xton_identifier_delimiter] at this
    exact ⟨this.1.1.1.1.1.1.2, this.1.1.1.1.2, this.1.1.2⟩
  have e : (c :: k') ++ [45] ++ long_repr n = (c :: k') ++ (45 :: long_repr n) := by simp
  have hz : (0 : Nat) ∉ (c :: k') ++ (45 :: long_repr n) := by
    have h1 : (0 : Nat) ∉ (c :: k') := fun h => by
      have := (hk 0 h).1
      simp [is_xton_identifier_delimiter] at this
    have h2 := zero_not_mem_long_repr n
    intro h
    rcases List.mem_append.1 h with h | h
    · exact h1 h
    · rcases List.mem_cons.1 h with h | h
      · exact absurd h (by decide)
      · exact h2 h
  have hdel : is_xton_identifier_delimiter (peek (45 :: long_repr n)) = true := by
    simp [peek, is_xton_identifier_delimiter]
  have hkey : ∀ err, parse_unquoted_string ((c :: k') ++ (45 :: long_repr n)) err
      = Res.ok (PyObj.str (c :: k')) (45 :: long_repr n) err := by
    intro err
    rw [parse_unquoted_string_run err hne hkd hdel]
    simp [decode_utf8, hu]
  have h1 : ∀ f, parse_value (f + 1) ((c :: k') ++ (45 :: long_repr n)) none
      = Res.ok (PyObj.str (c :: k')) (45 :: long_repr n) none := by
    intro f
    rw [List.cons_append, parse_value_of_plain f _ none hcs hc'.1 hc'.2.1 hc.2.2 hcd hc'.2.2]
    unfold parse_strings
    rw [parse_quoted_string_of_ne _ _ hc.2.1]
    simp only
    rw [← List.cons_append, hkey]
  have hsk : skip_whitespace ((c :: k') ++ (45 :: long_repr n))
      = (c :: k') ++ (45 :: long_repr n) := skip_whitespace_cons_of_not_space _ hcs
  have hsk2 : skip_whitespace (45 :: long_repr n) = 45 :: long_repr n :=
    skip_whitespace_cons_of_not_space _ (by decide)
  have hsk3 : skip_whitespace (long_repr n) = long_repr n := by
    rcases long_repr_cases n with ⟨-, e⟩ | ⟨-, e⟩
    · rw [e]; exact skip_whitespace_cons_of_not_space _ (by decide)
    · obtain ⟨d, ds', hds⟩ := List.exists_cons_of_ne_nil (nat_repr_ne_nil n.natAbs)
      have hd0 : isdigit d = true := nat_repr_digits n.natAbs d (by simp [hds])
      rw [e, hds]; exact skip_whitespace_cons_of_not_space _ (isdigit_not_space hd0)
  rw [e]
  unfold xton_loads loads_with
  rw [if_neg hz]
  simp only [hsk, h1, hsk2, peek]
  simp only [show ¬ ((45 : Nat) = 0) by decide, if_false]
  unfold loads_pair
  rw [hkey]
  simp only [hsk2, peek, List.tail_cons, hsk3, if_true]
  rw [parse_value_long_repr]
  simp [skip_whitespace, peek]

/-! ## Integers that binary64 holds exactly -/

theorem bitlen_aux_spec (f n : Nat) (h : n ≤ f) (hn : 0 < n) :
    ∃ b, bitlen_aux f n = b + 1 ∧ 2 ^ b ≤ n ∧ n < 2 ^ (b + 1) := by
  induction f generalizing n with
  | zero => omega
  | succ f ih =>
    unfold bitlen_aux
    rw [if_neg (by omega)]
    by_cases h1 : n / 2 = 0
    · have hn1 : n = 1 := by omega
      refine ⟨0, ?_, by omega, by omega⟩
      rw [h1]
      cases f <;> simp [bitlen_aux]
    · obtain ⟨b, hb, hlo, hhi⟩ := ih (n / 2) (by omega) (by omega)
      refine ⟨b + 1, by rw [hb], ?_, ?_⟩
      · rw [pow_succ]; omega
      · rw [pow_succ]; omega

theorem bitlen_spec (n : Nat) (hn : 0 < n) :
    ∃ b, bitlen n = b + 1 ∧ 2 ^ b ≤ n ∧ n < 2 ^ (b + 1) :=
  bitlen_aux_spec n n (Nat.le_refl n) hn

/-- Below `2^53` rounding keeps a positive integer: the result is `n`, scaled
to a 53-bit significand. -/
theorem round_ratio_small (neg : Bool) (n : Nat) (hn : 0 < n) (h : n < 2 ^ 53) :
    ∃ b : Nat, b ≤ 52 ∧ round_ratio neg n 1 = Dbl.fin neg (n * 2 ^ (52 - b)) ((b : Int) - 52) := by
  obtain ⟨b, hb, hlo, hhi⟩ := bitlen_spec n hn
  have hb52 : b ≤ 52 := by
    by_contra hc
    have : 2 ^ 53 ≤ 2 ^ b := Nat.pow_le_pow_right (by decide) (by omega)
    omega
  refine ⟨b, hb52, ?_⟩
  have h1 : bitlen 1 = 1 := by decide
  have hpow : 2 ^ b * 2 ^ (52 - b) = 2 ^ 52 := by
    rw [← pow_add]; congr 1; omega
  have hpow1 : 2 ^ (b + 1) * 2 ^ (52 - b) = 2 ^ 53 := by
    rw [← pow_add]; congr 1; omega
  have hq_lo : 2 ^ 52 ≤ n * 2 ^ (52 - b) := by
    rw [← hpow]; exact Nat.mul_le_mul_right _ hlo
  have hq_hi : n * 2 ^ (52 - b) < 2 ^ 53 := by
    rw [← hpow1]; exact Nat.mul_lt_mul_of_pos_right hhi (Nat.two_pow_pos _)
  have hsc : scale2 n 1 ((b : Int) - 52) = (n * 2 ^ (52 - b), 1) := by
    unfold scale2
    by_cases hb' : b = 52
    · subst hb'; simp
    · have hlt : ¬ (0 : Int) ≤ (b : Int) - 52 := by omega
      rw [if_neg hlt]
      have : (-((b : Int) - 52)).toNat = 52 - b := by omega
      rw [this]
  unfold round_ratio
  rw [if_neg (by omega), hb, h1]
  have he0 : ((b + 1 : Nat) : Int) - ((1 : Nat) : Int) - 52 = (b : Int) - 52 := by omega
  simp only [he0, hsc, Nat.div_one, Nat.mod_one]
  have hnlt : ¬ n * 2 ^ (52 - b) < 2 ^ 52 := by omega
  have hge : ¬ ((b : Int) - 52 < -1074) := by omega
  simp only [hnlt, if_false, hge, hsc, Nat.div_one, Nat.mod_one]
  have hr : round_half_even (n * 2 ^ (52 - b)) 0 1 = n * 2 ^ (52 - b) := by
    simp [round_half_even]
  have hne : ¬ n * 2 ^ (52 - b) = 2 ^ 53 := by omega
  have h971 : ¬ ((971 : Int) < (b : Int) - 52) := by omega
  simp only [hr, hne, if_false, h971]

/-- An integer of magnitude at most `2^53` is a binary64 value. -/
theorem of_int_exact (n : Int) (h : n.natAbs ≤ 2 ^ 53) : Dbl.eq_int (Dbl.of_int n) n = true := by
  by_cases h0 : n.natAbs = 0
  · have : n = 0 := by omega
    subst this
    have e : Dbl.of_int 0 = Dbl.fin false 0 (-1074) := rfl
    rw [e]
    simp only [Dbl.eq_int]
    rw [if_neg (by decide)]
    simp only [Bool.false_eq_true, if_false, Int.zero_mul]
    rfl
  by_cases h53 : n.natAbs = 2 ^ 53
  · have : n = 9007199254740992 ∨ n = -9007199254740992 := by
      have : (2 : Nat) ^ 53 = 9007199254740992 := by norm_num
      omega
    rcases this with rfl | rfl <;> decide
  obtain ⟨b, hb, hr⟩ := round_ratio_small (decide (n < 0)) n.natAbs (by omega) (by omega)
  unfold Dbl.of_int
  rw [hr]
  simp only [Dbl.eq_int]
  by_cases hb' : b = 52
  · subst hb'
    by_cases hn : n < 0
    · have : n = -(n.natAbs : Int) := by omega
      have e52 : ((52 : Nat) : Int) - 52 = 0 := by norm_num
      simp only [hn, decide_True, if_true, beq_iff_eq, e52, Int.le_refl, Int.toNat_zero,
        pow_zero, Nat.mul_one, Nat.sub_self]
      omega
    · have : n = (n.natAbs : Int) := by omega
      have e52 : ((52 : Nat) : Int) - 52 = 0 := by norm_num
      simp only [hn, decide_False, beq_iff_eq, e52, Int.le_refl, Int.toNat_zero,
        pow_zero, Nat.mul_one, Nat.sub_self, if_true]
      simp only [Bool.false_eq_true, if_false]
      omega
  · have hlt : ¬ (0 : Int) ≤ (b : Int) - 52 := by omega
    rw [if_neg hlt]
    have e : (-((b : Int) - 52)).toNat = 52 - b := by omega
    rw [e]
    by_cases hn : n < 0
    · have : n = -(n.natAbs : Int) := by omega
      simp only [hn, decide_True, if_true, beq_iff_eq]
      rw [Nat.cast_mul]
      conv_rhs => rw [this]
      ring
    · have : n = (n.natAbs : Int) := by omega
      simp only [hn, decide_False, beq_iff_eq]
      rw [Nat.cast_mul]
      conv_rhs => rw [this]
      simp

/-! ## Cursors in a text that ends with a closing bracket -/

theorem drops_to_refl (s : List Nat) : drops_to s s := ⟨[], rfl, by simp⟩

theorem drops_to_trans {a b c : List Nat} (h1 : drops_to a b) (h2 : drops_to b c) :
    drops_to a c := by
  obtain ⟨p, rfl, hp⟩ := h1
  obtain ⟨q, rfl, hq⟩ := h2
  exact ⟨p ++ q, by simp, by simp [hp, hq]⟩

theorem drops_to_cons {c : Nat} {r s : List Nat} (hc : c ≠ 93) (h : drops_to r s) :
    drops_to (c :: r) s := by
  obtain ⟨p, rfl, hp⟩ := h
  exact ⟨c :: p, by simp, by simp [hp, Ne.symm hc]⟩

theorem drops_to_dropWhile (p : Nat → Bool) (hp : p 93 = false) (s : List Nat) :
    drops_to s (s.dropWhile p) := by
  refine ⟨s.takeWhile p, (List.takeWhile_append_dropWhile p s).symm, ?_⟩
  intro h
  have := List.mem_takeWhile_imp h
  rw [hp] at this
  exact absurd this (by simp)

theorem drops_to_drop_of_take {n : Nat} {s lit : List Nat} (f : Nat → Nat) (hf : f 93 = 93)
    (h : (s.take n).map f = lit) (hl : 93 ∉ lit) : drops_to s (s.drop n) := by
  refine ⟨s.take n, (List.take_append_drop n s).symm, ?_⟩
  intro hm
  apply hl
  rw [← h, ← hf]
  exact List.mem_map_of_mem f hm

theorem drops_to_suffix {s s' : List Nat} (h : drops_to s s') : s' <:+ s := by
  obtain ⟨p, rfl, -⟩ := h
  exact List.suffix_append p s'

theorem ends_bracket_ne_nil {s : List Nat} (h : ends_bracket s) : s ≠ [] := by
  intro hs; subst hs; simp [ends_bracket] at h

theorem ends_bracket_of_suffix {s s' : List Nat} (h : s' <:+ s) (hne : s' ≠ [])
    (hs : ends_bracket s) : ends_bracket s' := by
  obtain ⟨p, rfl⟩ := h
  obtain ⟨x, hx⟩ : ∃ x, s'.getLast? = some x := by
    cases hl : s'.getLast? with
    | none => exact absurd (List.getLast?_eq_none_iff.1 hl) hne
    | some x => exact ⟨x, rfl⟩
  unfold ends_bracket at hs ⊢
  rw [List.getLast?_append, hx] at hs
  rw [hx]
  simpa using hs

theorem drops_to_ne_nil {s s' : List Nat} (h : drops_to s s') (hs : ends_bracket s) : s' ≠ [] := by
  obtain ⟨p, rfl, hp⟩ := h
  intro hn
  subst hn
  rw [List.append_nil] at hs
  exact hp (List.mem_of_getLast?_eq_some hs)

theorem ends_bracket_drops {s s' : List Nat} (h : drops_to s s') (hs : ends_bracket s) :
    ends_bracket s' :=
  ends_bracket_of_suffix (drops_to_suffix h) (drops_to_ne_nil h hs) hs

theorem ends_bracket_tail {c : Nat} {r : List Nat} (hc : c ≠ 93) (h : ends_bracket (c :: r)) :
    ends_bracket r :=
  ends_bracket_drops (drops_to_cons hc (drops_to_refl r)) h

theorem skip_whitespace_ends_bracket {s : List Nat} (h : ends_bracket s) :
    ends_bracket (skip_whitespace s) :=
  ends_bracket_drops (drops_to_dropWhile isspace (by decide) s) h

/-! ## `strtod` never reads a closing bracket -/

theorem lex_sign_drops (s : List Nat) : drops_to s (lex_sign s).2 := by
  unfold lex_sign
  split
  · exact drops_to_cons (by decide) (drops_to_refl _)
  · exact drops_to_cons (by decide) (drops_to_refl _)
  · exact drops_to_refl _

theorem lex_mantissa_drops (isd : Nat → Bool) (h : isd 93 = false) (s : List Nat) :
    drops_to s (lex_mantissa isd s).2.2 := by
  unfold lex_mantissa
  dsimp only
  have h1 := drops_to_dropWhile isd h s
  split
  · rename_i r heq
    split
    · exact drops_to_refl _
    · rw [heq] at h1
      exact drops_to_trans h1 (drops_to_cons (by decide) (drops_to_dropWhile isd h r))
  · exact h1

theorem lex_exponent_drops (mark : Nat → Bool) (h : mark 93 = false) (s : List Nat) :
    drops_to s (lex_exponent mark s).2 := by
  unfold lex_exponent
  split
  · rename_i c r
    split
    · rename_i hm
      dsimp only
      split
      · exact drops_to_refl _
      · have hc : c ≠ 93 := by intro hc; subst hc; rw [h] at hm; exact absurd hm (by simp)
        exact drops_to_cons hc
          (drops_to_trans (lex_sign_drops r) (drops_to_dropWhile isdigit (by decide) _))
    · exact drops_to_refl _
  · exact drops_to_refl _

theorem strtod_special_drops {neg : Bool} {s s' : List Nat} {v : Dbl}
    (h : strtod_special neg s = some (v, s')) : drops_to s s' := by
  unfold strtod_special at h
  split at h
  · rename_i h8
    simp only [Option.some.injEq, Prod.mk.injEq] at h
    rw [← h.2]
    exact drops_to_drop_of_take tolower (by decide) h8 (by decide)
  · split at h
    · rename_i h3
      simp only [Option.some.injEq, Prod.mk.injEq] at h
      rw [← h.2]
      exact drops_to_drop_of_take tolower (by decide) h3 (by decide)
    · split at h
      · rename_i h3
        simp only [Option.some.injEq, Prod.mk.injEq] at h
        rw [← h.2]
        exact drops_to_drop_of_take tolower (by decide) h3 (by decide)
      · exact absurd h (by simp)

theorem strtod_hex_drops {neg : Bool} {s s' : List Nat} {v : Dbl}
    (h : strtod_hex neg s = some (v, s')) : drops_to s s' := by
  unfold strtod_hex at h
  split at h
  · rename_i x r
    split at h
    · rename_i hx
      dsimp only at h
      split at h
      · exact absurd h (by simp)
      · simp only [Option.some.injEq, Prod.mk.injEq] at h
        rw [← h.2]
        have hx93 : x ≠ 93 := by rcases hx with hx | hx <;> omega
        exact drops_to_cons (by decide) (drops_to_cons hx93
          (drops_to_trans (lex_mantissa_drops isxdigit (by decide) r)
            (lex_exponent_drops _ (by decide) _)))
    · exact absurd h (by simp)
  · exact absurd h (by simp)

theorem strtod_dec_drops {neg : Bool} {s s' : List Nat} {v : Dbl}
    (h : strtod_dec neg s = some (v, s')) : drops_to s s' := by
  unfold strtod_dec at h
  dsimp only at h
  split at h
  · exact absurd h (by simp)
  · simp only [Option.some.injEq, Prod.mk.injEq] at h
    rw [← h.2]
    exact drops_to_trans (lex_mantissa_drops isdigit (by decide) s)
      (lex_exponent_drops _ (by decide) _)

/-- The text that `strtod` consumes holds no closing bracket. -/
theorem strtod_drops {s s' : List Nat} {v : Dbl} (h : strtod s = some (v, s')) :
    drops_to s s' := by
  unfold strtod at h
  dsimp only at h
  have h0 : drops_to s (lex_sign (skip_whitespace s)).2 :=
    drops_to_trans (drops_to_dropWhile isspace (by decide) s) (lex_sign_drops _)
  split at h
  · rename_i r hsp
    simp only [Option.some.injEq] at h
    subst h
    exact drops_to_trans h0 (strtod_special_drops hsp)
  · split at h
    · rename_i r hx
      simp only [Option.some.injEq] at h
      subst h
      exact drops_to_trans h0 (strtod_hex_drops hx)
    · exact drops_to_trans h0 (strtod_dec_drops h)

/-! ## The scalar branch in a text that ends with a closing bracket -/

theorem res_in_tail_of_suffix {s s1 : List Nat} {r : Res} (h : s1 <:+ s)
    (hr : res_in_tail s1 r) : res_in_tail s r := by
  cases r with
  | ok v s' e => exact ⟨List.IsSuffix.trans hr.1 h, hr.2⟩
  | null s' e => exact List.IsSuffix.trans hr h
  | ub => exact hr
  | fuel => exact hr

theorem tail_ok_of_suffix {s s' : List Nat} (h : s' <:+ s) (hs : s = [] ∨ ends_bracket s) :
    s' = [] ∨ ends_bracket s' := by
  by_cases hn : s' = []
  · exact Or.inl hn
  · rcases hs with hs | hs
    · subst hs
      exact Or.inl (List.suffix_nil.1 h)
    · exact Or.inr (ends_bracket_of_suffix h hn hs)

theorem quoted_loop_nil (buf : List Nat) : quoted_loop [] buf = some (buf, []) := by
  rw [quoted_loop.eq_def]

theorem quoted_loop_in_tail : ∀ (s buf : List Nat), (s = [] ∨ ends_bracket s) →
    ∃ b c, quoted_loop s buf = some (b, c) ∧ c <:+ s
  | [], buf, _ => ⟨buf, [], quoted_loop_nil buf, List.suffix_refl _⟩
  | [c], buf, h => by
    have hc : c = 93 := by
      rcases h with h | h
      · exact absurd h (by simp)
      · simpa [ends_bracket] using h
    subst hc
    rw [quoted_loop_plain (by decide) (by decide) (by decide), quoted_loop_nil]
    exact ⟨_, _, rfl, List.nil_suffix⟩
  | c :: d :: rest, buf, h => by
    have hs : ends_bracket (c :: d :: rest) := by
      rcases h with h | h
      · exact absurd h (by simp)
      · exact h
    have hd : ends_bracket (d :: rest) :=
      ends_bracket_of_suffix (List.suffix_cons c _) (by simp) hs
    by_cases hstop : c = 0 ∨ c = 39
    · exact ⟨buf, _, quoted_loop_stop hstop _ buf, List.suffix_refl _⟩
    · have h0 : c ≠ 0 := fun hc => hstop (Or.inl hc)
      have h39 : c ≠ 39 := fun hc => hstop (Or.inr hc)
      by_cases h92 : c = 92
      · subst h92
        rw [quoted_loop_escape]
        have hr : rest = [] ∨ ends_bracket rest :=
          tail_ok_of_suffix (List.suffix_cons d rest) (Or.inr hd)
        obtain ⟨b, c', hq, hsuf⟩ := quoted_loop_in_tail rest (buf ++ [d]) hr
        exact ⟨b, c', hq,
          List.IsSuffix.trans hsuf (List.IsSuffix.trans (List.suffix_cons d rest)
            (List.suffix_cons 92 _))⟩
      · rw [quoted_loop_plain h0 h39 h92]
        obtain ⟨b, c', hq, hsuf⟩ := quoted_loop_in_tail (d :: rest) (buf ++ [c]) (Or.inr hd)
        exact ⟨b, c', hq, List.IsSuffix.trans hsuf (List.suffix_cons c _)⟩

theorem decode_utf8_in_tail {s s' bytes : List Nat} (err : Option PyErr) (h : s' <:+ s)
    (hne : s' ≠ []) : res_in_tail s (decode_utf8 bytes s' err) := by
  unfold decode_utf8
  split
  · exact ⟨h, hne⟩
  · exact h

theorem parse_quoted_string_in_tail (s : List Nat) (err : Option PyErr)
    (h : s = [] ∨ ends_bracket s) : res_in_tail s (parse_quoted_string s err) := by
  unfold parse_quoted_string
  split
  · rename_i rest
    have hs : ends_bracket (39 :: rest) := by
      rcases h with h | h
      · exact absurd h (by simp)
      · exact h
    have hr : rest = [] ∨ ends_bracket rest :=
      tail_ok_of_suffix (List.suffix_cons 39 rest) (Or.inr hs)
    obtain ⟨b, c, hq, hsuf⟩ := quoted_loop_in_tail rest [] hr
    rw [hq]
    dsimp only
    have hsuf2 : c <:+ 39 :: rest := List.IsSuffix.trans hsuf (List.suffix_cons 39 rest)
    split
    · rename_i hp
      cases c with
      | nil => simp [peek] at hp
      | cons x c' =>
        have hx : x = 39 := by simpa [peek] using hp
        subst hx
        have hc : ends_bracket (39 :: c') := ends_bracket_of_suffix hsuf2 (by simp) hs
        have hc' : c' ≠ [] := by
          intro hn; subst hn; simp [ends_bracket] at hc
        exact decode_utf8_in_tail err
          (List.IsSuffix.trans (List.suffix_cons 39 c') hsuf2) hc'
    · exact hsuf2
  · exact List.suffix_refl _

theorem parse_unquoted_string_in_tail (s : List Nat) (err : Option PyErr)
    (h : s = [] ∨ ends_bracket s) : res_in_tail s (parse_unquoted_string s err) := by
  unfold parse_unquoted_string
  dsimp only
  split
  · exact List.suffix_refl _
  · rename_i hrun
    have hs : ends_bracket s := by
      rcases h with h | h
      · subst h; simp at hrun
      · exact h
    have hd := drops_to_dropWhile (fun c => !is_xton_identifier_delimiter c) (by decide) s
    exact decode_utf8_in_tail err (drops_to_suffix hd) (drops_to_ne_nil hd hs)

theorem parse_strings_in_tail (s : List Nat) (err : Option PyErr)
    (h : s = [] ∨ ends_bracket s) : res_in_tail s (parse_strings s err) := by
  have hq := parse_quoted_string_in_tail s err h
  unfold parse_strings
  cases hres : parse_quoted_string s err with
  | ok v s' e => rw [hres] at hq; exact hq
  | ub => rw [hres] at hq; exact hq
  | fuel => rw [hres] at hq; exact hq
  | null s1 e1 =>
    rw [hres] at hq
    have hu := parse_unquoted_string_in_tail s1 e1 (tail_ok_of_suffix hq h)
    dsimp only
    cases hres2 : parse_unquoted_string s1 e1 with
    | ok v s' e => rw [hres2] at hu; exact res_in_tail_of_suffix hq hu
    | ub => rw [hres2] at hu; exact hu
    | fuel => rw [hres2] at hu; exact hu
    | null s2 e2 =>
      rw [hres2] at hu
      exact List.IsSuffix.trans hu hq

theorem parse_number_in_tail (s : List Nat) (err : Option PyErr) (h : ends_bracket s) :
    res_in_tail s (parse_number s err) := by
  unfold parse_number
  split
  · exact List.suffix_refl _
  · rename_i v s' hst
    have hd := strtod_drops hst
    exact ⟨drops_to_suffix hd, drops_to_ne_nil hd h⟩

theorem parse_scalar_nil (err : Option PyErr) :
    parse_scalar [] err = Res.null [] (some PyErr.invalidFormat) := by
  simp [parse_scalar, number_gate, peek, isdigit, parse_strings, parse_quoted_string,
    parse_unquoted_string]

/-- In a text that ends with `]` the scalar branch leaves the `]` unread. -/
theorem parse_scalar_in_tail (s : List Nat) (err : Option PyErr)
    (h : s = [] ∨ ends_bracket s) : res_in_tail s (parse_scalar s err) := by
  rcases h with h | h
  · subst h
    rw [parse_scalar_nil]
    exact List.suffix_refl _
  · have tag : ∀ (n : Nat) (lit : List Nat), s.take n = lit → 93 ∉ lit →
        s.drop n <:+ s ∧ s.drop n ≠ [] := by
      intro n lit h1 h2
      have hd : drops_to s (s.drop n) :=
        drops_to_drop_of_take id rfl (by simpa using h1) h2
      exact ⟨drops_to_suffix hd, drops_to_ne_nil hd h⟩
    unfold parse_scalar
    split
    · rename_i h1; exact tag 5 _ h1 (by decide)
    · split
      · rename_i h1; exact tag 6 _ h1 (by decide)
      · split
        · rename_i h1; exact tag 5 _ h1 (by decide)
        · split
          · have hn := parse_number_in_tail s err h
            cases hres : parse_number s err with
            | ok v s' e => rw [hres] at hn; exact hn
            | ub => rw [hres] at hn; exact hn
            | fuel => rw [hres] at hn; exact hn
            | null s1 e1 =>
              rw [hres] at hn
              exact res_in_tail_of_suffix hn
                (parse_strings_in_tail s1 e1 (tail_ok_of_suffix hn (Or.inr h)))
          · exact parse_strings_in_tail s err (Or.inr h)

/-! ## A bare run followed by `-`, digits and `]` inside an array -/

theorem quoted_loop_no_stop (t buf : List Nat) (ht : ∀ c ∈ t, c ≠ 0 ∧ c ≠ 39 ∧ c ≠ 92) :
    quoted_loop t buf = some (buf ++ t, []) := by
  induction t generalizing buf with
  | nil => simpa using quoted_loop_nil buf
  | cons c r ih =>
    have hc := ht c (by simp)
    rw [quoted_loop_plain hc.1 hc.2.1 hc.2.2, ih _ (fun x hx => ht x (by simp [hx]))]
    simp

/-- The quoted loop over `k ++ t`, where `t` holds no quote, backslash or NUL:
it either runs to the end of the text or stops at a quote inside `k`. -/
theorem quoted_loop_through : ∀ (k t buf : List Nat), t ≠ [] →
    (∀ c ∈ t, c ≠ 0 ∧ c ≠ 39 ∧ c ≠ 92) → (∀ c ∈ k, c ≠ 0) →
    (∃ b, quoted_loop (k ++ t) buf = some (b, [])) ∨
    (∃ b k2, (∀ c ∈ k2, c ∈ k) ∧ quoted_loop (k ++ t) buf = some (b, 39 :: (k2 ++ t)))
  | [], t, buf, _, ht, _ => Or.inl ⟨_, quoted_loop_no_stop t buf ht⟩
  | [c], t, buf, hne, ht, hk => by
    have h0 : c ≠ 0 := hk c (by simp)
    by_cases h39 : c = 39
    · subst h39
      exact Or.inr ⟨buf, [], by simp, by simpa using quoted_loop_stop (Or.inr rfl) t buf⟩
    by_cases h92 : c = 92
    · subst h92
      obtain ⟨x, t', rfl⟩ := List.exists_cons_of_ne_nil hne
      refine Or.inl ⟨(buf ++ [x]) ++ t', ?_⟩
      rw [List.singleton_append, quoted_loop_escape]
      exact quoted_loop_no_stop t' _ (fun y hy => ht y (by simp [hy]))
    · refine Or.inl ⟨(buf ++ [c]) ++ t, ?_⟩
      rw [List.singleton_append, quoted_loop_plain h0 h39 h92]
      exact quoted_loop_no_stop t _ ht
  | c :: d :: rest, t, buf, hne, ht, hk => by
    have h0 : c ≠ 0 := hk c (by simp)
    by_cases h39 : c = 39
    · subst h39
      exact Or.inr ⟨buf, d :: rest, fun x hx => by simp [List.mem_cons.1 hx],
        by simpa using quoted_loop_stop (Or.inr rfl) (d :: rest ++ t) buf⟩
    by_cases h92 : c = 92
    · subst h92
      rcases quoted_loop_through rest t (buf ++ [d]) hne ht (fun x hx => hk x (by simp [hx]))
        with ⟨b, hb⟩ | ⟨b, k2, hk2, hb⟩
      · exact Or.inl ⟨b, by simpa [quoted_loop_escape] using hb⟩
      · exact Or.inr ⟨b, k2, fun x hx => by simp [hk2 x hx],
          by simpa [quoted_loop_escape] using hb⟩
    · rcases quoted_loop_through (d :: rest) t (buf ++ [c]) hne ht
        (fun x hx => hk x (List.mem_cons_of_mem c hx)) with ⟨b, hb⟩ | ⟨b, k2, hk2, hb⟩
      · exact Or.inl ⟨b, by
          rw [List.cons_append, quoted_loop_plain h0 h39 h92]; exact hb⟩
      · exact Or.inr ⟨b, k2, fun x hx => List.mem_cons_of_mem c (hk2 x hx), by
          rw [List.cons_append, quoted_loop_plain h0 h39 h92]; exact hb⟩

theorem parse_strings_nil (err : Option PyErr) :
    parse_strings [] err = Res.null [] (some PyErr.invalidFormat) := by
  simp [parse_strings, parse_quoted_string, parse_unquoted_string]

theorem parse_quoted_string_of_loop {rest b c : List Nat} (err : Option PyErr)
    (h : quoted_loop rest [] = some (b, c)) :
    parse_quoted_string (39 :: rest) err =
      if peek c = 39 then decode_utf8 b c.tail err
      else Res.null c (some PyErr.unterminatedString) := by
  unfold parse_quoted_string
  simp only [h]

theorem parse_strings_of_quoted_ok {s s1 : List Nat} {err e1 : Option PyErr} {v : PyObj}
    (h : parse_quoted_string s err = Res.ok v s1 e1) : parse_strings s err = Res.ok v s1 e1 := by
  unfold parse_strings
  rw [h]

theorem parse_strings_of_unquoted_ok {s s1 s2 : List Nat} {err e1 e2 : Option PyErr} {v : PyObj}
    (h : parse_quoted_string s err = Res.null s1 e1)
    (h2 : parse_unquoted_string s1 e1 = Res.ok v s2 e2) :
    parse_strings s err = Res.ok v s2 e2 := by
  unfold parse_strings
  rw [h]
  dsimp only
  rw [h2]

theorem parse_strings_of_null {s s1 s2 : List Nat} {err e1 e2 : Option PyErr}
    (h : parse_quoted_string s err = Res.null s1 e1)
    (h2 : parse_unquoted_string s1 e1 = Res.null s2 e2) :
    parse_strings s err = Res.null s2 (some PyErr.invalidFormat) := by
  unfold parse_strings
  rw [h]
  dsimp only
  rw [h2]

/-- The unquoted-string attempt on a bare run (possibly empty) followed by a
delimiter: a string and the cursor at the delimiter, or `NULL` there. -/
theorem unquoted_then_error {k t : List Nat} (err : Option PyErr)
    (hk : ∀ c ∈ k, is_xton_identifier_delimiter c = false)
    (ht : is_xton_identifier_delimiter (peek t) = true) :
    (∃ v e, parse_unquoted_string (k ++ t) err = Res.ok v t e) ∨
    (∃ e, parse_unquoted_string (k ++ t) err = Res.null t e) := by
  by_cases hne : k = []
  · subst hne
    exact Or.inr ⟨err, by simpa using parse_unquoted_string_at_delim err ht⟩
  · rw [parse_unquoted_string_run err hne hk ht]
    unfold decode_utf8
    split
    · exact Or.inl ⟨_, _, rfl⟩
    · exact Or.inr ⟨_, rfl⟩

/-- The shape of a result whose cursor stands in front of `k2 ++ t`, with `k2`
made of bytes of `k`, or at the end of the text. -/
theorem parse_strings_bare_run {k t : List Nat} (err : Option PyErr) (hne : k ≠ [])
    (hk : ∀ c ∈ k, is_xton_identifier_delimiter c = false)
    (htd : is_xton_identifier_delimiter (peek t) = true) (htne : t ≠ [])
    (ht : ∀ c ∈ t, c ≠ 0 ∧ c ≠ 39 ∧ c ≠ 92) :
    ∃ k2, (∀ c ∈ k2, c ∈ k) ∧
      ((∃ v e, parse_strings (k ++ t) err = Res.ok v (k2 ++ t) e) ∨
       (∃ e, parse_strings (k ++ t) err = Res.null (k2 ++ t) e) ∨
       (∃ e, parse_strings (k ++ t) err = Res.null [] e)) := by
  obtain ⟨c, k1, rfl⟩ := List.exists_cons_of_ne_nil hne
  have hk0 : ∀ x ∈ c :: k1, x ≠ 0 := by
    intro x hx h0
    subst h0
    have := hk 0 hx
    simp [is_xton_identifier_delimiter] at this
  by_cases h39 : c = 39
  · subst h39
    rw [List.cons_append]
    rcases quoted_loop_through k1 t [] htne ht (fun x hx => hk0 x (by simp [hx]))
      with ⟨b, hb⟩ | ⟨b, k2, hk2, hb⟩
    · have hq := parse_quoted_string_of_loop err hb
      rw [if_neg (by simp [peek])] at hq
      have hu : parse_unquoted_string [] (some PyErr.unterminatedString)
          = Res.null [] (some PyErr.unterminatedString) := by simp [parse_unquoted_string]
      exact ⟨[], by simp, Or.inr (Or.inr ⟨_, parse_strings_of_null hq hu⟩)⟩
    · have hq := parse_quoted_string_of_loop err hb
      rw [if_pos (by simp [peek]), List.tail_cons] at hq
      have hk2d : ∀ x ∈ k2, is_xton_identifier_delimiter x = false :=
        fun x hx => hk x (by simp [hk2 x hx])
      unfold decode_utf8 at hq
      split at hq
      · exact ⟨k2, fun x hx => by simp [hk2 x hx],
          Or.inl ⟨_, _, parse_strings_of_quoted_ok hq⟩⟩
      · refine ⟨[], by simp, ?_⟩
        rcases unquoted_then_error (some PyErr.unicodeDecode) hk2d htd
          with ⟨v, e, hu⟩ | ⟨e, hu⟩
        · exact Or.inl ⟨_, _, parse_strings_of_unquoted_ok hq hu⟩
        · exact Or.inr (Or.inl ⟨_, parse_strings_of_null hq hu⟩)
  · refine ⟨[], by simp, ?_⟩
    have hq := parse_quoted_string_of_ne (k1 ++ t) err h39
    rw [List.cons_append]
    rcases unquoted_then_error err hk htd with ⟨v, e, hu⟩ | ⟨e, hu⟩
    · exact Or.inl ⟨_, _, parse_strings_of_unquoted_ok hq hu⟩
    · exact Or.inr (Or.inl ⟨_, parse_strings_of_null hq hu⟩)

theorem take_append_of_tag {n : Nat} {k t lit : List Nat}
    (ht : ∀ c ∈ lit, is_xton_identifier_delimiter c = false)
    (htd : is_xton_identifier_delimiter (peek t) = true) (htne : t ≠ [])
    (h : (k ++ t).take n = lit) : (k ++ t).drop n = k.drop n ++ t ∧ n ≤ k.length := by
  have hle : n ≤ k.length := by
    by_contra hlt
    obtain ⟨x, t', rfl⟩ := List.exists_cons_of_ne_nil htne
    have hx : is_xton_identifier_delimiter x = true := by simpa [peek] using htd
    have hmem : x ∈ (k ++ x :: t').take n := by
      rw [List.take_append_eq_append_take]
      apply List.mem_append_right
      have : n - k.length = (n - k.length - 1) + 1 := by omega
      rw [this, List.take_succ_cons]
      simp
    rw [h] at hmem
    have := ht x hmem
    rw [hx] at this
    exact absurd this (by simp)
  refine ⟨?_, hle⟩
  rw [List.drop_append_eq_append_drop]
  have : n - k.length = 0 := by omega
  simp [this]

/-- The scalar branch on a bare run that does not start with a digit. -/
theorem parse_scalar_bare_run {k t : List Nat} (err : Option PyErr) (hne : k ≠ [])
    (hk : ∀ c ∈ k, is_xton_identifier_delimiter c = false)
    (hd : isdigit (peek k) = false)
    (htd : is_xton_identifier_delimiter (peek t) = true) (htne : t ≠ [])
    (ht : ∀ c ∈ t, c ≠ 0 ∧ c ≠ 39 ∧ c ≠ 92) :
    ∃ k2, (∀ c ∈ k2, c ∈ k) ∧
      ((∃ v e, parse_scalar (k ++ t) err = Res.ok v (k2 ++ t) e) ∨
       (∃ e, parse_scalar (k ++ t) err = Res.null (k2 ++ t) e) ∨
       (∃ e, parse_scalar (k ++ t) err = Res.null [] e)) := by
  have hgate : number_gate (k ++ t) = false := by
    obtain ⟨c, k1, rfl⟩ := List.exists_cons_of_ne_nil hne
    have hc : isdigit c = false := by simpa [peek] using hd
    have h45 : c ≠ 45 := by
      intro h; subst h
      have := hk 45 (by simp)
      simp [is_xton_identifier_delimiter] at this
    simp [number_gate, peek, hc, h45]
  have tag : ∀ (n : Nat) (lit : List Nat) (v : PyObj),
      (∀ c ∈ lit, is_xton_identifier_delimiter c = false) → (k ++ t).take n = lit →
      ∃ k2, (∀ c ∈ k2, c ∈ k) ∧
        ((∃ v' e, Res.ok v ((k ++ t).drop n) err = Res.ok v' (k2 ++ t) e) ∨
         (∃ e, Res.ok v ((k ++ t).drop n) err = Res.null (k2 ++ t) e) ∨
         (∃ e, Res.ok v ((k ++ t).drop n) err = Res.null [] e)) := by
    intro n lit v hlit htake
    obtain ⟨hdrop, -⟩ := take_append_of_tag hlit htd htne htake
    exact ⟨k.drop n, fun c hc => List.mem_of_mem_drop hc, Or.inl ⟨v, err, by rw [hdrop]⟩⟩
  unfold parse_scalar
  split
  · rename_i h1; exact tag 5 _ _ (by decide) h1
  · split
    · rename_i h1; exact tag 6 _ _ (by decide) h1
    · split
      · rename_i h1; exact tag 5 _ _ (by decide) h1
      · rw [hgate]
        simp only [Bool.false_eq_true, if_false]
        exact parse_strings_bare_run err hne hk htd htne ht

theorem parse_value_eq_scalar (n : Nat) {c : Nat} (r : List Nat) (err : Option PyErr)
    (hs : isspace c = false) (h60 : c ≠ 60) (h91 : c ≠ 91) :
    parse_value (n + 1) (c :: r) err = parse_scalar (c :: r) err := by
  unfold parse_value
  rw [skip_whitespace_cons_of_not_space r hs, parse_object_of_ne h60]
  simp only
  rw [parse_array_of_ne h91]

theorem array_loop_first_ok {pv : List Nat → Option PyErr → Res} {m : Nat} {s s1 : List Nat}
    {err e1 : Option PyErr} {v : PyObj} (acc : List PyObj) (h0 : peek s ≠ 0)
    (h : pv s err = Res.ok v s1 e1) (h93 : peek (skip_whitespace s1) ≠ 93)
    (h47 : peek (skip_whitespace s1) ≠ 47) :
    array_loop pv (m + 1) s err acc
      = Res.null (skip_whitespace s1) (some PyErr.malformedArray) := by
  unfold array_loop
  rw [if_neg h0, h]
  simp only [if_neg h93, if_neg h47]

theorem array_loop_first_null {pv : List Nat → Option PyErr → Res} {m : Nat} {s s1 : List Nat}
    {err e1 : Option PyErr} (acc : List PyObj) (h0 : peek s ≠ 0)
    (h : pv s err = Res.null s1 e1) :
    array_loop pv (m + 1) s err acc = Res.null s1 e1 := by
  unfold array_loop
  rw [if_neg h0, h]

/-- When attempt 1 does not end the input, `xton_loads` goes on to attempt 2. -/
theorem loads_with_second_attempt {n : Nat} {input : List Nat} (h0 : 0 ∉ input)
    (h : (∃ s1 e1, parse_value n (skip_whitespace input) none = Res.null s1 e1) ∨
      (∃ v s1 e1, parse_value n (skip_whitespace input) none = Res.ok v s1 e1 ∧
        peek (skip_whitespace s1) ≠ 0)) :
    loads_with n input = loads_pair n (skip_whitespace input) := by
  unfold loads_with
  rw [if_neg h0]
  rcases h with ⟨s1, e1, h⟩ | ⟨v, s1, e1, h, hp⟩
  · simp only [h]
  · simp only [h, if_neg hp]

theorem loads_pair_at_delim {n : Nat} {s : List Nat}
    (h : is_xton_identifier_delimiter (peek s) = true) :
    loads_pair n s = Outcome.ret none (some PyErr.invalidFormat) := by
  unfold loads_pair
  rw [parse_unquoted_string_at_delim none h]

theorem peek_skip_ne_zero {s : List Nat} (h0 : 0 ∉ s) (hs : ends_bracket s) :
    peek (skip_whitespace s) ≠ 0 := by
  have h1 := skip_whitespace_ends_bracket hs
  have h2 : skip_whitespace s <:+ s := List.dropWhile_suffix _
  cases hsk : skip_whitespace s with
  | nil => rw [hsk] at h1; exact absurd rfl (ends_bracket_ne_nil h1)
  | cons c r =>
    intro hp
    have hc : c = 0 := by simpa [peek] using hp
    subst hc
    rw [hsk] at h2
    exact h0 (h2.subset (by simp))

/-- Decoding `[`, a bare run that does not start with a digit, `-`, digits, `]`
fails: the array attempt stops at the `-`, what `parse_value` then reads from
there never reaches the `]`, and attempt 2 cannot start at `[`. -/
theorem loads_array_pair_digits (k ds : List Nat) (hne : k ≠ [])
    (hk : ∀ c ∈ k, is_xton_identifier_delimiter c = false) (hd : isdigit (peek k) = false)
    (hds : ∀ c ∈ ds, isdigit c = true) :
    xton_loads (91 :: (k ++ 45 :: (ds ++ [93])))
      = Outcome.ret none (some PyErr.invalidFormat) := by
  have ht : ∀ c ∈ 45 :: (ds ++ [93]), c ≠ 0 ∧ c ≠ 39 ∧ c ≠ 92 := by
    intro c hc
    rcases List.mem_cons.1 hc with hc | hc
    · subst hc; decide
    · rcases List.mem_append.1 hc with hc | hc
      · have := hds c hc
        simp [isdigit] at this
        omega
      · have : c = 93 := by simpa using hc
        subst this; decide
  have htd : is_xton_identifier_delimiter (peek (45 :: (ds ++ [93]))) = true := by
    simp [peek, is_xton_identifier_delimiter]
  have htne : 45 :: (ds ++ [93]) ≠ [] := by simp
  have hte : ends_bracket (45 :: (ds ++ [93])) := by
    have e : 45 :: (ds ++ [93]) = (45 :: ds) ++ [93] := by simp
    unfold ends_bracket
    rw [e, List.getLast?_append]
    simp
  have hk0 : ∀ c ∈ k, c ≠ 0 := by
    intro c hc h0
    subst h0
    have := hk 0 hc
    simp [is_xton_identifier_delimiter] at this
  obtain ⟨c, k1, rfl⟩ := List.exists_cons_of_ne_nil hne
  have hc := hk c (by simp)
  have hcs : isspace c = false := isspace_not_delim hc
  have hc' : c ≠ 60 ∧ c ≠ 91 ∧ c ≠ 93 ∧ c ≠ 47 ∧ c ≠ 0 := by
    have := hc
    simp [is_xton_identifier_delimiter] at this
    omega
  have hz : (0 : Nat) ∉ 91 :: ((c :: k1) ++ 45 :: (ds ++ [93])) := by
    intro h
    rcases List.mem_cons.1 h with h | h
    · exact absurd h (by decide)
    · rcases List.mem_append.1 h with h | h
      · exact hk0 0 h rfl
      · exact (ht 0 h).1 rfl
  -- the cursor that the array attempt leaves behind
  have harr : ∀ m, ∃ cur e, (cur = [] ∨ (ends_bracket cur ∧ 0 ∉ cur)) ∧
      parse_array (parse_value (m + 1)) (m + 1) (91 :: ((c :: k1) ++ 45 :: (ds ++ [93]))) none
        = Res.null cur e := by
    intro m
    have hsk : skip_whitespace ((c :: k1) ++ 45 :: (ds ++ [93]))
        = (c :: k1) ++ 45 :: (ds ++ [93]) := skip_whitespace_cons_of_not_space _ hcs
    have hpk : peek ((c :: k1) ++ 45 :: (ds ++ [93])) = c := rfl
    have hfirst : parse_value (m + 1) ((c :: k1) ++ 45 :: (ds ++ [93])) none
        = parse_scalar ((c :: k1) ++ 45 :: (ds ++ [93])) none :=
      parse_value_eq_scalar m _ none hcs hc'.1 hc'.2.1
    have hgood : ∀ k2 : List Nat, (∀ x ∈ k2, x ∈ c :: k1) →
        ends_bracket (k2 ++ 45 :: (ds ++ [93])) ∧ 0 ∉ k2 ++ 45 :: (ds ++ [93]) ∧
        skip_whitespace (k2 ++ 45 :: (ds ++ [93])) = k2 ++ 45 :: (ds ++ [93]) ∧
        peek (k2 ++ 45 :: (ds ++ [93])) ≠ 93 ∧ peek (k2 ++ 45 :: (ds ++ [93])) ≠ 47 := by
      intro k2 hk2
      refine ⟨?_, ?_, ?_⟩
      · unfold ends_bracket at hte ⊢
        rw [List.getLast?_append, hte]
        simp
      · intro h
        rcases List.mem_append.1 h with h | h
        · exact hk0 0 (hk2 0 h) rfl
        · exact (ht 0 h).1 rfl
      · cases k2 with
        | nil =>
          exact ⟨skip_whitespace_cons_of_not_space _ (by decide),
            by simp [peek], by simp [peek]⟩
        | cons x k3 =>
          have hx := hk x (hk2 x (by simp))
          have hx' : x ≠ 93 ∧ x ≠ 47 := by
            simp [is_xton_identifier_delimiter] at hx
            omega
          exact ⟨skip_whitespace_cons_of_not_space _ (isspace_not_delim hx),
            by simpa [peek] using hx'.1, by simpa [peek] using hx'.2⟩
    unfold parse_array
    simp only [hsk, hpk, if_neg hc'.2.2.1]
    obtain ⟨k2, hk2, h⟩ := parse_scalar_bare_run none (by simp : c :: k1 ≠ []) hk hd htd htne ht
    obtain ⟨hg1, hg2, hg3, hg4, hg5⟩ := hgood k2 hk2
    rcases h with ⟨v, e, h⟩ | ⟨e, h⟩ | ⟨e, h⟩
    · rw [← hfirst] at h
      refine ⟨k2 ++ 45 :: (ds ++ [93]), some PyErr.malformedArray, Or.inr ⟨hg1, hg2⟩, ?_⟩
      have := array_loop_first_ok (m := m) [] (by rw [hpk]; exact hc'.2.2.2.2) h
        (by rw [hg3]; exact hg4) (by rw [hg3]; exact hg5)
      rw [this, hg3]
    · rw [← hfirst] at h
      exact ⟨_, _, Or.inr ⟨hg1, hg2⟩,
        array_loop_first_null (m := m) [] (by rw [hpk]; exact hc'.2.2.2.2) h⟩
    · rw [← hfirst] at h
      exact ⟨_, _, Or.inl rfl,
        array_loop_first_null (m := m) [] (by rw [hpk]; exact hc'.2.2.2.2) h⟩
  -- attempt 1 does not end the input
  have hlen : ∃ m, (91 :: ((c :: k1) ++ 45 :: (ds ++ [93]))).length + 1 = m + 1 + 1 :=
    ⟨(91 :: ((c :: k1) ++ 45 :: (ds ++ [93]))).length - 1, by simp⟩
  obtain ⟨m, hm⟩ := hlen
  have hsk0 : skip_whitespace (91 :: ((c :: k1) ++ 45 :: (ds ++ [93])))
      = 91 :: ((c :: k1) ++ 45 :: (ds ++ [93])) :=
    skip_whitespace_cons_of_not_space _ (by decide)
  unfold xton_loads
  rw [hm]
  have hsecond : loads_with (m + 1 + 1) (91 :: ((c :: k1) ++ 45 :: (ds ++ [93])))
      = loads_pair (m + 1 + 1) (skip_whitespace (91 :: ((c :: k1) ++ 45 :: (ds ++ [93])))) := by
    apply loads_with_second_attempt hz
    rw [hsk0]
    obtain ⟨cur, e, hcur, hpa⟩ := harr m
    have htop : parse_value (m + 1 + 1) (91 :: ((c :: k1) ++ 45 :: (ds ++ [93]))) none
        = parse_scalar cur e := by
      rw [parse_value.eq_def]
      simp only [hsk0]
      rw [parse_object_of_ne (by decide)]
      simp only [hpa]
    rw [htop]
    have htail : cur = [] ∨ ends_bracket cur := hcur.imp id (fun h => h.1)
    have hin := parse_scalar_in_tail cur e htail
    cases hres : parse_scalar cur e with
    | null s1 e1 => exact Or.inl ⟨_, _, rfl⟩
    | ub => rw [hres] at hin; exact absurd hin (by simp [res_in_tail])
    | fuel => rw [hres] at hin; exact absurd hin (by simp [res_in_tail])
    | ok v s1 e1 =>
      rw [hres] at hin
      refine Or.inr ⟨v, s1, e1, rfl, ?_⟩
      rcases hcur with hcur | ⟨hcb, hc0⟩
      · subst hcur
        exact absurd (List.suffix_nil.1 hin.1) hin.2
      · exact peek_skip_ne_zero (fun h => hc0 (hin.1.subset h))
          (ends_bracket_of_suffix hin.1 hin.2 hcb)
  rw [hsecond, hsk0]
  exact loads_pair_at_delim (by simp [peek, is_xton_identifier_delimiter])

/-! ## Progress of the parsers and adequacy of the step bound -/

theorem skip_whitespace_length_le (s : List Nat) : (skip_whitespace s).length ≤ s.length :=
  (List.dropWhile_suffix isspace).length_le

theorem tail_length_lt {s : List Nat} (h : peek s ≠ 0) : s.tail.length < s.length := by
  cases s with
  | nil => simp [peek] at h
  | cons c r => simp

theorem res_progress_of_le {s s1 : List Nat} {r : Res} (h : s1.length ≤ s.length)
    (hr : res_progress s1 r) : res_progress s r := by
  cases r with
  | ok v s' e => exact Nat.lt_of_lt_of_le hr h
  | null s' e => exact Nat.le_trans hr h
  | ub => trivial
  | fuel => exact hr

theorem drops_to_length_le {s s' : List Nat} (h : drops_to s s') : s'.length ≤ s.length :=
  (drops_to_suffix h).length_le

theorem take_eq_length {n : Nat} {s : List Nat} (lit : List Nat) (f : Nat → Nat)
    (h : (s.take n).map f = lit) (hl : lit.length = n) (hn : 0 < n) :
    (s.drop n).length < s.length := by
  have h1 := congrArg List.length h
  rw [List.length_map, List.length_take, hl] at h1
  rw [List.length_drop]
  omega

theorem strtod_special_progress {neg : Bool} {s s' : List Nat} {v : Dbl}
    (h : strtod_special neg s = some (v, s')) : s'.length < s.length := by
  unfold strtod_special at h
  split at h
  · rename_i h8
    simp only [Option.some.injEq, Prod.mk.injEq] at h
    rw [← h.2]
    exact take_eq_length _ tolower h8 rfl (by decide)
  · split at h
    · rename_i h3
      simp only [Option.some.injEq, Prod.mk.injEq] at h
      rw [← h.2]
      exact take_eq_length _ tolower h3 rfl (by decide)
    · split at h
      · rename_i h3
        simp only [Option.some.injEq, Prod.mk.injEq] at h
        rw [← h.2]
        exact take_eq_length _ tolower h3 rfl (by decide)
      · exact absurd h (by simp)

theorem strtod_hex_progress {neg : Bool} {s s' : List Nat} {v : Dbl}
    (h : strtod_hex neg s = some (v, s')) : s'.length < s.length := by
  have hd := strtod_hex_drops h
  unfold strtod_hex at h
  split at h
  · rename_i x r
    split at h
    · dsimp only at h
      split at h
      · exact absurd h (by simp)
      · simp only [Option.some.injEq, Prod.mk.injEq] at h
        rw [← h.2]
        have h1 := drops_to_length_le (lex_mantissa_drops isxdigit (by decide) r)
        have h2 := drops_to_length_le
          (lex_exponent_drops (fun c => c == 112 || c == 80) (by decide)
            (lex_mantissa isxdigit r).2.2)
        simp only [List.length_cons]
        omega
    · exact absurd h (by simp)
  · exact absurd h (by simp)

theorem lex_mantissa_progress (isd : Nat → Bool) (s : List Nat)
    (h : ¬ ((lex_mantissa isd s).1 = [] ∧ (lex_mantissa isd s).2.1 = [])) :
    (lex_mantissa isd s).2.2.length < s.length := by
  have hsplit : (s.takeWhile isd).length + (s.dropWhile isd).length = s.length := by
    rw [← List.length_append, List.takeWhile_append_dropWhile]
  unfold lex_mantissa at h ⊢
  dsimp only at h ⊢
  split
  · rename_i r heq
    rw [heq] at hsplit
    split
    · rename_i hboth
      rw [heq] at h
      simp only [hboth, and_self, if_true, not_true_eq_false] at h
    · have := (List.dropWhile_suffix isd (l := r)).length_le
      simp only [List.length_cons] at hsplit
      dsimp only
      omega
  · rename_i hne
    have hip : s.takeWhile isd ≠ [] := by
      intro hip
      apply h
      split
      · rename_i r heq
        exact absurd heq (hne r)
      · exact ⟨hip, rfl⟩
    have : 0 < (s.takeWhile isd).length := List.length_pos.2 hip
    dsimp only
    omega

theorem strtod_dec_progress {neg : Bool} {s s' : List Nat} {v : Dbl}
    (h : strtod_dec neg s = some (v, s')) : s'.length < s.length := by
  unfold strtod_dec at h
  dsimp only at h
  split at h
  · exact absurd h (by simp)
  · rename_i hne
    simp only [Option.some.injEq, Prod.mk.injEq] at h
    rw [← h.2]
    have h1 := lex_mantissa_progress isdigit s hne
    have h2 := drops_to_length_le
      (lex_exponent_drops (fun c => c == 101 || c == 69) (by decide)
        (lex_mantissa isdigit s).2.2)
    omega

/-- A conversion by `strtod` consumes at least one byte. -/
theorem strtod_progress {s s' : List Nat} {v : Dbl} (h : strtod s = some (v, s')) :
    s'.length < s.length := by
  unfold strtod at h
  dsimp only at h
  have h0 : (lex_sign (skip_whitespace s)).2.length ≤ s.length :=
    drops_to_length_le
      (drops_to_trans (drops_to_dropWhile isspace (by decide) s) (lex_sign_drops _))
  split at h
  · rename_i r hsp
    simp only [Option.some.injEq] at h
    subst h
    have := strtod_special_progress hsp
    omega
  · split at h
    · rename_i r hx
      simp only [Option.some.injEq] at h
      subst h
      have := strtod_hex_progress hx
      omega
    · have := strtod_dec_progress h
      omega

theorem parse_number_progress (s : List Nat) (err : Option PyErr) :
    res_progress s (parse_number s err) := by
  unfold parse_number
  split
  · exact Nat.le_refl _
  · rename_i v s' hst
    exact strtod_progress hst

theorem quoted_loop_length : ∀ (s buf : List Nat) {b c : List Nat},
    quoted_loop s buf = some (b, c) → c.length ≤ s.length
  | [], buf, b, c, h => by
    rw [quoted_loop_nil] at h
    simp only [Option.some.injEq, Prod.mk.injEq] at h
    rw [← h.2]
  | [x], buf, b, c, h => by
    by_cases hstop : x = 0 ∨ x = 39
    · rw [quoted_loop_stop hstop] at h
      simp only [Option.some.injEq, Prod.mk.injEq] at h
      rw [← h.2]
    · have h0 : x ≠ 0 := fun hc => hstop (Or.inl hc)
      have h39 : x ≠ 39 := fun hc => hstop (Or.inr hc)
      by_cases h92 : x = 92
      · subst h92
        rw [quoted_loop_escape_end] at h
        exact absurd h (by simp)
      · rw [quoted_loop_plain h0 h39 h92, quoted_loop_nil] at h
        simp only [Option.some.injEq, Prod.mk.injEq] at h
        rw [← h.2]
        simp
  | x :: d :: rest, buf, b, c, h => by
    by_cases hstop : x = 0 ∨ x = 39
    · rw [quoted_loop_stop hstop] at h
      simp only [Option.some.injEq, Prod.mk.injEq] at h
      rw [← h.2]
    · have h0 : x ≠ 0 := fun hc => hstop (Or.inl hc)
      have h39 : x ≠ 39 := fun hc => hstop (Or.inr hc)
      by_cases h92 : x = 92
      · subst h92
        rw [quoted_loop_escape] at h
        have := quoted_loop_length rest _ h
        simp only [List.length_cons]
        omega
      · rw [quoted_loop_plain h0 h39 h92] at h
        have := quoted_loop_length (d :: rest) _ h
        simp only [List.length_cons] at this ⊢
        omega

theorem decode_utf8_progress {s s' bytes : List Nat} (err : Option PyErr)
    (h : s'.length < s.length) : res_progress s (decode_utf8 bytes s' err) := by
  unfold decode_utf8
  split
  · exact h
  · exact Nat.le_of_lt h

theorem parse_quoted_string_progress (s : List Nat) (err : Option PyErr) :
    res_progress s (parse_quoted_string s err) := by
  unfold parse_quoted_string
  split
  · rename_i rest
    cases hq : quoted_loop rest [] with
    | none => trivial
    | some p =>
      obtain ⟨b, c⟩ := p
      have hl := quoted_loop_length rest [] hq
      dsimp only
      split
      · apply decode_utf8_progress
        have : c.tail.length ≤ c.length := by simp
        simp only [List.length_cons]
        omega
      · show c.length ≤ (39 :: rest).length
        simp only [List.length_cons]
        omega
  · exact Nat.le_refl _

theorem parse_unquoted_string_progress (s : List Nat) (err : Option PyErr) :
    res_progress s (parse_unquoted_string s err) := by
  have hsplit : (s.takeWhile (fun c => !is_xton_identifier_delimiter c)).length
      + (s.dropWhile (fun c => !is_xton_identifier_delimiter c)).length = s.length := by
    rw [← List.length_append, List.takeWhile_append_dropWhile]
  unfold parse_unquoted_string
  dsimp only
  split
  · exact Nat.le_refl _
  · rename_i hrun
    apply decode_utf8_progress
    have := List.length_pos.2 hrun
    omega

/-- Sequencing: when the first attempt returns `NULL`, the second one starts
from the cursor the first one left. -/
theorem res_progress_chain {s : List Nat} (r : Res) (next : List Nat → Option PyErr → Res) :
    res_progress s r → (∀ s1 e1, s1.length ≤ s.length → res_progress s1 (next s1 e1)) →
    res_progress s (match r with
      | Res.null s1 e1 => next s1 e1
      | r => r) := by
  intro hr hn
  cases r with
  | ok v s' e => exact hr
  | null s1 e1 => exact res_progress_of_le hr (hn s1 e1 hr)
  | ub => trivial
  | fuel => exact hr

theorem parse_key_progress (s : List Nat) (err : Option PyErr) :
    res_progress s (parse_key s err) := by
  unfold parse_key
  exact res_progress_chain _ _ (parse_quoted_string_progress s err)
    (fun s1 e1 _ => parse_unquoted_string_progress s1 e1)

theorem parse_strings_progress (s : List Nat) (err : Option PyErr) :
    res_progress s (parse_strings s err) := by
  unfold parse_strings
  refine res_progress_chain _
    (fun s1 e1 => match parse_unquoted_string s1 e1 with
      | Res.null s2 _ => Res.null s2 (some PyErr.invalidFormat)
      | r => r) (parse_quoted_string_progress s err) ?_
  intro s1 e1 _
  have := parse_unquoted_string_progress s1 e1
  dsimp only
  cases hres : parse_unquoted_string s1 e1 with
  | ok v s' e => rw [hres] at this; exact this
  | null s2 e2 => rw [hres] at this; exact this
  | ub => trivial
  | fuel => rw [hres] at this; exact this

theorem parse_scalar_progress (s : List Nat) (err : Option PyErr) :
    res_progress s (parse_scalar s err) := by
  unfold parse_scalar
  split
  · rename_i h1
    exact take_eq_length [92, 116, 114, 117, 101] id (by simpa using h1) rfl
      (by decide)
  · split
    · rename_i h1
      exact take_eq_length [92, 102, 97, 108, 115, 101] id (by simpa using h1) rfl
        (by decide)
    · split
      · rename_i h1
        exact take_eq_length [92, 110, 111, 110, 101] id (by simpa using h1) rfl
          (by decide)
      · split
        · exact res_progress_chain _ _ (parse_number_progress s err)
            (fun s1 e1 _ => parse_strings_progress s1 e1)
        · exact parse_strings_progress s err

theorem array_loop_progress (pv : List Nat → Option PyErr → Res) (bound : Nat)
    (hpv : ∀ s e, s.length < bound → res_progress s (pv s e)) :
    ∀ (m : Nat) (s : List Nat) (err : Option PyErr) (acc : List PyObj),
      s.length < m → s.length < bound → res_progress s (array_loop pv m s err acc) := by
  intro m
  induction m with
  | zero => intro s err acc h; omega
  | succ m ih =>
    intro s err acc hm hb
    unfold array_loop
    split
    · exact Nat.le_refl _
    · have hp := hpv s err hb
      cases hres : pv s err with
      | ok v s1 e1 =>
        rw [hres] at hp
        have h1 : s1.length < s.length := hp
        have h2 := skip_whitespace_length_le s1
        have h3 : (skip_whitespace s1).tail.length ≤ (skip_whitespace s1).length := by simp
        dsimp only
        split
        · show (skip_whitespace s1).tail.length < s.length
          omega
        · split
          · have h4 := skip_whitespace_length_le (skip_whitespace s1).tail
            exact res_progress_of_le (by omega)
              (ih (skip_whitespace (skip_whitespace s1).tail) e1 (acc ++ [v])
                (by omega) (by omega))
          · show (skip_whitespace s1).length ≤ s.length
            omega
      | null s1 e1 => rw [hres] at hp; exact hp
      | ub => trivial
      | fuel => rw [hres] at hp; exact hp

theorem parse_array_progress (pv : List Nat → Option PyErr → Res) (n : Nat)
    (hpv : ∀ s e, s.length < n → res_progress s (pv s e))
    (s : List Nat) (err : Option PyErr) (hs : s.length ≤ n) :
    res_progress s (parse_array pv n s err) := by
  unfold parse_array
  split
  · rename_i rest
    have h1 := skip_whitespace_length_le rest
    have h2 : (skip_whitespace rest).tail.length ≤ (skip_whitespace rest).length := by simp
    simp only [List.length_cons] at hs
    dsimp only
    split
    · show (skip_whitespace rest).tail.length < (91 :: rest).length
      simp only [List.length_cons]
      omega
    · exact res_progress_of_le (by simp only [List.length_cons]; omega)
        (array_loop_progress pv n hpv n (skip_whitespace rest) err [] (by omega) (by omega))
  · exact Nat.le_refl _

theorem object_loop_progress (pv : List Nat → Option PyErr → Res) (bound : Nat)
    (hpv : ∀ s e, s.length < bound → res_progress s (pv s e)) :
    ∀ (m : Nat) (s : List Nat) (err : Option PyErr) (acc : List (PyObj × PyObj)),
      s.length < m → s.length < bound → res_progress s (object_loop pv m s err acc) := by
  intro m
  induction m with
  | zero => intro s err acc h; omega
  | succ m ih =>
    intro s err acc hm hb
    unfold object_loop
    split
    · exact Nat.le_refl _
    · have hk := parse_key_progress s err
      split
      · rename_i k s1 e1 hkey
        rw [hkey] at hk
        have h1 : s1.length < s.length := hk
        have h2 := skip_whitespace_length_le s1
        have h3 : (skip_whitespace s1).tail.length ≤ (skip_whitespace s1).length := by simp
        have h4 := skip_whitespace_length_le (skip_whitespace s1).tail
        dsimp only
        split
        · show (skip_whitespace s1).length ≤ s.length
          omega
        · have hp := hpv (skip_whitespace (skip_whitespace s1).tail) e1 (by omega)
          cases hres : pv (skip_whitespace (skip_whitespace s1).tail) e1 with
          | ok v s3 e3 =>
            rw [hres] at hp
            have h5 : s3.length < (skip_whitespace (skip_whitespace s1).tail).length := hp
            have h6 := skip_whitespace_length_le s3
            have h7 : (skip_whitespace s3).tail.length ≤ (skip_whitespace s3).length := by simp
            have h8 := skip_whitespace_length_le (skip_whitespace s3).tail
            dsimp only
            split
            · show (skip_whitespace s3).tail.length < s.length
              omega
            · split
              · exact res_progress_of_le (by omega)
                  (ih (skip_whitespace (skip_whitespace s3).tail) e3 _ (by omega) (by omega))
              · show (skip_whitespace s3).length ≤ s.length
                omega
          | null s3 e3 =>
            rw [hres] at hp
            have h5 : s3.length ≤ (skip_whitespace (skip_whitespace s1).tail).length := hp
            show s3.length ≤ s.length
            omega
          | ub => trivial
          | fuel => rw [hres] at hp; exact hp
      · rename_i v s1 e1 hnot hkey
        rw [hkey] at hk
        exact Nat.le_of_lt hk
      · rename_i r hnot1 hnot2
        cases hres : parse_key s err with
        | ok v s1 e1 => exact absurd hres (hnot2 v s1 e1)
        | null s1 e1 => rw [hres] at hk; exact hk
        | ub => trivial
        | fuel => rw [hres] at hk; exact hk

theorem parse_object_progress (pv : List Nat → Option PyErr → Res) (n : Nat)
    (hpv : ∀ s e, s.length < n → res_progress s (pv s e))
    (s : List Nat) (err : Option PyErr) (hs : s.length ≤ n) :
    res_progress s (parse_object pv n s err) := by
  unfold parse_object
  split
  · rename_i rest
    have h1 := skip_whitespace_length_le rest
    have h2 : (skip_whitespace rest).tail.length ≤ (skip_whitespace rest).length := by simp
    simp only [List.length_cons] at hs
    dsimp only
    split
    · show (skip_whitespace rest).tail.length < (60 :: rest).length
      simp only [List.length_cons]
      omega
    · exact res_progress_of_le (by simp only [List.length_cons]; omega)
        (object_loop_progress pv n hpv n (skip_whitespace rest) err [] (by omega) (by omega))
  · exact Nat.le_refl _

/-- Progress of `parse_value`, and adequacy of its step bound: with more steps
than bytes it never runs out of steps, a successful parse consumes at least one
byte, and no call moves the cursor backward. -/
theorem parse_value_progress : ∀ (n : Nat) (s : List Nat) (err : Option PyErr),
    s.length < n → res_progress s (parse_value n s err) := by
  intro n
  induction n with
  | zero => intro s err h; omega
  | succ n ih =>
    intro s err hn
    have h0 := skip_whitespace_length_le s
    unfold parse_value
    refine res_progress_of_le h0 ?_
    refine res_progress_chain _
      (fun s1 e1 => match parse_array (parse_value n) n s1 e1 with
        | Res.null s2 e2 => parse_scalar s2 e2
        | r => r)
      (parse_object_progress (parse_value n) n ih _ err (by omega)) ?_
    intro s1 e1 hs1
    exact res_progress_chain _ _
      (parse_array_progress (parse_value n) n ih s1 e1 (by omega))
      (fun s2 e2 _ => parse_scalar_progress s2 e2)

/-! ## The encoder -/

theorem serialize_dict_eq (kvs : List (PyObj × PyObj)) :
    _serialize_to_xton (PyObj.dict kvs) =
      match serialize_pairs kvs with
      | Except.ok parts => Except.ok (full_form parts)
      | Except.error e => Except.error e := by
  rw [_serialize_to_xton]
  rfl

theorem serialize_elements_str (s : List Nat) (rest : List PyObj) :
    serialize_elements (PyObj.str s :: rest) =
      match serialize_elements rest with
      | Except.ok parts => Except.ok (_serialize_maybe_unquoted_string s :: parts)
      | Except.error e => Except.error e := by
  rw [serialize_elements]

theorem serialize_elements_dict (kvs : List (PyObj × PyObj)) (rest : List PyObj) :
    serialize_elements (PyObj.dict kvs :: rest) =
      match _serialize_to_xton (PyObj.dict kvs) with
      | Except.ok part =>
        match serialize_elements rest with
        | Except.ok parts => Except.ok (part :: parts)
        | Except.error e => Except.error e
      | Except.error e => Except.error e := by
  rw [serialize_elements]
  intro s h
  exact absurd h (by simp)

theorem serialize_pairs_str (k : List Nat) (v : PyObj) (rest : List (PyObj × PyObj)) :
    serialize_pairs ((PyObj.str k, v) :: rest) =
      match _serialize_to_xton v with
      | Except.ok sv =>
        match serialize_pairs rest with
        | Except.ok parts =>
          Except.ok ((_serialize_maybe_unquoted_string k ++ [45] ++ sv) :: parts)
        | Except.error e => Except.error e
      | Except.error e => Except.error e := by
  rw [serialize_pairs]

theorem xton_dumps_collapsed (k : List Nat) (v : PyObj) (h : needs_quoting k = false) :
    xton_dumps (PyObj.dict [(PyObj.str k, v)]) =
      match _serialize_to_xton v with
      | Except.ok sv => Except.ok (k ++ [45] ++ sv)
      | Except.error e => Except.error e := by
  simp [xton_dumps, h]

theorem quoting_test_eq {x : Nat} (hx0 : x ≠ 0) :
    (is_xton_identifier_delimiter x || x == 39 || x == 92) =
      (decide (x ∈ [47, 60, 62, 91, 93, 45]) || isspace x || x == 39 || x == 92) := by
  have e0 : (x == 0) = false := beq_false_of_ne hx0
  by_cases h1 : x = 47
  · subst h1; decide
  by_cases h2 : x = 60
  · subst h2; decide
  by_cases h3 : x = 62
  · subst h3; decide
  by_cases h4 : x = 91
  · subst h4; decide
  by_cases h5 : x = 93
  · subst h5; decide
  by_cases h6 : x = 45
  · subst h6; decide
  have hm : decide (x ∈ [47, 60, 62, 91, 93, 45]) = false := by simp [h1, h2, h3, h4, h5, h6]
  simp only [is_xton_identifier_delimiter, beq_false_of_ne h1, beq_false_of_ne h2,
    beq_false_of_ne h3, beq_false_of_ne h4, beq_false_of_ne h5, beq_false_of_ne h6, e0, hm,
    Bool.false_or]

theorem any_quoting_eq_not_all (l : List Nat) (h0 : 0 ∉ l) :
    l.any (fun c => is_xton_identifier_delimiter c || c == 39 || c == 92) =
      !(l.all (fun c =>
        !(decide (c ∈ [47, 60, 62, 91, 93, 45]) || isspace c || c == 39 || c == 92))) := by
  induction l with
  | nil => rfl
  | cons x l ih =>
    have hx0 : x ≠ 0 := fun h => h0 (by simp [h])
    have hl : 0 ∉ l := fun h => h0 (by simp [h])
    simp only [List.any_cons, List.all_cons, ih hl, quoting_test_eq hx0, Bool.not_and,
      Bool.not_not]

/-- For a string without a NUL byte the test of the code is the condition of
the specification. -/
theorem needs_quoting_eq_not_bare {s : List Nat} (h0 : 0 ∉ s) :
    needs_quoting s = !spec_bare s := by
  cases s with
  | nil => rfl
  | cons c r =>
    simp only [needs_quoting, spec_bare, List.isEmpty_cons, Bool.false_or, Bool.not_false,
      Bool.true_and]
    exact any_quoting_eq_not_all (c :: r) h0

/-- A string with a NUL byte always takes the quoting branch. -/
theorem needs_quoting_of_nul {s : List Nat} (h0 : 0 ∈ s) : needs_quoting s = true := by
  simp only [needs_quoting, Bool.or_eq_true, List.any_eq_true]
  exact Or.inr ⟨0, h0, by decide⟩

theorem collapse_test_eq (k : List Nat) :
    (spec_bare k && !decide (0 ∈ k)) = !needs_quoting k := by
  by_cases h0 : 0 ∈ k
  · rw [needs_quoting_of_nul h0]
    simp [h0]
  · rw [needs_quoting_eq_not_bare h0]
    simp [h0]

theorem collapsible_pair (k : List Nat) (v : PyObj) :
    collapsible (PyObj.dict [(PyObj.str k, v)]) = !needs_quoting k :=
  collapse_test_eq k

theorem xton_dumps_of_not_collapsible (obj : PyObj) (h : collapsible obj = false) :
    xton_dumps obj = _serialize_to_xton obj := by
  unfold xton_dumps
  split
  · rename_i k v
    rw [collapsible_pair] at h
    have : needs_quoting k = true := by simpa using h
    simp [this]
  · rfl

theorem collapsible_iff (obj : PyObj) :
    collapsible obj = true ↔ ∃ k v, obj = PyObj.dict [(PyObj.str k, v)] ∧ needs_quoting k = false := by
  constructor
  · intro h
    unfold collapsible at h
    split at h
    · rename_i k v
      rw [collapse_test_eq] at h
      exact ⟨k, v, rfl, by simpa using h⟩
    · exact absurd h (by simp)
  · rintro ⟨k, v, rfl, hk⟩
    rw [collapsible_pair, hk]
    rfl

theorem peek_serialize_quoted (s : List Nat) : peek (_serialize_quoted_string s) = 39 := by
  simp [_serialize_quoted_string, c_string, List.takeWhile, peek]

theorem peek_of_spec_bare {s : List Nat} (h : spec_bare s = true) : peek s ≠ 39 := by
  cases s with
  | nil => simp [peek]
  | cons c r =>
    intro hc
    have hc' : c = 39 := by simpa [peek] using hc
    subst hc'
    simp [spec_bare] at h

/-! ## The step bound of `xton_loads` is never reached -/

theorem loads_pair_not_fuel (n : Nat) (s : List Nat) (h : s.length < n) :
    loads_pair n s ≠ Outcome.fuel := by
  have hk := parse_unquoted_string_progress s none
  unfold loads_pair
  cases hres : parse_unquoted_string s none with
  | null s1 e1 => simp
  | ub => simp
  | fuel => rw [hres] at hk; exact absurd hk (by simp [res_progress])
  | ok key s1 e1 =>
    rw [hres] at hk
    have h1 : s1.length < s.length := hk
    have h2 := skip_whitespace_length_le s1
    have h3 : (skip_whitespace s1).tail.length ≤ (skip_whitespace s1).length := by simp
    have h4 := skip_whitespace_length_le (skip_whitespace s1).tail
    dsimp only
    split
    · have hp := parse_value_progress n (skip_whitespace (skip_whitespace s1).tail) e1 (by omega)
      cases hres2 : parse_value n (skip_whitespace (skip_whitespace s1).tail) e1 with
      | ok v s4 e4 => dsimp only; split <;> simp
      | null s4 e4 => simp
      | ub => simp
      | fuel => rw [hres2] at hp; exact absurd hp (by simp [res_progress])
    · simp

/-- The model of `xton_loads` always produces an outcome of the C function. -/
theorem xton_loads_not_fuel (t : List Nat) : xton_loads t ≠ Outcome.fuel := by
  have h0 := skip_whitespace_length_le t
  have hp := parse_value_progress (t.length + 1) (skip_whitespace t) none (by omega)
  have h2 := loads_pair_not_fuel (t.length + 1) (skip_whitespace t) (by omega)
  unfold xton_loads loads_with
  split
  · simp
  · dsimp only
    cases hres : parse_value (t.length + 1) (skip_whitespace t) none with
    | ok v s1 e1 =>
      dsimp only
      split
      · simp
      · exact h2
    | null s1 e1 => exact h2
    | ub => simp
    | fuel => rw [hres] at hp; exact absurd hp (by simp [res_progress])

/-! ## The claims -/

theorem skip_whitespace_idem (s : List Nat) :
    skip_whitespace (skip_whitespace s) = skip_whitespace s := by
  unfold skip_whitespace
  induction s with
  | nil => rfl
  | cons c r ih =>
    by_cases hc : isspace c = true
    · rw [List.dropWhile_cons_of_pos hc]; exact ih
    · rw [List.dropWhile_cons_of_neg hc, List.dropWhile_cons_of_neg hc]

theorem lex_mantissa_of_digit {d : Nat} (r : List Nat) (hd : isdigit d = true) :
    (lex_mantissa isdigit (d :: r)).1 ≠ [] := by
  unfold lex_mantissa
  rw [List.takeWhile_cons_of_pos hd, List.dropWhile_cons_of_pos hd]
  dsimp only
  split
  · rw [if_neg (by simp)]
    simp
  · simp

/-- At a digit `strtod` performs a conversion, and leaves a suffix of the text. -/
theorem strtod_of_digit {d : Nat} (r : List Nat) (hd : isdigit d = true) :
    ∃ v s', strtod (d :: r) = some (v, s') ∧ s' <:+ d :: r := by
  have hsome : ∃ p, strtod (d :: r) = some p := by
    unfold strtod
    rw [skip_whitespace_cons_of_not_space r (isdigit_not_space hd), lex_sign_digit r hd]
    dsimp only
    rw [strtod_special_digit false r hd]
    dsimp only
    cases hh : strtod_hex false (d :: r) with
    | some p => exact ⟨p, rfl⟩
    | none =>
      dsimp only
      unfold strtod_dec
      dsimp only
      rw [if_neg (fun h => lex_mantissa_of_digit r hd h.1)]
      exact ⟨_, rfl⟩
  obtain ⟨⟨v, s'⟩, hp⟩ := hsome
  exact ⟨v, s', hp, drops_to_suffix (strtod_drops hp)⟩

/-- The scalar branch of `parse_value` at a digit: the number that `strtod` reads. -/
theorem parse_scalar_of_digit {d : Nat} (r : List Nat) (err : Option PyErr)
    (hd : isdigit d = true) {v : Dbl} {s' : List Nat} (h : strtod (d :: r) = some (v, s')) :
    parse_scalar (d :: r) err = Res.ok (PyObj.float v) s' err := by
  have h92 : d ≠ 92 := by intro h; subst h; simp [isdigit] at hd
  have hg : number_gate (d :: r) = true := by simp [number_gate, peek, hd]
  unfold parse_scalar
  simp only [hg, if_true]
  rw [show parse_number (d :: r) err = Res.ok (PyObj.float v) s' err by
    unfold parse_number; rw [h]]
  simp [List.take, h92]

theorem bare_of_spec {k : List Nat} (hb : spec_bare k = true) (h0 : 0 ∉ k) :
    needs_quoting k = false := by
  rw [needs_quoting_eq_not_bare h0, hb]
  rfl

/-- No character of the text `key-number` with a bare key is white space or NUL. -/
theorem key_number_text_chars {k : List Nat} (n : Int) (hq : needs_quoting k = false) :
    ∀ x ∈ k ++ (45 :: long_repr n), isspace x = false ∧ x ≠ 0 := by
  obtain ⟨-, hk⟩ := (needs_quoting_false_iff k).1 hq
  have hdig : ∀ x, isdigit x = true → isspace x = false ∧ x ≠ 0 := fun x hx =>
    ⟨isdigit_not_space hx, by intro h; subst h; simp [isdigit] at hx⟩
  have hrep : ∀ x ∈ long_repr n, isspace x = false ∧ x ≠ 0 := by
    intro x hx
    rcases long_repr_cases n with ⟨-, e⟩ | ⟨-, e⟩
    · rw [e] at hx
      rcases List.mem_cons.1 hx with h | h
      · subst h; exact ⟨by decide, by decide⟩
      · exact hdig x (nat_repr_digits _ x h)
    · rw [e] at hx
      exact hdig x (nat_repr_digits _ x hx)
  intro x hx
  rcases List.mem_append.1 hx with h | h
  · refine ⟨isspace_not_delim (hk x h).1, ?_⟩
    intro h0
    subst h0
    have := (hk 0 h).1
    simp [is_xton_identifier_delimiter] at this
  · rcases List.mem_cons.1 h with h | h
    · subst h; exact ⟨by decide, by decide⟩
    · exact hrep x h

/-- Attempt 2 of decode on the text `key-number` with a bare key. -/
theorem loads_pair_bare_key (f : Nat) (k : List Nat) (n : Int) (hq : needs_quoting k = false)
    (hu : utf8_valid k = true) :
    loads_pair (f + 1) (k ++ (45 :: long_repr n))
      = Outcome.ret (some (PyObj.dict [(PyObj.str k, PyObj.float (Dbl.of_int n))])) none := by
  obtain ⟨hne, hk⟩ := (needs_quoting_false_iff k).1 hq
  have hkd : ∀ c ∈ k, is_xton_identifier_delimiter c = false := fun c hc => (hk c hc).1
  have hdel : is_xton_identifier_delimiter (peek (45 :: long_repr n)) = true := by
    simp [peek, is_xton_identifier_delimiter]
  have hkey : parse_unquoted_string (k ++ (45 :: long_repr n)) none
      = Res.ok (PyObj.str k) (45 :: long_repr n) none := by
    rw [parse_unquoted_string_run none hne hkd hdel]
    simp [decode_utf8, hu]
  have hsk2 : skip_whitespace (45 :: long_repr n) = 45 :: long_repr n :=
    skip_whitespace_cons_of_not_space _ (by decide)
  have hsk3 : skip_whitespace (long_repr n) = long_repr n := by
    rcases long_repr_cases n with ⟨-, e⟩ | ⟨-, e⟩
    · rw [e]; exact skip_whitespace_cons_of_not_space _ (by decide)
    · obtain ⟨d, ds', hds⟩ := List.exists_cons_of_ne_nil (nat_repr_ne_nil n.natAbs)
      have hd0 : isdigit d = true := nat_repr_digits n.natAbs d (by simp [hds])
      rw [e, hds]; exact skip_whitespace_cons_of_not_space _ (isdigit_not_space hd0)
  unfold loads_pair
  rw [hkey]
  simp only [hsk2, peek, List.tail_cons, hsk3, if_true]
  rw [parse_value_long_repr]
  simp [skip_whitespace, peek]

/-- Decode on the text `key-number` with a bare key that begins with a digit:
the number that `strtod` reads when it reads the whole text, the pair
otherwise. -/
theorem loads_digit_key (k : List Nat) (n : Int) (hq : needs_quoting k = false)
    (hu : utf8_valid k = true) (hd : isdigit (peek k) = true) :
    ∃ v s', strtod (k ++ (45 :: long_repr n)) = some (v, s') ∧
      xton_loads (k ++ (45 :: long_repr n)) =
        if s' = [] then Outcome.ret (some (PyObj.float v)) none
        else Outcome.ret (some (PyObj.dict [(PyObj.str k, PyObj.float (Dbl.of_int n))])) none := by
  obtain ⟨hne, -⟩ := (needs_quoting_false_iff k).1 hq
  obtain ⟨c, k', rfl⟩ := List.exists_cons_of_ne_nil hne
  have hcd : isdigit c = true := by simpa [peek] using hd
  have hch := key_number_text_chars n hq
  have hz : (0 : Nat) ∉ (c :: k') ++ (45 :: long_repr n) := fun h => (hch 0 h).2 rfl
  obtain ⟨v, s', hst, hsuf⟩ := strtod_of_digit (k' ++ (45 :: long_repr n)) hcd
  refine ⟨v, s', hst, ?_⟩
  have hsk : skip_whitespace ((c :: k') ++ (45 :: long_repr n))
      = (c :: k') ++ (45 :: long_repr n) :=
    skip_whitespace_cons_of_not_space _ (isdigit_not_space hcd)
  have hpv : parse_value (((c :: k') ++ (45 :: long_repr n)).length + 1)
      ((c :: k') ++ (45 :: long_repr n)) none = Res.ok (PyObj.float v) s' none := by
    rw [List.cons_append, parse_value_of_number_start _ _ none (Or.inl hcd)]
    exact parse_scalar_of_digit _ none hcd hst
  unfold xton_loads loads_with
  rw [if_neg hz]
  simp only [hsk, hpv]
  cases s' with
  | nil => simp [skip_whitespace, peek]
  | cons x s'' =>
    have hx := hch x (hsuf.subset (by simp))
    rw [skip_whitespace_cons_of_not_space _ hx.1]
    simp only [peek, hx.2, if_false]
    rw [loads_pair_bare_key _ (c :: k') n hq hu]
    simp

theorem int_repr_ok {n : Int} (h : (nat_repr n.natAbs).length ≤ int_max_str_digits) :
    int_repr n = Except.ok (long_repr n) := by
  unfold int_repr
  rw [if_neg (by omega)]

theorem int_repr_error {n : Int} (h : int_max_str_digits < (nat_repr n.natAbs).length) :
    int_repr n = Except.error PyErr.intMaxStrDigits := by
  unfold int_repr
  rw [if_pos h]

theorem nat_repr_aux_length_lower : ∀ (f n k : Nat), n < f → 10 ^ k ≤ n →
    k < (nat_repr_aux f n).length
  | 0, _, _, hf, _ => absurd hf (Nat.not_lt_zero _)
  | f + 1, n, k, hf, hk => by
    unfold nat_repr_aux
    by_cases h10 : n < 10
    · rw [if_pos h10]
      cases k with
      | zero => simp
      | succ k' =>
        have : 10 ^ (k' + 1) ≥ 10 := by
          calc 10 ^ (k' + 1) = 10 ^ k' * 10 := pow_succ 10 k'
            _ ≥ 1 * 10 := Nat.mul_le_mul_right 10 (Nat.one_le_pow _ _ (by decide))
        omega
    · rw [if_neg h10, List.length_append, List.length_singleton]
      cases k with
      | zero => omega
      | succ k' =>
        have h1 : 10 ^ k' ≤ n / 10 := by
          rw [Nat.le_div_iff_mul_le (by decide)]
          rw [← pow_succ]
          exact hk
        have h2 : n / 10 < f := by omega
        have := nat_repr_aux_length_lower f (n / 10) k' h2 h1
        omega

/-- A number that is at least `10^k` has more than `k` decimal digits. -/
theorem nat_repr_length_lower {n k : Nat} (h : 10 ^ k ≤ n) : k < (nat_repr n).length :=
  nat_repr_aux_length_lower (n + 1) n k (Nat.lt_succ_self n) h

/-- Encode of a single-entry object whose value is an int with more digits than
the limit fails. -/
theorem dumps_over_limit (k : List Nat) (m : Nat) (hq : needs_quoting k = false)
    (h : 10 ^ int_max_str_digits ≤ m) :
    xton_dumps (PyObj.dict [(PyObj.str k, PyObj.long (Int.ofNat m))])
      = Except.error PyErr.intMaxStrDigits := by
  rw [xton_dumps_collapsed k _ hq]
  show (match int_repr (Int.ofNat m) with
    | Except.ok sv => Except.ok (k ++ [45] ++ sv)
    | Except.error e => Except.error e) = _
  have hl : int_max_str_digits < (nat_repr (Int.ofNat m).natAbs).length :=
    nat_repr_length_lower (show 10 ^ int_max_str_digits ≤ (Int.ofNat m).natAbs from h)
  rw [int_repr_error hl]

set_option maxRecDepth 20000 in
theorem float_repr_large_integral :
    xton_dumps (PyObj.float (Dbl.of_int 10000000000000000000000))
      = Except.ok [49, 101, 43, 50, 50] := rfl

theorem is_int_literal_long_repr (n : Int) : is_int_literal (long_repr n) = true := by
  have hne := nat_repr_ne_nil n.natAbs
  have hd := nat_repr_digits n.natAbs
  obtain ⟨d, ds, hds⟩ := List.exists_cons_of_ne_nil hne
  rw [hds] at hd
  have hall : (d :: ds).all isdigit = true := List.all_eq_true.2 hd
  have hd0 : isdigit d = true := hd d (by simp)
  have h45 : d ≠ 45 := by intro h; subst h; simp [isdigit] at hd0
  rcases long_repr_cases n with ⟨-, e⟩ | ⟨-, e⟩
  · rw [e, hds]
    unfold is_int_literal
    simp only [peek, if_true, List.tail_cons, hall]
    rfl
  · rw [e, hds]
    unfold is_int_literal
    simp only [peek, if_neg h45, hall]
    rfl

theorem not_int_literal_of_mark {t : List Nat} {c : Nat} (hc : c ∈ t) (h45 : c ≠ 45)
    (hd : isdigit c = false) : is_int_literal t = false := by
  unfold is_int_literal
  dsimp only
  have hmem : c ∈ (if peek t = 45 then t.tail else t) := by
    by_cases hp : peek t = 45
    · rw [if_pos hp]
      cases t with
      | nil => exact absurd hc (by simp)
      | cons x r =>
        rcases List.mem_cons.1 hc with h | h
        · exact absurd (h.trans hp) h45
        · exact h
    · rw [if_neg hp]; exact hc
  have hall : (if peek t = 45 then t.tail else t).all isdigit = false := by
    rw [List.all_eq_false]
    exact ⟨c, hmem, by simp [hd]⟩
  rw [hall]
  simp

theorem format_repr_mark (ds : List Nat) (pt : Int) :
    ∃ c ∈ format_repr ds pt, c ≠ 45 ∧ isdigit c = false := by
  unfold format_repr
  split
  · refine ⟨101, ?_, by decide, by decide⟩
    apply List.mem_append_right
    unfold exp_text
    apply List.mem_append_left
    split <;> simp
  · split
    · exact ⟨46, by simp, by decide, by decide⟩
    · split
      · exact ⟨46, by simp, by decide, by decide⟩
      · exact ⟨46, by simp, by decide, by decide⟩

theorem signed_not_int_literal (neg : Bool) {body : List Nat}
    (h : body = [] ∨ ∃ c ∈ body, c ≠ 45 ∧ isdigit c = false) :
    is_int_literal ((if neg then [45] else []) ++ body) = false := by
  rcases h with h | ⟨c, hc, h45, hd⟩
  · subst h
    cases neg <;> rfl
  · exact not_int_literal_of_mark (List.mem_append_right _ hc) h45 hd

/-- The `repr` of a float is never an integer literal. -/
theorem float_repr_not_int_literal (d : Dbl) : is_int_literal (float_repr d) = false := by
  cases d with
  | nan => rfl
  | inf neg => cases neg <;> rfl
  | fin neg m e =>
    unfold float_repr
    apply signed_not_int_literal
    by_cases hm : m = 0
    · rw [if_pos hm]
      exact Or.inr ⟨46, by simp, by decide, by decide⟩
    · rw [if_neg hm]
      dsimp only
      split
      · exact Or.inr (format_repr_mark _ _)
      · exact Or.inl rfl

/-- C1 (round-trip), evaluated where it breaks.  The text `['1']` decodes to the
list holding the string `1`; that list encodes to `[1]`, which decodes to a list
holding the number 1.  The text `['1abc']` decodes to the list holding the
string `1abc`; that list encodes to `[1abc]`, which does not decode at all. -/
theorem roundtrip_breaks_on_digit_strings :
    xton_loads [91, 39, 49, 39, 93] = Outcome.ret (some (PyObj.list [PyObj.str [49]])) none ∧
    xton_dumps (PyObj.list [PyObj.str [49]]) = Except.ok [91, 49, 93] ∧
    xton_loads [91, 49, 93]
      = Outcome.ret (some (PyObj.list [PyObj.float (Dbl.fin false 4503599627370496 (-52))])) none ∧
    PyObj.list [PyObj.float (Dbl.fin false 4503599627370496 (-52))] ≠ PyObj.list [PyObj.str [49]] ∧
    xton_loads [91, 39, 49, 97, 98, 99, 39, 93]
      = Outcome.ret (some (PyObj.list [PyObj.str [49, 97, 98, 99]])) none ∧
    xton_dumps (PyObj.list [PyObj.str [49, 97, 98, 99]]) = Except.ok [91, 49, 97, 98, 99, 93] ∧
    xton_loads [91, 49, 97, 98, 99, 93] = Outcome.ret none (some PyErr.invalidFormat) :=
  ⟨rfl, rfl, rfl, by simp, rfl, rfl, rfl⟩

/-- C2 as stated fails.  The object with key `1e` and value 5 encodes to
`1e-5`, whose decoding is the number 0.00001, not a mapping.  The object with
key `x` and value 2^53 + 1 encodes to `x-9007199254740993`, whose decoding holds
the float 2^53, which is not equal to 2^53 + 1.  The key a, NUL, b needs no
quoting by the rule of the claim, and the object with that key and value 1
encodes to `<'a-1>`.  The object with key `x` and value 10^4300, which has one
digit more than the limit of 4300 digits, is not encoded at all. -/
theorem collapse_symmetry_counterexample :
    (needs_quoting [49, 101] = false ∧
     xton_dumps (PyObj.dict [(PyObj.str [49, 101], PyObj.long 5)]) = Except.ok [49, 101, 45, 53] ∧
     xton_loads [49, 101, 45, 53]
       = Outcome.ret (some (PyObj.float (Dbl.fin false 5902958103587057 (-69)))) none) ∧
    (xton_dumps (PyObj.dict [(PyObj.str [120], PyObj.long 9007199254740993)])
       = Except.ok [120, 45, 57, 48, 48, 55, 49, 57, 57, 50, 53, 52, 55, 52, 48, 57, 57, 51] ∧
     xton_loads [120, 45, 57, 48, 48, 55, 49, 57, 57, 50, 53, 52, 55, 52, 48, 57, 57, 51]
       = Outcome.ret (some (PyObj.dict
           [(PyObj.str [120], PyObj.float (Dbl.fin false 4503599627370496 1))])) none ∧
     Dbl.eq_int (Dbl.fin false 4503599627370496 1) 9007199254740993 = false) ∧
    (spec_bare [97, 0, 98] = true ∧
     xton_dumps (PyObj.dict [(PyObj.str [97, 0, 98], PyObj.long 1)])
       = Except.ok [60, 39, 97, 45, 49, 62]) ∧
    xton_dumps (PyObj.dict [(PyObj.str [120], PyObj.long (Int.ofNat (10 ^ int_max_str_digits)))])
      = Except.error PyErr.intMaxStrDigits :=
  ⟨⟨rfl, rfl, rfl⟩, ⟨rfl, rfl, rfl⟩, ⟨rfl, rfl⟩,
    dumps_over_limit [120] (10 ^ int_max_str_digits) rfl (Nat.le_refl _)⟩

/-- C2, amended: for every key `k` that requires no quoting (not empty, no
delimiter, whitespace, single quote or backslash) and holds no NUL character,
and every integer `n`: when `n` has no more decimal digits than the limit on
the conversion of an int to text, encode of the single-entry object with key
`k` and value `n` is `k`, then `-`, then the decimal text of `n`, with no
enclosing `<>`, and when it has more, encode fails; and decode of the text `k`,
`-`, decimal text of `n` returns the single-entry mapping from `k` to the
binary64 number nearest to `n`, which equals `n` whenever the magnitude of `n`
is at most 2^53, unless that text begins with a digit and is as a whole one
numeric constant, in which case decode returns that number.  (A key is the
UTF-8 text of a string.) -/
theorem collapse_symmetry (k : List Nat) (n : Int) (hb : spec_bare k = true) (h0 : 0 ∉ k)
    (hu : utf8_valid k = true) :
    ((nat_repr n.natAbs).length ≤ int_max_str_digits →
      xton_dumps (PyObj.dict [(PyObj.str k, PyObj.long n)])
        = Except.ok (k ++ [45] ++ long_repr n)) ∧
    (int_max_str_digits < (nat_repr n.natAbs).length →
      xton_dumps (PyObj.dict [(PyObj.str k, PyObj.long n)])
        = Except.error PyErr.intMaxStrDigits) ∧
    (reads_as_number (k ++ [45] ++ long_repr n) = false →
      xton_loads (k ++ [45] ++ long_repr n)
        = Outcome.ret (some (PyObj.dict [(PyObj.str k, PyObj.float (Dbl.of_int n))])) none) ∧
    (reads_as_number (k ++ [45] ++ long_repr n) = true →
      ∃ v, strtod (k ++ [45] ++ long_repr n) = some (v, []) ∧
        xton_loads (k ++ [45] ++ long_repr n) = Outcome.ret (some (PyObj.float v)) none) ∧
    (n.natAbs ≤ 2 ^ 53 → Dbl.eq_int (Dbl.of_int n) n = true) := by
  have hq : needs_quoting k = false := bare_of_spec hb h0
  have e : k ++ [45] ++ long_repr n = k ++ (45 :: long_repr n) := by simp
  have hpk : peek (k ++ (45 :: long_repr n)) = peek k := by
    obtain ⟨hne, -⟩ := (needs_quoting_false_iff k).1 hq
    obtain ⟨c, k', rfl⟩ := List.exists_cons_of_ne_nil hne
    rfl
  refine ⟨?_, ?_, ?_, ?_, of_int_exact n⟩
  · intro hl
    rw [xton_dumps_collapsed k _ hq]
    show (match int_repr n with
      | Except.ok sv => Except.ok (k ++ [45] ++ sv)
      | Except.error e => Except.error e) = _
    rw [int_repr_ok hl]
  · intro hl
    rw [xton_dumps_collapsed k _ hq]
    show (match int_repr n with
      | Except.ok sv => Except.ok (k ++ [45] ++ sv)
      | Except.error e => Except.error e) = _
    rw [int_repr_error hl]
  · intro hr
    by_cases hd : isdigit (peek k) = true
    · rw [e] at hr ⊢
      obtain ⟨v, s', hst, hl⟩ := loads_digit_key k n hq hu hd
      have hs : s' ≠ [] := by
        intro hs
        subst hs
        simp [reads_as_number, hpk, hd, hst] at hr
      rw [hl, if_neg hs]
    · exact loads_bare_pair k n hq (by simpa using hd) hu
  · intro hr
    rw [e] at hr ⊢
    have hd : isdigit (peek k) = true := by
      simp only [reads_as_number, Bool.and_eq_true, hpk] at hr
      exact hr.1
    obtain ⟨v, s', hst, hl⟩ := loads_digit_key k n hq hu hd
    have hs : s' = [] := by
      simp only [reads_as_number, Bool.and_eq_true, hst] at hr
      have h2 := hr.2
      cases s' with
      | nil => rfl
      | cons x r => simp at h2
    subst hs
    exact ⟨v, hst, by rw [hl, if_pos rfl]⟩

theorem collapse_symmetry_witness :
    xton_dumps (PyObj.dict [(PyObj.str [120], PyObj.long 1)]) = Except.ok [120, 45, 49] ∧
    xton_loads [120, 45, 49]
      = Outcome.ret (some (PyObj.dict [(PyObj.str [120], PyObj.float (Dbl.of_int 1))])) none ∧
    Dbl.eq_int (Dbl.of_int 1) 1 = true ∧
    xton_loads [49, 50, 45, 53]
      = Outcome.ret (some (PyObj.dict [(PyObj.str [49, 50], PyObj.float (Dbl.of_int 5))])) none ∧
    xton_loads [49, 97, 45, 53]
      = Outcome.ret (some (PyObj.dict [(PyObj.str [49, 97], PyObj.float (Dbl.of_int 5))])) none ∧
    (∃ v, strtod [49, 101, 45, 53] = some (v, []) ∧
      xton_loads [49, 101, 45, 53] = Outcome.ret (some (PyObj.float v)) none) ∧
    (∃ v, strtod [48, 120, 49, 112, 45, 53] = some (v, []) ∧
      xton_loads [48, 120, 49, 112, 45, 53] = Outcome.ret (some (PyObj.float v)) none) :=
  ⟨(collapse_symmetry [120] 1 (by decide) (by decide) (by decide)).1 (by decide),
   (collapse_symmetry [120] 1 (by decide) (by decide) (by decide)).2.2.1 rfl,
   (collapse_symmetry [120] 1 (by decide) (by decide) (by decide)).2.2.2.2 (by decide),
   (collapse_symmetry [49, 50] 5 (by decide) (by decide) (by decide)).2.2.1 rfl,
   (collapse_symmetry [49, 97] 5 (by decide) (by decide) (by decide)).2.2.1 rfl,
   (collapse_symmetry [49, 101] 5 (by decide) (by decide) (by decide)).2.2.2.1 rfl,
   (collapse_symmetry [48, 120, 49, 112] 5 (by decide) (by decide) (by decide)).2.2.2.1 rfl⟩

/-- C3: for every string `s` that is valid UTF-8 and has no NUL byte, encode of
`s` as a top-level value is a single quote, `s` with each of the eight special
characters preceded by a backslash, and a single quote; decode of that text
returns exactly `s`. -/
theorem escaping_roundtrip_standalone (s : List Nat) (hu : utf8_valid s = true) (h0 : 0 ∉ s) :
    xton_dumps (PyObj.str s) = Except.ok (spec_quoted s) ∧
    xton_loads (spec_quoted s) = Outcome.ret (some (PyObj.str s)) none := by
  refine ⟨?_, loads_spec_quoted s h0 hu⟩
  show Except.ok (_serialize_quoted_string s) = Except.ok (spec_quoted s)
  rw [serialize_quoted_eq_spec h0]

theorem escaping_roundtrip_standalone_witness :
    xton_dumps (PyObj.str [97, 45, 98]) = Except.ok [39, 97, 92, 45, 98, 39] ∧
    xton_loads [39, 97, 92, 45, 98, 39] = Outcome.ret (some (PyObj.str [97, 45, 98])) none :=
  escaping_roundtrip_standalone [97, 45, 98] (by decide) (by decide)

/-- C4 (a failed container parse is surfaced), evaluated where it breaks.  The
text `<-5` returns the number -5 and `<[a]` returns a list, both with no error
pending; `[a-1` returns the number -1 and `[[a b]` returns the list holding `b`,
both built from the text after the point where the array parse gave up, with
the error of that parse still pending. -/
theorem failed_container_parse_not_surfaced :
    xton_loads [60, 45, 53]
      = Outcome.ret (some (PyObj.float (Dbl.fin true 5629499534213120 (-50)))) none ∧
    xton_loads [60, 91, 97, 93] = Outcome.ret (some (PyObj.list [PyObj.str [97]])) none ∧
    xton_loads [91, 97, 45, 49]
      = Outcome.ret (some (PyObj.float (Dbl.fin true 4503599627370496 (-52))))
          (some PyErr.malformedArray) ∧
    xton_loads [91, 91, 97, 32, 98, 93]
      = Outcome.ret (some (PyObj.list [PyObj.str [98]])) (some PyErr.malformedArray) :=
  ⟨rfl, rfl, rfl, rfl⟩

/-- C5 as stated fails: decode of `<a-1` does not report the unterminated
object; it fails with the generic error "Invalid XTon format or unsupported
type." -/
theorem unterminated_object_counterexample :
    xton_loads [60, 97, 45, 49] = Outcome.ret none (some PyErr.invalidFormat) ∧
    xton_loads [60, 97, 45, 49] ≠ Outcome.ret none (some PyErr.unterminatedObject) :=
  ⟨rfl, by rw [show xton_loads [60, 97, 45, 49]
      = Outcome.ret none (some PyErr.invalidFormat) from rfl]; simp⟩

/-- C5, amended: for every input (without a NUL byte) that opens an object
with `<` as its first non-whitespace character and on which the parse of that
object reaches the end of the input before the closing `>`, decode fails, with
the generic error "Invalid XTon format or unsupported type." -/
theorem open_object_error_is_generic (t : List Nat) (h0 : 0 ∉ t)
    (h : object_open_at_end t = true) :
    xton_loads t = Outcome.ret none (some PyErr.invalidFormat) := by
  unfold object_open_at_end at h
  rw [Bool.and_eq_true] at h
  obtain ⟨h60, hp⟩ := h
  have h60' : peek (skip_whitespace t) = 60 := by simpa using h60
  have hdel : is_xton_identifier_delimiter (peek (skip_whitespace t)) = true := by
    rw [h60']; decide
  have hpair := loads_pair_at_delim (n := t.length + 1) hdel
  have hv : ∃ s1 e1, parse_value (t.length + 1) (skip_whitespace t) none = Res.null s1 e1 := by
    unfold parse_value
    rw [skip_whitespace_idem]
    cases hres : parse_object (parse_value t.length) t.length (skip_whitespace t) none with
    | null s1 e1 =>
      rw [hres] at hp
      cases s1 with
      | nil =>
        dsimp only
        rw [parse_array_nil]
        dsimp only
        rw [parse_scalar_nil]
        exact ⟨_, _, rfl⟩
      | cons x r => simp at hp
    | ok v s1 e1 => rw [hres] at hp; simp at hp
    | ub => rw [hres] at hp; simp at hp
    | fuel => rw [hres] at hp; simp at hp
  unfold xton_loads
  rw [loads_with_second_attempt h0 (Or.inl hv)]
  exact hpair

theorem open_object_error_is_generic_witness :
    xton_loads [32, 60, 97, 45, 49] = Outcome.ret none (some PyErr.invalidFormat) ∧
    xton_loads [60, 97, 45, 49, 47] = Outcome.ret none (some PyErr.invalidFormat) ∧
    xton_loads [60, 97, 45, 49, 47, 98, 45, 50] = Outcome.ret none (some PyErr.invalidFormat) ∧
    xton_loads [60, 97, 45] = Outcome.ret none (some PyErr.invalidFormat) ∧
    xton_loads [60, 97, 45, 91, 49] = Outcome.ret none (some PyErr.invalidFormat) :=
  ⟨open_object_error_is_generic [32, 60, 97, 45, 49] (by decide) rfl,
   open_object_error_is_generic [60, 97, 45, 49, 47] (by decide) rfl,
   open_object_error_is_generic [60, 97, 45, 49, 47, 98, 45, 50] (by decide) rfl,
   open_object_error_is_generic [60, 97, 45] (by decide) rfl,
   open_object_error_is_generic [60, 97, 45, 91, 49] (by decide) rfl⟩

/-- C6 as stated fails: `[1e-5]` is accepted; it decodes to the array holding
the number 0.00001. -/
theorem array_pair_counterexample :
    xton_loads [91, 49, 101, 45, 53, 93]
      = Outcome.ret (some (PyObj.list [PyObj.float (Dbl.fin false 5902958103587057 (-69))])) none :=
  rfl

/-- C6, amended: for every non-empty run `k` of non-delimiter characters that
does not begin with a digit and every non-negative decimal integer `n`, decode
of the text `[`, `k`, `-`, `n`, `]` fails. -/
theorem array_pair_rejected (k : List Nat) (n : Nat) (hne : k ≠ [])
    (hk : ∀ c ∈ k, is_xton_identifier_delimiter c = false) (hd : isdigit (peek k) = false) :
    xton_loads ([91] ++ k ++ [45] ++ nat_repr n ++ [93])
      = Outcome.ret none (some PyErr.invalidFormat) := by
  have e : [91] ++ k ++ [45] ++ nat_repr n ++ [93] = 91 :: (k ++ 45 :: (nat_repr n ++ [93])) := by
    simp
  rw [e]
  exact loads_array_pair_digits k (nat_repr n) hne hk hd (nat_repr_digits n)

theorem array_pair_rejected_witness :
    xton_loads [91, 97, 45, 49, 93] = Outcome.ret none (some PyErr.invalidFormat) :=
  array_pair_rejected [97] 1 (by decide) (by decide) (by decide)

/-- C7 as stated fails: the number 3.0, which is what decode makes of the text
`3`, is rendered `3.0`, with a fractional suffix. -/
theorem integral_float_counterexample :
    xton_loads [51] = Outcome.ret (some (PyObj.float (Dbl.fin false 6755399441055744 (-51)))) none ∧
    Dbl.eq_int (Dbl.fin false 6755399441055744 (-51)) 3 = true ∧
    xton_dumps (PyObj.float (Dbl.fin false 6755399441055744 (-51))) = Except.ok [51, 46, 48] :=
  ⟨rfl, rfl, rfl⟩

/-- C7, amended: every Number held as a Python `int` that has no more decimal
digits than the limit on the conversion of an int to text is rendered as an
integer literal with no fractional suffix, an optional `-` and the decimal
digits of its magnitude, and for an `int` with more digits encode fails; a
Number held as a `float` is rendered by `repr`, which is never an integer
literal, also when the value has no fractional part: 3.0 gives `3.0` and 10^22
gives `1e+22`. -/
theorem int_rendered_as_integer_literal (n : Int) (d : Dbl) :
    ((nat_repr n.natAbs).length ≤ int_max_str_digits →
      xton_dumps (PyObj.long n)
        = Except.ok ((if n < 0 then [45] else []) ++ nat_repr n.natAbs) ∧
      is_int_literal ((if n < 0 then [45] else []) ++ nat_repr n.natAbs) = true) ∧
    (int_max_str_digits < (nat_repr n.natAbs).length →
      xton_dumps (PyObj.long n) = Except.error PyErr.intMaxStrDigits) ∧
    nat_repr n.natAbs ≠ [] ∧ (∀ c ∈ nat_repr n.natAbs, isdigit c = true) ∧
    digits_val (nat_repr n.natAbs) = n.natAbs ∧
    xton_dumps (PyObj.float d) = Except.ok (float_repr d) ∧
    is_int_literal (float_repr d) = false ∧
    xton_dumps (PyObj.float (Dbl.of_int 3)) = Except.ok [51, 46, 48] ∧
    xton_dumps (PyObj.float (Dbl.of_int 10000000000000000000000))
      = Except.ok [49, 101, 43, 50, 50] := by
  have hrep : long_repr n = (if n < 0 then [45] else []) ++ nat_repr n.natAbs := by
    unfold long_repr
    split <;> simp
  refine ⟨?_, ?_, nat_repr_ne_nil _, nat_repr_digits _, digits_val_nat_repr _, rfl,
    float_repr_not_int_literal d, rfl, float_repr_large_integral⟩
  · intro hl
    rw [← hrep]
    refine ⟨?_, is_int_literal_long_repr n⟩
    show int_repr n = _
    exact int_repr_ok hl
  · intro hl
    show int_repr n = _
    exact int_repr_error hl

theorem spec_quoted_length (s : List Nat) :
    (spec_quoted s).length = s.length + 2 + spec_escaped_count s := by
  have h : (spec_escape s).length = s.length + spec_escaped_count s := by
    induction s with
    | nil => rfl
    | cons c r ih =>
      have e : spec_escape (c :: r) =
          (if c ∈ [45, 60, 62, 91, 93, 47, 39, 92] then [92, c] else [c]) ++ spec_escape r := by
        simp [spec_escape]
      rw [e, List.length_append, ih]
      unfold spec_escaped_count
      by_cases hm : c ∈ [45, 60, 62, 91, 93, 47, 39, 92]
      · rw [List.countP_cons_of_pos _ _ (by simpa using hm)]
        simp only [hm, if_true, List.length_cons, List.length_nil]
        omega
      · rw [List.countP_cons_of_neg _ _ (by simpa using hm)]
        simp only [hm, if_false, List.length_cons, List.length_nil]
        omega
  simp only [spec_quoted, List.length_append, List.length_cons, List.length_nil, h]
  omega

/-- C8 as stated fails: the key made of `a`, a NUL character and `b` requires
no quoting by the specification's condition, yet encode of the single-entry
object with that key and the value 1 is in the full form, `<'a-1>`, not the bare
`key-value` form. -/
theorem top_level_collapse_counterexample :
    spec_collapsible (PyObj.dict [(PyObj.str [97, 0, 98], PyObj.long 1)]) = true ∧
    xton_dumps (PyObj.dict [(PyObj.str [97, 0, 98], PyObj.long 1)])
      = Except.ok [60, 39, 97, 45, 49, 62] ∧
    peek [60, 39, 97, 45, 49, 62] = 60 :=
  ⟨rfl, rfl, rfl⟩

/-- C8, amended: encode emits the bare `key-value` form, without the enclosing
`<>`, exactly when the value passed to it is an object with exactly one entry
whose key is a string that requires no quoting and holds no NUL character.
Every other object is rendered in the full `<...>` form, and so is every object
nested inside an array or inside another object (the general rule renders an
object as `<`, its entries, `>`); encode of the list holding the object with
key `x` and value 1 is `[<x-1>]`, and encode of the empty object is `<>`. -/
theorem top_level_collapse_condition (obj : PyObj) (out : List Nat)
    (h : xton_dumps obj = Except.ok out) :
    (collapsible obj = true →
      ∃ k v sv, obj = PyObj.dict [(PyObj.str k, v)] ∧ spec_bare k = true ∧ 0 ∉ k ∧
        _serialize_to_xton v = Except.ok sv ∧ out = k ++ [45] ++ sv ∧ peek out ≠ 60) ∧
    (collapsible obj = false → ∀ kvs, obj = PyObj.dict kvs →
      ∃ parts, serialize_pairs kvs = Except.ok parts ∧ out = full_form parts) ∧
    (∀ kvs sv, _serialize_to_xton (PyObj.dict kvs) = Except.ok sv →
      ∃ ps, serialize_pairs kvs = Except.ok ps ∧ sv = full_form ps) ∧
    (∀ kvs rest parts, serialize_elements (PyObj.dict kvs :: rest) = Except.ok parts →
      ∃ ps body, serialize_pairs kvs = Except.ok ps ∧ parts = full_form ps :: body) ∧
    (∀ k kvs rest parts,
      serialize_pairs ((PyObj.str k, PyObj.dict kvs) :: rest) = Except.ok parts →
      ∃ ps body, serialize_pairs kvs = Except.ok ps ∧
        parts = (_serialize_maybe_unquoted_string k ++ [45] ++ full_form ps) :: body) ∧
    xton_dumps (PyObj.list [PyObj.dict [(PyObj.str [120], PyObj.long 1)]])
      = Except.ok [91, 60, 120, 45, 49, 62, 93] ∧
    xton_dumps (PyObj.dict []) = Except.ok [60, 62] := by
  have hfull : ∀ kvs sv, _serialize_to_xton (PyObj.dict kvs) = Except.ok sv →
      ∃ ps, serialize_pairs kvs = Except.ok ps ∧ sv = full_form ps := by
    intro kvs sv hs
    rw [serialize_dict_eq] at hs
    cases hp : serialize_pairs kvs with
    | error e => rw [hp] at hs; exact absurd hs (by simp)
    | ok ps =>
      rw [hp] at hs
      simp only [Except.ok.injEq] at hs
      exact ⟨ps, rfl, hs.symm⟩
  refine ⟨?_, ?_, hfull, ?_, ?_, rfl, rfl⟩
  · intro hc
    obtain ⟨k, v, rfl, hk⟩ := (collapsible_iff obj).1 hc
    rw [xton_dumps_collapsed k v hk] at h
    cases hv : _serialize_to_xton v with
    | error e => rw [hv] at h; exact absurd h (by simp)
    | ok sv =>
      rw [hv] at h
      simp only [Except.ok.injEq] at h
      have hsp : spec_bare k = true ∧ 0 ∉ k := by
        have := hc
        rw [collapsible_pair] at this
        simp only [collapsible] at hc
        simpa using hc
      refine ⟨k, v, sv, rfl, hsp.1, hsp.2, hv, h.symm, ?_⟩
      obtain ⟨hne, hkk⟩ := (needs_quoting_false_iff k).1 hk
      obtain ⟨c, k', rfl⟩ := List.exists_cons_of_ne_nil hne
      rw [← h]
      intro hp
      have hc60 : c = 60 := by simpa [peek] using hp
      have := (hkk c (by simp)).1
      rw [hc60] at this
      exact absurd this (by decide)
  · intro hc kvs hobj
    subst hobj
    rw [xton_dumps_of_not_collapsible _ hc, serialize_dict_eq] at h
    cases hp : serialize_pairs kvs with
    | error e => rw [hp] at h; exact absurd h (by simp)
    | ok parts =>
      rw [hp] at h
      simp only [Except.ok.injEq] at h
      exact ⟨parts, rfl, h.symm⟩
  · intro kvs rest parts hs
    rw [serialize_elements_dict, serialize_dict_eq] at hs
    cases hp : serialize_pairs kvs with
    | error e => rw [hp] at hs; exact absurd hs (by simp)
    | ok ps =>
      rw [hp] at hs
      dsimp only at hs
      cases hr : serialize_elements rest with
      | error e => rw [hr] at hs; exact absurd hs (by simp)
      | ok body =>
        rw [hr] at hs
        simp only [Except.ok.injEq] at hs
        exact ⟨ps, body, rfl, hs.symm⟩
  · intro k kvs rest parts hs
    rw [serialize_pairs_str, serialize_dict_eq] at hs
    cases hp : serialize_pairs kvs with
    | error e => rw [hp] at hs; exact absurd hs (by simp)
    | ok ps =>
      rw [hp] at hs
      dsimp only at hs
      cases hr : serialize_pairs rest with
      | error e => rw [hr] at hs; exact absurd hs (by simp)
      | ok body =>
        rw [hr] at hs
        simp only [Except.ok.injEq] at hs
        exact ⟨ps, body, rfl, hs.symm⟩

theorem top_level_collapse_condition_witness :
    (collapsible (PyObj.dict [(PyObj.str [120], PyObj.long 1)]) = true →
      ∃ k v sv, PyObj.dict [(PyObj.str [120], PyObj.long 1)] = PyObj.dict [(PyObj.str k, v)] ∧
        spec_bare k = true ∧ 0 ∉ k ∧ _serialize_to_xton v = Except.ok sv ∧
        [120, 45, 49] = k ++ [45] ++ sv ∧ peek [120, 45, 49] ≠ 60) ∧
    collapsible (PyObj.dict [(PyObj.str [120], PyObj.long 1)]) = true :=
  ⟨(top_level_collapse_condition (PyObj.dict [(PyObj.str [120], PyObj.long 1)])
      [120, 45, 49] rfl).1, rfl⟩

/-- C9 as stated fails: the string made of `a`, a NUL byte and `b` is not empty
and holds no delimiter `/ < > [ ] -`, whitespace, single quote or backslash, yet
as an array element it is not rendered bare; the array encodes to `['a]`. -/
theorem string_quoting_counterexample :
    spec_bare [97, 0, 98] = true ∧
    xton_dumps (PyObj.list [PyObj.str [97, 0, 98]]) = Except.ok [91, 39, 97, 93] ∧
    xton_dumps (PyObj.list [PyObj.str [97, 0, 98]]) ≠ Except.ok ([91] ++ [97, 0, 98] ++ [93]) :=
  ⟨rfl, rfl, by
    rw [show xton_dumps (PyObj.list [PyObj.str [97, 0, 98]]) = Except.ok [91, 39, 97, 93] from rfl]
    simp⟩

/-- C9, amended: for every string `s`, encode renders `s` by the quoting helper
when `s` is the top-level value or an object value, even if `s` has no special
character; when `s` is an array element or an object key it is rendered bare
(exactly the bytes of `s`) if and only if `s` is non-empty and contains no
delimiter `/ < > [ ] -`, no whitespace, no single quote, no backslash and no NUL
byte, and by the quoting helper otherwise.  For a string without a NUL byte the
quoting helper gives the quoted form. -/
theorem string_quoting_by_position (s : List Nat) :
    xton_dumps (PyObj.str s) = Except.ok (_serialize_quoted_string s) ∧
    (∀ k rest parts, serialize_pairs rest = Except.ok parts →
      serialize_pairs ((PyObj.str k, PyObj.str s) :: rest)
        = Except.ok ((_serialize_maybe_unquoted_string k ++ [45] ++ _serialize_quoted_string s)
            :: parts)) ∧
    (∀ rest parts, serialize_elements rest = Except.ok parts →
      serialize_elements (PyObj.str s :: rest)
        = Except.ok ((if spec_bare s = true ∧ 0 ∉ s then s else _serialize_quoted_string s)
            :: parts)) ∧
    (∀ v sv rest parts, _serialize_to_xton v = Except.ok sv →
      serialize_pairs rest = Except.ok parts →
      serialize_pairs ((PyObj.str s, v) :: rest)
        = Except.ok (((if spec_bare s = true ∧ 0 ∉ s then s else _serialize_quoted_string s)
            ++ [45] ++ sv) :: parts)) ∧
    (0 ∉ s → _serialize_quoted_string s = spec_quoted s) ∧
    peek (_serialize_quoted_string s) = 39 ∧
    (spec_bare s = true → peek s ≠ 39) := by
  have hm : _serialize_maybe_unquoted_string s
      = if spec_bare s = true ∧ 0 ∉ s then s else _serialize_quoted_string s := by
    unfold _serialize_maybe_unquoted_string
    by_cases h0 : 0 ∈ s
    · rw [needs_quoting_of_nul h0]
      simp [h0]
    · rw [needs_quoting_eq_not_bare h0]
      by_cases hb : spec_bare s = true
      · simp [hb, h0]
      · simp [hb]
  refine ⟨rfl, ?_, ?_, ?_, fun h0 => serialize_quoted_eq_spec h0, peek_serialize_quoted s,
    peek_of_spec_bare⟩
  · intro k rest parts hr
    rw [serialize_pairs_str, hr]
    rfl
  · intro rest parts hr
    rw [serialize_elements_str, hr, hm]
  · intro v sv rest parts hv hr
    rw [serialize_pairs_str, hv, hr, hm]

/-- C10 (quoting rule), evaluated where it breaks, and proved where it holds.
For the string made of `a`, a NUL byte and `b` the helper returns the two bytes
`'a`: the text made from its buffer ends at the NUL, so the rest of the string
and the closing quote are lost.  For every string without a NUL byte the helper
returns the quoted form, of length `len(s) + 2 +` the number of escaped bytes. -/
theorem quoted_form_cut_at_nul :
    _serialize_quoted_string [97, 0, 98] = [39, 97] ∧
    spec_quoted [97, 0, 98] = [39, 97, 0, 98, 39] ∧
    xton_dumps (PyObj.str [97, 0, 98]) = Except.ok [39, 97] ∧
    (∀ s : List Nat, 0 ∉ s →
      _serialize_quoted_string s = spec_quoted s ∧
      (_serialize_quoted_string s).length = s.length + 2 + spec_escaped_count s) :=
  ⟨rfl, rfl, rfl, fun s h0 =>
    ⟨serialize_quoted_eq_spec h0, by rw [serialize_quoted_eq_spec h0]; exact spec_quoted_length s⟩⟩

/-! ## Whitespace, literal tags and empty containers -/

theorem skip_whitespace_run {w r : List Nat} (hw : ∀ c ∈ w, isspace c = true)
    (hr : isspace (peek r) = false) : skip_whitespace (w ++ r) = r :=
  dropWhile_run hw hr

theorem skip_whitespace_all {w : List Nat} (hw : ∀ c ∈ w, isspace c = true) :
    skip_whitespace w = [] := by
  have := skip_whitespace_run (r := []) hw (by decide)
  simpa using this

theorem zero_not_mem_of_space {w : List Nat} (hw : ∀ c ∈ w, isspace c = true) : 0 ∉ w := by
  intro h
  have := hw 0 h
  exact absurd this (by decide)

theorem parse_scalar_true (rest : List Nat) (err : Option PyErr) :
    parse_scalar ([92, 116, 114, 117, 101] ++ rest) err = Res.ok (PyObj.bool true) rest err := by
  simp [parse_scalar]

theorem parse_scalar_false (rest : List Nat) (err : Option PyErr) :
    parse_scalar ([92, 102, 97, 108, 115, 101] ++ rest) err
      = Res.ok (PyObj.bool false) rest err := by
  simp [parse_scalar]

theorem parse_scalar_none (rest : List Nat) (err : Option PyErr) :
    parse_scalar ([92, 110, 111, 110, 101] ++ rest) err = Res.ok PyObj.none rest err := by
  simp [parse_scalar]

/-- At every value position a text that starts with a backslash is handed to
the scalar branch, after the white space in front of it. -/
theorem parse_value_at_backslash (n : Nat) {w : List Nat} (r : List Nat) (err : Option PyErr)
    (hw : ∀ c ∈ w, isspace c = true) :
    parse_value (n + 1) (w ++ 92 :: r) err = parse_scalar (92 :: r) err := by
  unfold parse_value
  rw [skip_whitespace_run hw (show isspace (peek (92 :: r)) = false from rfl),
    parse_object_of_ne (by decide)]
  simp only
  rw [parse_array_of_ne (by decide)]

/-- When attempt 1 reads a value and only white space follows, `xton_loads`
returns that value. -/
theorem loads_with_first_attempt {n : Nat} {input s1 : List Nat} {v : PyObj}
    {e1 : Option PyErr} (h0 : 0 ∉ input)
    (h : parse_value n (skip_whitespace input) none = Res.ok v s1 e1)
    (hs : peek (skip_whitespace s1) = 0) :
    loads_with n input = Outcome.ret (some v) e1 := by
  unfold loads_with
  rw [if_neg h0]
  simp only [h, hs, if_true]

theorem loads_tag (tag w1 w2 : List Nat) (v : PyObj) (ht : peek tag = 92) (h0 : 0 ∉ tag)
    (hp : ∀ rest err, parse_scalar (tag ++ rest) err = Res.ok v rest err)
    (hw1 : ∀ c ∈ w1, isspace c = true) (hw2 : ∀ c ∈ w2, isspace c = true) :
    xton_loads (w1 ++ tag ++ w2) = Outcome.ret (some v) none := by
  obtain ⟨c, r, rfl⟩ : ∃ c r, tag = c :: r := by
    cases tag with
    | nil => simp [peek] at ht
    | cons c r => exact ⟨c, r, rfl⟩
  have hc : c = 92 := by simpa [peek] using ht
  subst hc
  have hz : (0 : Nat) ∉ w1 ++ 92 :: r ++ w2 := by
    intro h
    rcases List.mem_append.1 h with h | h
    · rcases List.mem_append.1 h with h | h
      · exact zero_not_mem_of_space hw1 h
      · exact h0 h
    · exact zero_not_mem_of_space hw2 h
  unfold xton_loads
  apply @loads_with_first_attempt _ _ w2 _ _ hz
  · have e : w1 ++ 92 :: r ++ w2 = w1 ++ (92 :: (r ++ w2)) := by simp
    rw [e, skip_whitespace_run hw1 (show isspace (peek (92 :: (r ++ w2))) = false from rfl)]
    have := parse_value_at_backslash (w1 ++ 92 :: (r ++ w2)).length (w := []) (r ++ w2) none
      (by simp)
    rw [List.nil_append] at this
    rw [this]
    exact hp w2 none
  · rw [skip_whitespace_all hw2]
    rfl

/-- C16: decode of `\true` is the boolean true, of `\false` the boolean false
and of `\none` null, each optionally surrounded by whitespace, and never the
unquoted string of the same characters; the same holds at every value position,
such as an array element or an object value. -/
theorem literal_priority :
    (∀ w1 w2 : List Nat, (∀ c ∈ w1, isspace c = true) → (∀ c ∈ w2, isspace c = true) →
      xton_loads (w1 ++ [92, 116, 114, 117, 101] ++ w2)
        = Outcome.ret (some (PyObj.bool true)) none ∧
      xton_loads (w1 ++ [92, 102, 97, 108, 115, 101] ++ w2)
        = Outcome.ret (some (PyObj.bool false)) none ∧
      xton_loads (w1 ++ [92, 110, 111, 110, 101] ++ w2)
        = Outcome.ret (some PyObj.none) none) ∧
    (∀ (n : Nat) (w rest : List Nat) (err : Option PyErr), (∀ c ∈ w, isspace c = true) →
      parse_value (n + 1) (w ++ [92, 116, 114, 117, 101] ++ rest) err
        = Res.ok (PyObj.bool true) rest err ∧
      parse_value (n + 1) (w ++ [92, 102, 97, 108, 115, 101] ++ rest) err
        = Res.ok (PyObj.bool false) rest err ∧
      parse_value (n + 1) (w ++ [92, 110, 111, 110, 101] ++ rest) err
        = Res.ok PyObj.none rest err) ∧
    xton_loads [91, 92, 116, 114, 117, 101, 47, 92, 102, 97, 108, 115, 101, 47,
        92, 110, 111, 110, 101, 93]
      = Outcome.ret (some (PyObj.list [PyObj.bool true, PyObj.bool false, PyObj.none])) none ∧
    xton_loads [60, 97, 45, 92, 116, 114, 117, 101, 47, 98, 45, 92, 110, 111, 110, 101, 62]
      = Outcome.ret (some (PyObj.dict
          [(PyObj.str [97], PyObj.bool true), (PyObj.str [98], PyObj.none)])) none := by
  refine ⟨?_, ?_, rfl, rfl⟩
  · intro w1 w2 hw1 hw2
    exact ⟨loads_tag _ w1 w2 _ rfl (by decide) parse_scalar_true hw1 hw2,
      loads_tag _ w1 w2 _ rfl (by decide) parse_scalar_false hw1 hw2,
      loads_tag _ w1 w2 _ rfl (by decide) parse_scalar_none hw1 hw2⟩
  · intro n w rest err hw
    refine ⟨?_, ?_, ?_⟩
    · have := parse_value_at_backslash n ([116, 114, 117, 101] ++ rest) err hw
      simp only [List.append_assoc, List.cons_append, List.nil_append] at this ⊢
      rw [this]
      exact parse_scalar_true rest err
    · have := parse_value_at_backslash n ([102, 97, 108, 115, 101] ++ rest) err hw
      simp only [List.append_assoc, List.cons_append, List.nil_append] at this ⊢
      rw [this]
      exact parse_scalar_false rest err
    · have := parse_value_at_backslash n ([110, 111, 110, 101] ++ rest) err hw
      simp only [List.append_assoc, List.cons_append, List.nil_append] at this ⊢
      rw [this]
      exact parse_scalar_none rest err

theorem literal_priority_witness :
    xton_loads ([32] ++ [92, 116, 114, 117, 101] ++ [10])
        = Outcome.ret (some (PyObj.bool true)) none ∧
    xton_loads ([32] ++ [92, 102, 97, 108, 115, 101] ++ [10])
        = Outcome.ret (some (PyObj.bool false)) none ∧
    xton_loads ([32] ++ [92, 110, 111, 110, 101] ++ [10])
        = Outcome.ret (some PyObj.none) none :=
  literal_priority.1 [32] [10] (by decide) (by decide)

/-- C17: decode of `<>` is the empty object and decode of `[]` is the empty
array, also with any amount of whitespace between the opening and the closing
delimiter; encode of the empty object is `<>` and encode of the empty array is
`[]`. -/
theorem empty_containers (w : List Nat) (hw : ∀ c ∈ w, isspace c = true) :
    xton_loads ([60] ++ w ++ [62]) = Outcome.ret (some (PyObj.dict [])) none ∧
    xton_loads ([91] ++ w ++ [93]) = Outcome.ret (some (PyObj.list [])) none ∧
    xton_dumps (PyObj.dict []) = Except.ok [60, 62] ∧
    xton_dumps (PyObj.list []) = Except.ok [91, 93] := by
  have h0 := zero_not_mem_of_space hw
  refine ⟨?_, ?_, rfl, rfl⟩
  · have hz : (0 : Nat) ∉ [60] ++ w ++ [62] := by simp [h0]
    unfold xton_loads
    apply @loads_with_first_attempt _ _ [] _ _ hz
    · have e : [60] ++ w ++ [62] = 60 :: (w ++ [62]) := by simp
      rw [e, skip_whitespace_cons_of_not_space _ (by decide)]
      unfold parse_value parse_object
      rw [skip_whitespace_cons_of_not_space _ (by decide)]
      simp only
      rw [skip_whitespace_run hw (by decide)]
      rfl
    · rfl
  · have hz : (0 : Nat) ∉ [91] ++ w ++ [93] := by simp [h0]
    unfold xton_loads
    apply @loads_with_first_attempt _ _ [] _ _ hz
    · have e : [91] ++ w ++ [93] = 91 :: (w ++ [93]) := by simp
      rw [e, skip_whitespace_cons_of_not_space _ (by decide)]
      unfold parse_value
      rw [skip_whitespace_cons_of_not_space _ (by decide), parse_object_of_ne (by decide)]
      simp only
      unfold parse_array
      simp only
      rw [skip_whitespace_run hw (by decide)]
      rfl
    · rfl

theorem empty_containers_witness :
    xton_loads ([60] ++ [32, 9] ++ [62]) = Outcome.ret (some (PyObj.dict [])) none ∧
    xton_loads ([91] ++ [32, 9] ++ [93]) = Outcome.ret (some (PyObj.list [])) none ∧
    xton_dumps (PyObj.dict []) = Except.ok [60, 62] ∧
    xton_dumps (PyObj.list []) = Except.ok [91, 93] :=
  empty_containers [32, 9] (by decide)

/-! ## The number gate and escapes -/

theorem parse_scalar_of_closed_gate {s : List Nat} (err : Option PyErr)
    (h92 : peek s ≠ 92) (hg : number_gate s = false) :
    parse_scalar s err = parse_strings s err := by
  cases s with
  | nil => simp [parse_scalar, hg]
  | cons c r =>
    have hc : c ≠ 92 := by simpa [peek] using h92
    unfold parse_scalar
    simp [List.take, hc, hg]

/-- C19: the number branch is tried only at a digit or at `-` immediately
followed by a digit: where that gate is closed the scalar branch goes from the
literal tags straight to the strings.  Hence for every non-empty text `t` made
only of non-delimiter characters whose first character is not a digit, not a
single quote and not a backslash, decode of `t` is the string `t` itself, even
when `t` is a valid floating-point literal for the C library such as `.5`,
`+5`, `inf` or `nan`. -/
theorem number_gate_bare_string (t : List Nat) (hne : t ≠ [])
    (ht : ∀ c ∈ t, is_xton_identifier_delimiter c = false)
    (hd : isdigit (peek t) = false) (h39 : peek t ≠ 39) (h92 : peek t ≠ 92)
    (hu : utf8_valid t = true) :
    xton_loads t = Outcome.ret (some (PyObj.str t)) none ∧
    (∀ (s : List Nat) (err : Option PyErr), number_gate s = false → peek s ≠ 92 →
      parse_scalar s err = parse_strings s err) ∧
    (∀ s : List Nat, number_gate s = true ↔
      (isdigit (peek s) = true ∨ (peek s = 45 ∧ isdigit (peek s.tail) = true))) := by
  refine ⟨?_, fun s err hg h => parse_scalar_of_closed_gate err h hg, ?_⟩
  · obtain ⟨c, r, rfl⟩ := List.exists_cons_of_ne_nil hne
    have hc := ht c (by simp)
    have hcs : isspace c = false := isspace_not_delim hc
    have hc' : c ≠ 60 ∧ c ≠ 91 ∧ c ≠ 45 := by
      have := hc
      simp [is_xton_identifier_delimiter] at this
      omega
    have hcd : isdigit c = false := by simpa [peek] using hd
    have hc39 : c ≠ 39 := by simpa [peek] using h39
    have hc92 : c ≠ 92 := by simpa [peek] using h92
    have hz : (0 : Nat) ∉ c :: r := by
      intro h
      have := ht 0 h
      simp [is_xton_identifier_delimiter] at this
    unfold xton_loads
    apply @loads_with_first_attempt _ _ [] _ _ hz
    · rw [skip_whitespace_cons_of_not_space _ hcs,
        parse_value_of_plain _ _ none hcs hc'.1 hc'.2.1 hc92 hcd hc'.2.2]
      have hq := parse_quoted_string_of_ne r none hc39
      have hrun := parse_unquoted_string_run (k := c :: r) (r := []) none hne ht (by decide)
      rw [List.append_nil] at hrun
      have hun : parse_unquoted_string (c :: r) none = Res.ok (PyObj.str (c :: r)) [] none := by
        rw [hrun]
        simp [decode_utf8, hu]
      exact parse_strings_of_unquoted_ok hq hun
    · rfl
  · intro s
    simp [number_gate]

theorem number_gate_bare_string_witness :
    (xton_loads [46, 53] = Outcome.ret (some (PyObj.str [46, 53])) none ∧
     xton_loads [43, 53] = Outcome.ret (some (PyObj.str [43, 53])) none ∧
     xton_loads [105, 110, 102] = Outcome.ret (some (PyObj.str [105, 110, 102])) none ∧
     xton_loads [110, 97, 110] = Outcome.ret (some (PyObj.str [110, 97, 110])) none) ∧
    (strtod [46, 53] = some (Dbl.fin false 4503599627370496 (-53), []) ∧
     strtod [43, 53] = some (Dbl.fin false 5629499534213120 (-50), []) ∧
     strtod [105, 110, 102] = some (Dbl.inf false, []) ∧
     strtod [110, 97, 110] = some (Dbl.nan, [])) :=
  ⟨⟨(number_gate_bare_string [46, 53] (by decide) (by decide) (by decide) (by decide)
        (by decide) (by decide)).1,
    (number_gate_bare_string [43, 53] (by decide) (by decide) (by decide) (by decide)
        (by decide) (by decide)).1,
    (number_gate_bare_string [105, 110, 102] (by decide) (by decide) (by decide) (by decide)
        (by decide) (by decide)).1,
    (number_gate_bare_string [110, 97, 110] (by decide) (by decide) (by decide) (by decide)
        (by decide) (by decide)).1⟩,
   ⟨rfl, rfl, rfl, rfl⟩⟩

theorem quoted_loop_plain_run (t r buf : List Nat) (ht : ∀ c ∈ t, c ≠ 0 ∧ c ≠ 39 ∧ c ≠ 92) :
    quoted_loop (t ++ 39 :: r) buf = some (buf ++ t, 39 :: r) := by
  induction t generalizing buf with
  | nil => simpa using quoted_loop_stop (Or.inr rfl) r buf
  | cons c t ih =>
    have hc := ht c (by simp)
    rw [List.cons_append, quoted_loop_plain hc.1 hc.2.1 hc.2.2,
      ih _ (fun x hx => ht x (by simp [hx]))]
    simp

/-- C20: for every single character `c` other than end of input (its first
byte `d` followed by its continuation bytes), decode of the text quote,
backslash, `c`, quote returns the one-character string `c`: the backslash is
dropped and `c` is kept, whether `c` is one of the recognised targets or any
other character, and it is never an error. -/
theorem escape_keeps_character (d : Nat) (tail : List Nat) (hd : d ≠ 0)
    (ht : ∀ b ∈ tail, utf8_cont b = true) (hu : utf8_valid (d :: tail) = true) :
    xton_loads ([39, 92] ++ (d :: tail) ++ [39])
      = Outcome.ret (some (PyObj.str (d :: tail))) none := by
  have htp : ∀ c ∈ tail, c ≠ 0 ∧ c ≠ 39 ∧ c ≠ 92 := by
    intro c hc
    have := ht c hc
    simp [utf8_cont] at this
    omega
  have hz : (0 : Nat) ∉ [39, 92] ++ (d :: tail) ++ [39] := by
    intro h
    simp only [List.mem_append, List.mem_cons, List.mem_singleton, List.mem_nil_iff,
      or_false] at h
    rcases h with ((h | h) | h | h) | h
    · exact absurd h (by decide)
    · exact absurd h (by decide)
    · exact hd h.symm
    · exact (htp 0 h).1 rfl
    · exact absurd h (by decide)
  have e : [39, 92] ++ (d :: tail) ++ [39] = 39 :: (92 :: d :: (tail ++ [39])) := by simp
  have hq : parse_quoted_string (39 :: (92 :: d :: (tail ++ [39]))) none
      = Res.ok (PyObj.str (d :: tail)) [] none := by
    have hl : quoted_loop (92 :: d :: (tail ++ [39])) [] = some (d :: tail, [39]) := by
      rw [quoted_loop_escape, quoted_loop_plain_run tail [] _ htp]
      simp
    rw [parse_quoted_string_of_loop none hl]
    simp [peek, decode_utf8, hu]
  rw [e]
  unfold xton_loads
  apply @loads_with_first_attempt _ _ [] _ _ (by rw [← e]; exact hz)
  · rw [skip_whitespace_cons_of_not_space _ (by decide),
      parse_value_of_plain _ _ none (by decide) (by decide) (by decide) (by decide) (by decide)
        (by decide)]
    exact parse_strings_of_quoted_ok hq
  · rfl

theorem escape_keeps_character_witness :
    xton_loads [39, 92, 110, 39] = Outcome.ret (some (PyObj.str [110])) none ∧
    xton_loads [39, 92, 45, 39] = Outcome.ret (some (PyObj.str [45])) none ∧
    xton_loads [39, 92, 39, 39] = Outcome.ret (some (PyObj.str [39])) none ∧
    xton_loads [39, 92, 195, 169, 39] = Outcome.ret (some (PyObj.str [195, 169])) none :=
  ⟨escape_keeps_character 110 [] (by decide) (by decide) (by decide),
   escape_keeps_character 45 [] (by decide) (by decide) (by decide),
   escape_keeps_character 39 [] (by decide) (by decide) (by decide),
   escape_keeps_character 195 [169] (by decide) (by decide) (by decide)⟩

/-! ## Which objects the encoder accepts -/

theorem serialize_elements_other (x : PyObj) (rest : List PyObj) (h : ∀ s, x ≠ PyObj.str s) :
    serialize_elements (x :: rest) =
      match _serialize_to_xton x with
      | Except.ok part =>
        match serialize_elements rest with
        | Except.ok parts => Except.ok (part :: parts)
        | Except.error e => Except.error e
      | Except.error e => Except.error e := by
  rw [serialize_elements]
  all_goals first | rfl | exact fun s hs => h s hs

theorem serialize_pairs_other (k v : PyObj) (rest : List (PyObj × PyObj))
    (h : ∀ s, k ≠ PyObj.str s) :
    serialize_pairs ((k, v) :: rest) = Except.error PyErr.nonStringKey := by
  rw [serialize_pairs]
  intro s v' hs
  exact h s (congrArg Prod.fst hs)

theorem serialize_list_eq (xs : List PyObj) :
    _serialize_to_xton (PyObj.list xs) =
      match serialize_elements xs with
      | Except.ok parts => Except.ok ([91] ++ List.intercalate [47] parts ++ [93])
      | Except.error e => Except.error e := by
  rw [_serialize_to_xton]

theorem serialize_list_ok {xs : List PyObj} {t : List Nat}
    (h : _serialize_to_xton (PyObj.list xs) = Except.ok t) :
    ∃ parts, serialize_elements xs = Except.ok parts := by
  rw [serialize_list_eq] at h
  cases hp : serialize_elements xs with
  | ok parts => exact ⟨parts, rfl⟩
  | error e => rw [hp] at h; exact absurd h (by simp)

theorem serialize_list_error {xs : List PyObj} {e : PyErr}
    (h : _serialize_to_xton (PyObj.list xs) = Except.error e) :
    serialize_elements xs = Except.error e := by
  rw [serialize_list_eq] at h
  cases hp : serialize_elements xs with
  | ok parts => rw [hp] at h; exact absurd h (by simp)
  | error e' => rw [hp] at h; simpa using h

theorem serialize_dict_ok {kvs : List (PyObj × PyObj)} {t : List Nat}
    (h : _serialize_to_xton (PyObj.dict kvs) = Except.ok t) :
    ∃ parts, serialize_pairs kvs = Except.ok parts := by
  rw [serialize_dict_eq] at h
  cases hp : serialize_pairs kvs with
  | ok parts => exact ⟨parts, rfl⟩
  | error e => rw [hp] at h; exact absurd h (by simp)

theorem serialize_dict_error {kvs : List (PyObj × PyObj)} {e : PyErr}
    (h : _serialize_to_xton (PyObj.dict kvs) = Except.error e) :
    serialize_pairs kvs = Except.error e := by
  rw [serialize_dict_eq] at h
  cases hp : serialize_pairs kvs with
  | ok parts => rw [hp] at h; exact absurd h (by simp)
  | error e' => rw [hp] at h; simpa using h

/-- The loop over a list goes through every item: its result is made of the
results of the items. -/
theorem serialize_elements_cons (x : PyObj) (rest : List PyObj) :
    serialize_elements (x :: rest) =
      match _serialize_to_xton x, serialize_elements rest with
      | Except.error e, _ => Except.error e
      | Except.ok _, Except.error e => Except.error e
      | Except.ok part, Except.ok parts =>
        Except.ok ((match x with
          | PyObj.str s => _serialize_maybe_unquoted_string s
          | _ => part) :: parts) := by
  cases x with
  | str s =>
    rw [serialize_elements_str]
    have : _serialize_to_xton (PyObj.str s) = Except.ok (_serialize_quoted_string s) := rfl
    rw [this]
    cases serialize_elements rest <;> rfl
  | _ =>
    rw [serialize_elements_other _ _ (by intro s h; cases h)]
    cases _serialize_to_xton _ <;> cases serialize_elements rest <;> rfl

theorem serialize_elements_cons_ok {x : PyObj} {rest : List PyObj} {t : List (List Nat)}
    (h : serialize_elements (x :: rest) = Except.ok t) :
    (∃ p, _serialize_to_xton x = Except.ok p) ∧ (∃ ps, serialize_elements rest = Except.ok ps) := by
  rw [serialize_elements_cons] at h
  cases hx : _serialize_to_xton x with
  | error e => rw [hx] at h; exact absurd h (by simp)
  | ok p =>
    cases hr : serialize_elements rest with
    | error e => rw [hx, hr] at h; exact absurd h (by simp)
    | ok ps => exact ⟨⟨p, rfl⟩, ⟨ps, rfl⟩⟩

theorem serialize_elements_cons_error {x : PyObj} {rest : List PyObj} {e : PyErr}
    (h : serialize_elements (x :: rest) = Except.error e) :
    _serialize_to_xton x = Except.error e ∨ serialize_elements rest = Except.error e := by
  rw [serialize_elements_cons] at h
  cases hx : _serialize_to_xton x with
  | error e' => rw [hx] at h; exact Or.inl (by simpa using h)
  | ok p =>
    cases hr : serialize_elements rest with
    | error e' => rw [hx, hr] at h; exact Or.inr (by simpa using h)
    | ok ps => rw [hx, hr] at h; exact absurd h (by simp)

theorem serialize_pairs_cons_ok {k v : PyObj} {rest : List (PyObj × PyObj)}
    {t : List (List Nat)} (h : serialize_pairs ((k, v) :: rest) = Except.ok t) :
    (∃ s, k = PyObj.str s) ∧ (∃ p, _serialize_to_xton v = Except.ok p) ∧
      (∃ ps, serialize_pairs rest = Except.ok ps) := by
  cases k with
  | str s =>
    rw [serialize_pairs_str] at h
    cases hx : _serialize_to_xton v with
    | error e => rw [hx] at h; exact absurd h (by simp)
    | ok p =>
      cases hr : serialize_pairs rest with
      | error e => rw [hx, hr] at h; exact absurd h (by simp)
      | ok ps => exact ⟨⟨s, rfl⟩, ⟨p, rfl⟩, ⟨ps, rfl⟩⟩
  | _ =>
    rw [serialize_pairs_other _ _ _ (by intro s h; cases h)] at h
    exact absurd h (by simp)

theorem serialize_pairs_cons_error {k v : PyObj} {rest : List (PyObj × PyObj)} {e : PyErr}
    (h : serialize_pairs ((k, v) :: rest) = Except.error e) :
    ((∀ s, k ≠ PyObj.str s) ∧ e = PyErr.nonStringKey) ∨
    ((∃ s, k = PyObj.str s) ∧
      (_serialize_to_xton v = Except.error e ∨ serialize_pairs rest = Except.error e)) := by
  cases k with
  | str s =>
    rw [serialize_pairs_str] at h
    refine Or.inr ⟨⟨s, rfl⟩, ?_⟩
    cases hx : _serialize_to_xton v with
    | error e' => rw [hx] at h; exact Or.inl (by simpa using h)
    | ok p =>
      cases hr : serialize_pairs rest with
      | error e' => rw [hx, hr] at h; exact Or.inr (by simpa using h)
      | ok ps => rw [hx, hr] at h; exact absurd h (by simp)
  | _ =>
    rw [serialize_pairs_other _ _ _ (by intro s h; cases h)] at h
    refine Or.inl ⟨?_, ?_⟩
    · intro s hs
      cases hs
    · simpa using h.symm

mutual
/-- An object with a key that is not a string is never encoded. -/
theorem serialize_fails_of_key : ∀ (v : PyObj) (t : List Nat),
    has_non_string_key v = true → _serialize_to_xton v ≠ Except.ok t
  | PyObj.none, _, h => by simp [has_non_string_key] at h
  | PyObj.bool _, _, h => by simp [has_non_string_key] at h
  | PyObj.long _, _, h => by simp [has_non_string_key] at h
  | PyObj.float _, _, h => by simp [has_non_string_key] at h
  | PyObj.str _, _, h => by simp [has_non_string_key] at h
  | PyObj.other _, _, h => by simp [has_non_string_key] at h
  | PyObj.list xs, t, h => by
    intro hs
    obtain ⟨parts, hp⟩ := serialize_list_ok hs
    rw [has_non_string_key] at h
    exact elements_fail_of_key xs parts h hp
  | PyObj.dict kvs, t, h => by
    intro hs
    obtain ⟨parts, hp⟩ := serialize_dict_ok hs
    rw [has_non_string_key] at h
    exact pairs_fail_of_key kvs parts h hp
theorem elements_fail_of_key : ∀ (xs : List PyObj) (t : List (List Nat)),
    any_non_string_key xs = true → serialize_elements xs ≠ Except.ok t
  | [], _, h => by simp [any_non_string_key] at h
  | x :: rest, t, h => by
    intro hs
    obtain ⟨⟨p, hp⟩, ⟨ps, hps⟩⟩ := serialize_elements_cons_ok hs
    rw [any_non_string_key, Bool.or_eq_true] at h
    rcases h with h | h
    · exact serialize_fails_of_key x p h hp
    · exact elements_fail_of_key rest ps h hps
theorem pairs_fail_of_key : ∀ (kvs : List (PyObj × PyObj)) (t : List (List Nat)),
    pairs_non_string_key kvs = true → serialize_pairs kvs ≠ Except.ok t
  | [], _, h => by simp [pairs_non_string_key] at h
  | (k, v) :: rest, t, h => by
    intro hs
    obtain ⟨⟨s, rfl⟩, ⟨p, hp⟩, ⟨ps, hps⟩⟩ := serialize_pairs_cons_ok hs
    rw [pairs_non_string_key, Bool.or_eq_true] at h
    rcases h with h | h
    · exact serialize_fails_of_key v p h hp
    · exact pairs_fail_of_key rest ps h hps
end

/-! ## The encoder against the rules of the specification -/

theorem maybe_unquoted_eq_spec {s : List Nat} (h0 : 0 ∉ s) :
    _serialize_maybe_unquoted_string s = spec_string_if_required s := by
  unfold _serialize_maybe_unquoted_string spec_string_if_required
  rw [needs_quoting_eq_not_bare h0, serialize_quoted_eq_spec h0]
  cases spec_bare s <;> rfl

mutual
/-- On the values the rules describe, the encoder follows the general rule. -/
theorem serialize_plain : ∀ v : PyObj, plain_value v = true →
    _serialize_to_xton v = Except.ok (spec_render v)
  | PyObj.none, _ => rfl
  | PyObj.bool true, _ => rfl
  | PyObj.bool false, _ => rfl
  | PyObj.float _, _ => rfl
  | PyObj.other _, h => by simp [plain_value] at h
  | PyObj.long n, h => by
    have hl : (nat_repr n.natAbs).length ≤ int_max_str_digits := by
      simpa [plain_value] using h
    show int_repr n = _
    rw [int_repr_ok hl]
    rfl
  | PyObj.str s, h => by
    have h0 : 0 ∉ s := by simpa [plain_value] using h
    show Except.ok (_serialize_quoted_string s) = _
    rw [serialize_quoted_eq_spec h0]
    rfl
  | PyObj.list xs, h => by
    rw [plain_value] at h
    rw [serialize_list_eq, elements_plain xs h]
    rfl
  | PyObj.dict kvs, h => by
    rw [plain_value] at h
    rw [serialize_dict_eq, entries_plain kvs h]
    rfl
theorem elements_plain : ∀ xs : List PyObj, plain_values xs = true →
    serialize_elements xs = Except.ok (spec_render_elements xs)
  | [], _ => rfl
  | x :: rest, h => by
    rw [plain_values, Bool.and_eq_true] at h
    have hr := elements_plain rest h.2
    have hx := serialize_plain x h.1
    cases x with
    | str s =>
      have h0 : 0 ∉ s := by simpa [plain_value] using h.1
      rw [serialize_elements_str, hr, maybe_unquoted_eq_spec h0]
      rfl
    | none => rw [serialize_elements_other _ _ (by intro s h; cases h), hx, hr]; rfl
    | bool b => rw [serialize_elements_other _ _ (by intro s h; cases h), hx, hr]; rfl
    | long n => rw [serialize_elements_other _ _ (by intro s h; cases h), hx, hr]; rfl
    | float d => rw [serialize_elements_other _ _ (by intro s h; cases h), hx, hr]; rfl
    | list ys => rw [serialize_elements_other _ _ (by intro s h; cases h), hx, hr]; rfl
    | dict kvs => rw [serialize_elements_other _ _ (by intro s h; cases h), hx, hr]; rfl
    | other tag => rw [serialize_elements_other _ _ (by intro s h; cases h), hx, hr]; rfl
theorem entries_plain : ∀ kvs : List (PyObj × PyObj), plain_entries kvs = true →
    serialize_pairs kvs = Except.ok (spec_render_entries kvs)
  | [], _ => rfl
  | (k, v) :: rest, h => by
    cases k with
    | str s =>
      rw [plain_entries, Bool.and_eq_true, Bool.and_eq_true] at h
      have h0 : 0 ∉ s := by simpa using h.1.1
      rw [serialize_pairs_str, serialize_plain v h.1.2, entries_plain rest h.2,
        maybe_unquoted_eq_spec h0]
      rfl
    | none => simp [plain_entries] at h
    | bool b => simp [plain_entries] at h
    | long n => simp [plain_entries] at h
    | float d => simp [plain_entries] at h
    | list ys => simp [plain_entries] at h
    | dict kvs => simp [plain_entries] at h
    | other tag => simp [plain_entries] at h
end

theorem plain_entries_of_map (kvs : List (List Nat × PyObj))
    (hv : ∀ p ∈ kvs, 0 ∉ p.1 ∧ plain_value p.2 = true) :
    plain_entries (kvs.map (fun p => (PyObj.str p.1, p.2))) = true := by
  induction kvs with
  | nil => rfl
  | cons p rest ih =>
    have hp := hv p (by simp)
    rw [List.map_cons, plain_entries, ih (fun q hq => hv q (by simp [hq]))]
    simp [hp.1, hp.2]

theorem spec_render_entries_map (kvs : List (List Nat × PyObj)) :
    spec_render_entries (kvs.map (fun p => (PyObj.str p.1, p.2)))
      = kvs.map (fun p => spec_string_if_required p.1 ++ [45] ++ spec_render p.2) := by
  induction kvs with
  | nil => rfl
  | cons p rest ih =>
    rw [List.map_cons, spec_render_entries, ih]
    rfl


theorem xton_dumps_error_iff (v : PyObj) (e : PyErr) :
    xton_dumps v = Except.error e ↔ _serialize_to_xton v = Except.error e := by
  by_cases hc : collapsible v = true
  · obtain ⟨k, val, rfl, hk⟩ := (collapsible_iff v).1 hc
    rw [xton_dumps_collapsed k val hk, serialize_dict_eq, serialize_pairs_str]
    cases _serialize_to_xton val with
    | ok sv => simp [serialize_pairs]
    | error e' => simp
  · rw [xton_dumps_of_not_collapsible v (by simpa using hc)]

mutual
/-- When every value renders, the only error the general rule can give is the
one about a key that is not a string. -/
theorem serialize_error_is_key : ∀ (v : PyObj) (e : PyErr), values_render v = true →
    _serialize_to_xton v = Except.error e → e = PyErr.nonStringKey
  | PyObj.none, _, _, h => by cases h
  | PyObj.bool true, _, _, h => by cases h
  | PyObj.bool false, _, _, h => by cases h
  | PyObj.float _, _, _, h => by cases h
  | PyObj.str _, _, _, h => by cases h
  | PyObj.other _, _, hr, _ => by simp [values_render] at hr
  | PyObj.long n, e, hr, h => by
    have hl : (nat_repr n.natAbs).length ≤ int_max_str_digits := by
      simpa [values_render] using hr
    have h2 : int_repr n = Except.error e := h
    rw [int_repr_ok hl] at h2
    cases h2
  | PyObj.list xs, e, hr, h => by
    rw [values_render] at hr
    exact elements_error_is_key xs e hr (serialize_list_error h)
  | PyObj.dict kvs, e, hr, h => by
    rw [values_render] at hr
    exact pairs_error_is_key kvs e hr (serialize_dict_error h)
theorem elements_error_is_key : ∀ (xs : List PyObj) (e : PyErr), all_values_render xs = true →
    serialize_elements xs = Except.error e → e = PyErr.nonStringKey
  | [], _, _, h => by cases h
  | x :: rest, e, hr, h => by
    rw [all_values_render, Bool.and_eq_true] at hr
    rcases serialize_elements_cons_error h with hx | hrest
    · exact serialize_error_is_key x e hr.1 hx
    · exact elements_error_is_key rest e hr.2 hrest
theorem pairs_error_is_key : ∀ (kvs : List (PyObj × PyObj)) (e : PyErr),
    pairs_values_render kvs = true →
    serialize_pairs kvs = Except.error e → e = PyErr.nonStringKey
  | [], _, _, h => by cases h
  | (k, v) :: rest, e, hr, h => by
    rw [pairs_values_render, Bool.and_eq_true] at hr
    rcases serialize_pairs_cons_error h with ⟨_, he⟩ | ⟨_, hx | hrest⟩
    · exact he
    · exact serialize_error_is_key v e hr.1 hx
    · exact pairs_error_is_key rest e hr.2 hrest
end

/-- C11 as stated fails: the object with the entries a ↦ 3.0 and b ↦ 1 is
rendered as `<a-3.0/b-1>`, the float keeping its fractional part where the
number rule of the specification gives an integer literal.  The object with the
entries k ↦ the string a, NUL, b and d ↦ 2 is rendered as `<k-'a/d-2>`, and the
object whose first key is a, NUL, b as `<'a-1/c-2>`: the quoted form is cut at
the NUL character, so that its closing quote is missing, where the rules of the
specification give `<k-'a`, NUL, `b'/d-2>` and `<a`, NUL, `b-1/c-2>`. -/
theorem object_rendering_counterexample :
    (xton_dumps (PyObj.dict [(PyObj.str [97], PyObj.float (Dbl.of_int 3)),
        (PyObj.str [98], PyObj.long 1)])
      = Except.ok [60, 97, 45, 51, 46, 48, 47, 98, 45, 49, 62] ∧
     Dbl.eq_int (Dbl.of_int 3) 3 = true ∧ is_int_literal [51, 46, 48] = false) ∧
    (xton_dumps (PyObj.dict [(PyObj.str [107], PyObj.str [97, 0, 98]),
        (PyObj.str [100], PyObj.long 2)])
      = Except.ok [60, 107, 45, 39, 97, 47, 100, 45, 50, 62] ∧
     spec_render (PyObj.dict [(PyObj.str [107], PyObj.str [97, 0, 98]),
        (PyObj.str [100], PyObj.long 2)])
      = [60, 107, 45, 39, 97, 0, 98, 39, 47, 100, 45, 50, 62]) ∧
    (xton_dumps (PyObj.dict [(PyObj.str [97, 0, 98], PyObj.long 1),
        (PyObj.str [99], PyObj.long 2)])
      = Except.ok [60, 39, 97, 45, 49, 47, 99, 45, 50, 62] ∧
     spec_render (PyObj.dict [(PyObj.str [97, 0, 98], PyObj.long 1),
        (PyObj.str [99], PyObj.long 2)])
      = [60, 97, 0, 98, 45, 49, 47, 99, 45, 50, 62]) :=
  ⟨⟨rfl, rfl, rfl⟩, ⟨rfl, rfl⟩, ⟨rfl, rfl⟩⟩

/-- C11, amended: for every object whose keys are strings without a NUL
character and whose values are plain (no unsupported type, no int over the
digit limit, no string with a NUL character, and inside them string keys
only), the general rule produces `<`, then for each entry in the order of the
mapping the key rendered by the object-key string rule of the specification,
`-`, and the value rendered by the general rule of the specification with a
number rendered by `repr`, the entries joined by `/`, then `>`; the keys are
not sorted.  That is what encode returns for every such object that is not
collapsed at top level. -/
theorem object_rendering (kvs : List (List Nat × PyObj))
    (hv : ∀ p ∈ kvs, 0 ∉ p.1 ∧ plain_value p.2 = true) :
    _serialize_to_xton (PyObj.dict (kvs.map (fun p => (PyObj.str p.1, p.2))))
      = Except.ok ([60] ++ List.intercalate [47]
          (kvs.map (fun p => spec_string_if_required p.1 ++ [45] ++ spec_render p.2)) ++ [62]) ∧
    (collapsible (PyObj.dict (kvs.map (fun p => (PyObj.str p.1, p.2)))) = false →
      xton_dumps (PyObj.dict (kvs.map (fun p => (PyObj.str p.1, p.2))))
        = Except.ok ([60] ++ List.intercalate [47]
          (kvs.map (fun p => spec_string_if_required p.1 ++ [45] ++ spec_render p.2)) ++ [62])) := by
  have h : _serialize_to_xton (PyObj.dict (kvs.map (fun p => (PyObj.str p.1, p.2))))
      = Except.ok ([60] ++ List.intercalate [47]
          (kvs.map (fun p => spec_string_if_required p.1 ++ [45] ++ spec_render p.2)) ++ [62]) := by
    rw [serialize_dict_eq, entries_plain _ (plain_entries_of_map kvs hv),
      spec_render_entries_map]
    rfl
  exact ⟨h, fun hc => by rw [xton_dumps_of_not_collapsible _ hc, h]⟩

theorem object_rendering_witness :
    xton_dumps (PyObj.dict [(PyObj.str [98], PyObj.long 2), (PyObj.str [97, 32], PyObj.str [99]),
        (PyObj.str [97], PyObj.list [PyObj.none])])
      = Except.ok [60, 98, 45, 50, 47, 39, 97, 32, 39, 45, 39, 99, 39, 47, 97, 45, 91, 92, 110,
          111, 110, 101, 93, 62] :=
  (object_rendering [([98], PyObj.long 2), ([97, 32], PyObj.str [99]),
    ([97], PyObj.list [PyObj.none])]
    (by
      intro p hp
      simp only [List.mem_cons, List.mem_singleton, List.not_mem_nil, or_false] at hp
      rcases hp with rfl | rfl | rfl
      · exact ⟨by decide, rfl⟩
      · exact ⟨by decide, rfl⟩
      · exact ⟨by decide, rfl⟩)).2 rfl

/-- C15 as stated fails: the object whose first entry has a string key and a
value of an unsupported type and whose second entry has the key 1 is rejected,
but with the error about the unsupported type, which is met first. -/
theorem non_string_key_counterexample :
    has_non_string_key (PyObj.dict [(PyObj.str [97], PyObj.other 0), (PyObj.long 1, PyObj.long 2)])
      = true ∧
    xton_dumps (PyObj.dict [(PyObj.str [97], PyObj.other 0), (PyObj.long 1, PyObj.long 2)])
      = Except.error PyErr.unsupportedType :=
  ⟨rfl, rfl⟩

/-- C15, amended: for every object that has at least one key that is not a
string, at top level (including a single-entry object) or nested, encode fails
and returns no text; the error is the NonStringKey error whenever every value
in the object renders, that is, none is of an unsupported type and no int has
more digits than the limit on int to text conversion. -/
theorem non_string_key_rejected (v : PyObj) (h : has_non_string_key v = true) :
    (∃ e, xton_dumps v = Except.error e) ∧
    (values_render v = true → xton_dumps v = Except.error PyErr.nonStringKey) := by
  have hcases : ∃ e, _serialize_to_xton v = Except.error e := by
    cases hs : _serialize_to_xton v with
    | ok t => exact absurd hs (serialize_fails_of_key v t h)
    | error e => exact ⟨e, rfl⟩
  obtain ⟨e, he⟩ := hcases
  refine ⟨⟨e, (xton_dumps_error_iff v e).2 he⟩, ?_⟩
  intro hr
  have hk := serialize_error_is_key v e hr he
  rw [hk] at he
  exact (xton_dumps_error_iff v _).2 he

theorem non_string_key_rejected_witness :
    (xton_dumps (PyObj.dict [(PyObj.long 1, PyObj.long 2)]) = Except.error PyErr.nonStringKey ∧
     xton_dumps (PyObj.list [PyObj.dict [(PyObj.str [97],
        PyObj.dict [(PyObj.none, PyObj.long 2)])]]) = Except.error PyErr.nonStringKey) :=
  ⟨(non_string_key_rejected (PyObj.dict [(PyObj.long 1, PyObj.long 2)]) rfl).2 rfl,
   (non_string_key_rejected (PyObj.list [PyObj.dict [(PyObj.str [97],
        PyObj.dict [(PyObj.none, PyObj.long 2)])]]) rfl).2 rfl⟩

/-! ## The two attempts of `xton_loads` -/

theorem loads_pair_eq_of_rest (t : List Nat)
    (h2 : ∀ r, pair_rest t = some r → peek r ≠ 0)
    (hub : loads_pair (t.length + 1) (skip_whitespace t) ≠ Outcome.ub) :
    loads_pair (t.length + 1) (skip_whitespace t) =
      Outcome.ret none
        (some (if (pair_rest t).isSome then PyErr.extraCharacters else PyErr.invalidFormat)) := by
  have hf := loads_pair_not_fuel (t.length + 1) (skip_whitespace t)
    (by have := skip_whitespace_length_le t; omega)
  unfold loads_pair at hub hf ⊢
  cases hk : parse_unquoted_string (skip_whitespace t) none with
  | null s1 e1 =>
    have hpr : pair_rest t = none := by unfold pair_rest; rw [hk]
    rw [hpr]; rfl
  | ub => rw [hk] at hub; exact absurd rfl hub
  | fuel => rw [hk] at hf; exact absurd rfl hf
  | ok key s1 e1 =>
    rw [hk] at hub hf
    dsimp only at hub hf ⊢
    by_cases h45 : peek (skip_whitespace s1) = 45
    · rw [if_pos h45] at hub hf ⊢
      cases hv : parse_value (t.length + 1) (skip_whitespace (skip_whitespace s1).tail) e1 with
      | null s4 e4 =>
        have hpr : pair_rest t = none := by
          unfold pair_rest; rw [hk]; dsimp only; rw [if_pos h45, hv]
        rw [hpr]; rfl
      | ub => rw [hv] at hub; exact absurd rfl hub
      | fuel => rw [hv] at hf; exact absurd rfl hf
      | ok v s4 e4 =>
        have hpr : pair_rest t = some (skip_whitespace s4) := by
          unfold pair_rest; rw [hk]; dsimp only; rw [if_pos h45, hv]
        have := h2 _ hpr
        rw [hpr]
        dsimp only
        rw [if_pos this]
        rfl
    · have hpr : pair_rest t = none := by
        unfold pair_rest; rw [hk]; dsimp only; rw [if_neg h45]
      rw [if_neg h45, hpr]; rfl

/-- C13 as stated fails: on the text `x-1 y` neither attempt succeeds, and the
error is the one about extra characters, not InvalidDocument.  On the text made
of a quote, `a` and a backslash neither attempt succeeds either, and the scan of
the quoted string steps over the end of the text. -/
theorem invalid_document_counterexample :
    (first_attempt_ok [120, 45, 49, 32, 121] = false ∧
     pair_rest [120, 45, 49, 32, 121] = some [121] ∧
     xton_loads [120, 45, 49, 32, 121] = Outcome.ret none (some PyErr.extraCharacters)) ∧
    (first_attempt_ok [39, 97, 92] = false ∧
     pair_rest [39, 97, 92] = none ∧
     xton_loads [39, 97, 92] = Outcome.ub) :=
  ⟨⟨rfl, rfl, rfl⟩, ⟨rfl, rfl, rfl⟩⟩

/-- C13, amended: for every text without a NUL byte on which attempt 1 does not
succeed and attempt 2 does not succeed, and on which decode does not read past
the end of the text (as the scan of a quoted string does at a backslash that is
the last character), decode returns no value; the error is "Extra characters
after XTon value." when attempt 2 read a key, `-` and a value and something
other than whitespace follows them, and the InvalidDocument error "Invalid XTon
format or unsupported type." otherwise. -/
theorem invalid_document (t : List Nat) (h0 : 0 ∉ t)
    (h1 : first_attempt_ok t = false)
    (h2 : ∀ r, pair_rest t = some r → peek r ≠ 0)
    (hub : xton_loads t ≠ Outcome.ub) :
    xton_loads t = Outcome.ret none
      (some (if (pair_rest t).isSome then PyErr.extraCharacters else PyErr.invalidFormat)) := by
  have hsecond : xton_loads t = loads_pair (t.length + 1) (skip_whitespace t) ∨
      parse_value (t.length + 1) (skip_whitespace t) none = Res.ub := by
    have hp := parse_value_progress (t.length + 1) (skip_whitespace t) none
      (by have := skip_whitespace_length_le t; omega)
    unfold first_attempt_ok at h1
    cases hv : parse_value (t.length + 1) (skip_whitespace t) none with
    | null s1 e1 => exact Or.inl (loads_with_second_attempt h0 (Or.inl ⟨s1, e1, hv⟩))
    | ub => exact Or.inr rfl
    | fuel => rw [hv] at hp; exact absurd hp (by simp [res_progress])
    | ok v s1 e1 =>
      rw [hv] at h1
      exact Or.inl (loads_with_second_attempt h0
        (Or.inr ⟨v, s1, e1, hv, by simpa using h1⟩))
  rcases hsecond with h | h
  · rw [h] at hub ⊢
    exact loads_pair_eq_of_rest t h2 hub
  · exfalso
    apply hub
    unfold xton_loads loads_with
    rw [if_neg h0]
    simp only [h]

theorem invalid_document_witness :
    xton_loads [120, 45, 49, 32, 121] = Outcome.ret none (some PyErr.extraCharacters) ∧
    xton_loads [97, 32, 98] = Outcome.ret none (some PyErr.invalidFormat) ∧
    xton_loads [91, 49, 47] = Outcome.ret none (some PyErr.invalidFormat) :=
  ⟨invalid_document [120, 45, 49, 32, 121] (by decide) rfl (by decide)
      (by intro h; exact Outcome.noConfusion h),
   invalid_document [97, 32, 98] (by decide) rfl (by decide)
      (by intro h; exact Outcome.noConfusion h),
   invalid_document [91, 49, 47] (by decide) rfl (by decide)
      (by intro h; exact Outcome.noConfusion h)⟩

/-! ## A quoted string that is not closed -/

theorem quoted_loop_stops_at : ∀ (s buf : List Nat) {b c : List Nat},
    quoted_loop s buf = some (b, c) → peek c = 0 ∨ peek c = 39
  | [], buf, b, c, h => by
    rw [quoted_loop_nil] at h
    simp only [Option.some.injEq, Prod.mk.injEq] at h
    rw [← h.2]
    exact Or.inl rfl
  | [x], buf, b, c, h => by
    by_cases hstop : x = 0 ∨ x = 39
    · rw [quoted_loop_stop hstop] at h
      simp only [Option.some.injEq, Prod.mk.injEq] at h
      rw [← h.2]
      exact hstop
    · have h0 : x ≠ 0 := fun hc => hstop (Or.inl hc)
      have h39 : x ≠ 39 := fun hc => hstop (Or.inr hc)
      by_cases h92 : x = 92
      · subst h92
        rw [quoted_loop_escape_end] at h
        exact absurd h (by simp)
      · rw [quoted_loop_plain h0 h39 h92, quoted_loop_nil] at h
        simp only [Option.some.injEq, Prod.mk.injEq] at h
        rw [← h.2]
        exact Or.inl rfl
  | x :: d :: rest, buf, b, c, h => by
    by_cases hstop : x = 0 ∨ x = 39
    · rw [quoted_loop_stop hstop] at h
      simp only [Option.some.injEq, Prod.mk.injEq] at h
      rw [← h.2]
      exact hstop
    · have h0 : x ≠ 0 := fun hc => hstop (Or.inl hc)
      have h39 : x ≠ 39 := fun hc => hstop (Or.inr hc)
      by_cases h92 : x = 92
      · subst h92
        rw [quoted_loop_escape] at h
        exact quoted_loop_stops_at rest _ h
      · rw [quoted_loop_plain h0 h39 h92] at h
        exact quoted_loop_stops_at (d :: rest) _ h

theorem mem_of_peek {s : List Nat} {c : Nat} (h : peek s = c) (hc : c ≠ 0) : c ∈ s := by
  cases s with
  | nil => exact absurd h.symm hc
  | cons x r =>
    have : x = c := h
    simp [this]

theorem parse_unquoted_string_cases (s : List Nat) (err : Option PyErr) :
    (∃ v, parse_unquoted_string s err
      = Res.ok v (s.dropWhile (fun c => !is_xton_identifier_delimiter c)) err) ∨
    (∃ s1 e1, parse_unquoted_string s err = Res.null s1 e1) := by
  unfold parse_unquoted_string decode_utf8
  dsimp only
  split
  · exact Or.inr ⟨_, _, rfl⟩
  · split
    · exact Or.inl ⟨_, rfl⟩
    · exact Or.inr ⟨_, _, rfl⟩

theorem loads_pair_cases (n : Nat) (s : List Nat) :
    loads_pair n s = Outcome.ret none (some PyErr.invalidFormat) ∨
    loads_pair n s = Outcome.ret none (some PyErr.extraCharacters) ∨
    (∃ v e, loads_pair n s = Outcome.ret (some v) e) ∨
    loads_pair n s = Outcome.ub ∨ loads_pair n s = Outcome.fuel := by
  unfold loads_pair
  cases parse_unquoted_string s none with
  | null s1 e1 => exact Or.inl rfl
  | ub => exact Or.inr (Or.inr (Or.inr (Or.inl rfl)))
  | fuel => exact Or.inr (Or.inr (Or.inr (Or.inr rfl)))
  | ok key s1 e1 =>
    dsimp only
    split
    · cases parse_value n (skip_whitespace (skip_whitespace s1).tail) e1 with
      | null s4 e4 => exact Or.inl rfl
      | ub => exact Or.inr (Or.inr (Or.inr (Or.inl rfl)))
      | fuel => exact Or.inr (Or.inr (Or.inr (Or.inr rfl)))
      | ok v s4 e4 =>
        dsimp only
        split
        · exact Or.inr (Or.inl rfl)
        · exact Or.inr (Or.inr (Or.inl ⟨_, _, rfl⟩))
    · exact Or.inl rfl

theorem loads_pair_without_minus (n : Nat) (s : List Nat) (h : 45 ∉ s) :
    loads_pair n s = Outcome.ret none (some PyErr.invalidFormat) := by
  unfold loads_pair
  rcases parse_unquoted_string_cases s none with ⟨v, hv⟩ | ⟨s1, e1, hn⟩
  · rw [hv]
    dsimp only
    rw [if_neg]
    intro hp
    have h1 := mem_of_peek hp (by decide)
    have h2 : skip_whitespace (s.dropWhile (fun c => !is_xton_identifier_delimiter c))
        <:+ s.dropWhile (fun c => !is_xton_identifier_delimiter c) := List.dropWhile_suffix _
    have h3 : s.dropWhile (fun c => !is_xton_identifier_delimiter c) <:+ s :=
      List.dropWhile_suffix _
    exact h (h3.subset (h2.subset h1))
  · rw [hn]

theorem string_left_open_loop : ∀ (s buf : List Nat), 0 ∉ s → string_left_open s = true →
    ∃ b, quoted_loop s buf = some (b, [])
  | [], buf, _, _ => ⟨buf, quoted_loop_nil buf⟩
  | [x], buf, h0, h => by
    have hx0 : x ≠ 0 := fun hc => h0 (by simp [hc])
    have h39 : x ≠ 39 := by
      intro hc; subst hc; simp [string_left_open] at h
    have h92 : x ≠ 92 := by
      intro hc; subst hc; simp [string_left_open] at h
    rw [quoted_loop_plain hx0 h39 h92, quoted_loop_nil]
    exact ⟨_, rfl⟩
  | x :: d :: rest, buf, h0, h => by
    have hx0 : x ≠ 0 := fun hc => h0 (by simp [hc])
    have h39 : x ≠ 39 := by
      intro hc; subst hc; simp [string_left_open] at h
    by_cases h92 : x = 92
    · subst h92
      rw [quoted_loop_escape]
      have h' : string_left_open rest = true := by
        simpa [string_left_open] using h
      exact string_left_open_loop rest _ (fun hr => h0 (by simp [hr])) h'
    · rw [quoted_loop_plain hx0 h39 h92]
      have h' : string_left_open (d :: rest) = true := by
        rw [string_left_open, if_neg h39, if_neg h92] at h
        exact h
      exact string_left_open_loop (d :: rest) _ (fun hr => h0 (List.mem_cons_of_mem _ hr)) h'

/-- C14 as stated fails: the text `'abc` starts with a quote that is never
closed, and decode fails with the InvalidDocument error, not with the
UnterminatedString one.  The text `'abc-1` of the claim does not fail at all:
decode returns the mapping from `'abc` to 1.  On the text made of a quote, `a`
and a backslash, the scan steps over the end of the text. -/
theorem unterminated_string_counterexample :
    (skip_whitespace [39, 97, 98, 99] = 39 :: [97, 98, 99] ∧
     string_left_open [97, 98, 99] = true ∧
     quoted_loop [97, 98, 99] [] = some ([97, 98, 99], []) ∧
     parse_quoted_string [39, 97, 98, 99] none = Res.null [] (some PyErr.unterminatedString) ∧
     xton_loads [39, 97, 98, 99] = Outcome.ret none (some PyErr.invalidFormat) ∧
     xton_loads [39, 97, 98, 99] ≠ Outcome.ret none (some PyErr.unterminatedString)) ∧
    (string_left_open [97, 98, 99, 45, 49] = true ∧
     xton_loads [39, 97, 98, 99, 45, 49]
       = Outcome.ret (some (PyObj.dict
           [(PyObj.str [39, 97, 98, 99], PyObj.float (Dbl.of_int 1))])) none) ∧
    (string_left_open [97, 92] = false ∧ xton_loads [39, 97, 92] = Outcome.ub) :=
  ⟨⟨rfl, rfl, rfl, rfl, rfl, by intro h; cases h⟩, ⟨rfl, rfl⟩, ⟨rfl, rfl⟩⟩

/-- C14, amended: for every text without a NUL byte whose first non-whitespace
character is `'` and in which no later unescaped `'` occurs before the end of
the text, the text not ending with a backslash that starts an escape, the first
attempt of decode fails with its cursor at the end of the text, and decode
never fails with the UnterminatedString error: whenever it returns no value the
error is InvalidDocument or "Extra characters after XTon value.", and decode
fails with InvalidDocument whenever the text holds no `-`. -/
theorem unterminated_string (t rest : List Nat) (h0 : 0 ∉ t)
    (hs : skip_whitespace t = 39 :: rest) (ho : string_left_open rest = true) :
    parse_value (t.length + 1) (skip_whitespace t) none
      = Res.null [] (some PyErr.invalidFormat) ∧
    (∀ e, xton_loads t = Outcome.ret none e →
      e = some PyErr.invalidFormat ∨ e = some PyErr.extraCharacters) ∧
    (45 ∉ t → xton_loads t = Outcome.ret none (some PyErr.invalidFormat)) := by
  have hr0 : 0 ∉ rest := by
    intro hr
    have hm : (0 : Nat) ∈ skip_whitespace t := by rw [hs]; exact List.mem_cons_of_mem _ hr
    exact h0 ((List.dropWhile_suffix _ : skip_whitespace t <:+ t).subset hm)
  obtain ⟨buf, hq⟩ := string_left_open_loop rest [] hr0 ho
  have h1 : parse_value (t.length + 1) (skip_whitespace t) none
      = Res.null [] (some PyErr.invalidFormat) := by
    rw [hs, parse_value_of_plain t.length rest none (by decide) (by decide) (by decide)
      (by decide) (by decide) (by decide)]
    have hq1 : parse_quoted_string (39 :: rest) none
        = Res.null [] (some PyErr.unterminatedString) := by
      rw [parse_quoted_string_of_loop none hq, if_neg (by decide)]
    exact parse_strings_of_null hq1
      (parse_unquoted_string_at_delim (some PyErr.unterminatedString) rfl)
  have h2 : xton_loads t = loads_pair (t.length + 1) (skip_whitespace t) :=
    loads_with_second_attempt h0 (Or.inl ⟨_, _, h1⟩)
  refine ⟨h1, ?_, ?_⟩
  · intro e he
    rw [h2] at he
    rcases loads_pair_cases (t.length + 1) (skip_whitespace t) with h | h | ⟨v, e2, h⟩ | h | h <;>
      rw [h] at he
    · simp only [Outcome.ret.injEq, true_and] at he
      exact Or.inl he.symm
    · simp only [Outcome.ret.injEq, true_and] at he
      exact Or.inr he.symm
    · simp at he
    · simp at he
    · simp at he
  · intro h45
    rw [h2]
    apply loads_pair_without_minus
    intro hm
    exact h45 ((List.dropWhile_suffix _ : skip_whitespace t <:+ t).subset hm)

theorem unterminated_string_witness :
    parse_value 6 [39, 97, 98, 99] none = Res.null [] (some PyErr.invalidFormat) ∧
    (∀ e, xton_loads [32, 39, 97, 98, 99] = Outcome.ret none e →
      e = some PyErr.invalidFormat ∨ e = some PyErr.extraCharacters) ∧
    (45 ∉ [32, 39, 97, 98, 99] →
      xton_loads [32, 39, 97, 98, 99] = Outcome.ret none (some PyErr.invalidFormat)) :=
  unterminated_string [32, 39, 97, 98, 99] [97, 98, 99] (by decide) rfl rfl

/-! ## Duplicate keys -/

theorem dict_get_set_item (d : List (PyObj × PyObj)) (k k2 : List Nat) (v : PyObj) :
    dict_get (dict_set_item d k v) k2 = if k = k2 then some v else dict_get d k2 := by
  induction d with
  | nil =>
    simp [dict_set_item, dict_get]
  | cons kv rest ih =>
    obtain ⟨key, val⟩ := kv
    cases key with
    | str k0 =>
      by_cases h0 : k0 = k
      · subst h0
        by_cases h2 : k0 = k2 <;> simp [dict_set_item, dict_get, h2]
      · by_cases h2 : k0 = k2
        · subst h2
          have : ¬ k = k0 := fun h => h0 h.symm
          simp [dict_set_item, dict_get, h0, this]
        · simp [dict_set_item, dict_get, h0, h2, ih]
    | none => simp [dict_set_item, dict_get, ih]
    | bool b => simp [dict_set_item, dict_get, ih]
    | long n => simp [dict_set_item, dict_get, ih]
    | float f => simp [dict_set_item, dict_get, ih]
    | list xs => simp [dict_set_item, dict_get, ih]
    | dict kvs => simp [dict_set_item, dict_get, ih]
    | other tag => simp [dict_set_item, dict_get, ih]

theorem dict_count_set_item (d : List (PyObj × PyObj)) (k k2 : List Nat) (v : PyObj) :
    dict_count (dict_set_item d k v) k2 =
      if k = k2 ∧ dict_count d k2 = 0 then 1 else dict_count d k2 := by
  induction d with
  | nil =>
    by_cases h : k = k2 <;> simp [dict_set_item, dict_count, h]
  | cons kv rest ih =>
    obtain ⟨key, val⟩ := kv
    cases key with
    | str k0 =>
      by_cases h0 : k0 = k
      · subst h0
        by_cases h2 : k0 = k2 <;> simp [dict_set_item, dict_count, h2]
      · by_cases h2 : k0 = k2
        · subst h2
          have : ¬ k = k0 := fun h => h0 h.symm
          simp [dict_set_item, dict_count, h0, this, ih]
        · simp only [dict_set_item, dict_count, h0, h2, ih, if_false, Nat.zero_add]
    | none => simp [dict_set_item, dict_count, ih]
    | bool b => simp [dict_set_item, dict_count, ih]
    | long n => simp [dict_set_item, dict_count, ih]
    | float f => simp [dict_set_item, dict_count, ih]
    | list xs => simp [dict_set_item, dict_count, ih]
    | dict kvs => simp [dict_set_item, dict_count, ih]
    | other tag => simp [dict_set_item, dict_count, ih]

theorem dict_get_foldl (ps : List (List Nat × PyObj)) (d : List (PyObj × PyObj)) (k : List Nat) :
    dict_get (ps.foldl (fun d p => dict_set_item d p.1 p.2) d) k =
      match last_value ps k with
      | some v => some v
      | none => dict_get d k := by
  induction ps generalizing d with
  | nil => rfl
  | cons p ps ih =>
    rw [List.foldl_cons, ih, last_value]
    cases last_value ps k with
    | some v => rfl
    | none =>
      dsimp only
      rw [dict_get_set_item]
      by_cases h : p.1 = k <;> simp [h]

theorem dict_count_foldl_le (ps : List (List Nat × PyObj)) (d : List (PyObj × PyObj))
    (k : List Nat) (hd : dict_count d k ≤ 1) :
    dict_count (ps.foldl (fun d p => dict_set_item d p.1 p.2) d) k ≤ 1 := by
  induction ps generalizing d with
  | nil => exact hd
  | cons p ps ih =>
    rw [List.foldl_cons]
    apply ih
    rw [dict_count_set_item]
    split <;> omega

theorem dict_count_foldl_pos (ps : List (List Nat × PyObj)) (d : List (PyObj × PyObj))
    (k : List Nat) (hk : 0 < dict_count d k ∨ k ∈ ps.map Prod.fst) :
    0 < dict_count (ps.foldl (fun d p => dict_set_item d p.1 p.2) d) k := by
  induction ps generalizing d with
  | nil =>
    rcases hk with h | h
    · exact h
    · simp at h
  | cons p ps ih =>
    rw [List.foldl_cons]
    apply ih
    by_cases hp : p.1 = k
    · left
      rw [dict_count_set_item]
      by_cases hz : dict_count d k = 0
      · rw [if_pos ⟨hp, hz⟩]
        exact Nat.one_pos
      · rw [if_neg (fun hc => hz hc.2)]
        exact Nat.pos_of_ne_zero hz
    · rcases hk with h | h
      · left
        rw [dict_count_set_item, if_neg (fun hc => hp hc.1)]
        exact h
      · right
        simp only [List.map_cons, List.mem_cons] at h
        rcases h with h | h
        · exact absurd h.symm hp
        · exact h

theorem last_value_isSome (ps : List (List Nat × PyObj)) (k : List Nat)
    (hk : k ∈ ps.map Prod.fst) : (last_value ps k).isSome = true := by
  induction ps with
  | nil => simp at hk
  | cons p ps ih =>
    rw [last_value]
    cases h : last_value ps k with
    | some v => rfl
    | none =>
      simp only [List.map_cons, List.mem_cons] at hk
      rcases hk with hk | hk
      · simp [hk]
      · have := ih hk
        rw [h] at this
        exact absurd this (by simp)

theorem object_loop_of_entries (pv : List Nat → Option PyErr → Res) :
    ∀ (n : Nat) (s : List Nat) (err : Option PyErr) (acc : List (PyObj × PyObj))
      (ps : List (List Nat × PyObj)) (s' : List Nat) (e' : Option PyErr),
      object_entries pv n s err = some (ps, s', e') →
      object_loop pv n s err acc
        = Res.ok (PyObj.dict (ps.foldl (fun d p => dict_set_item d p.1 p.2) acc)) s' e'
  | 0, s, err, acc, ps, s', e', h => by
    rw [object_entries] at h
    exact absurd h (by simp)
  | n + 1, s, err, acc, ps, s', e', h => by
    rw [object_entries] at h
    rw [object_loop]
    by_cases hp : peek s = 0
    · rw [if_pos hp] at h
      exact absurd h (by simp)
    · rw [if_neg hp] at h
      rw [if_neg hp]
      cases hk : parse_key s err with
      | null s1 e1 => rw [hk] at h; exact absurd h (by simp)
      | ub => rw [hk] at h; exact absurd h (by simp)
      | fuel => rw [hk] at h; exact absurd h (by simp)
      | ok key s1 e1 =>
        rw [hk] at h
        cases key with
        | str k =>
          dsimp only at h ⊢
          by_cases h45 : peek (skip_whitespace s1) ≠ 45
          · rw [if_pos h45] at h
            exact absurd h (by simp)
          · rw [if_neg h45] at h
            rw [if_neg h45]
            cases hv : pv (skip_whitespace (skip_whitespace s1).tail) e1 with
            | null s3 e3 => rw [hv] at h; exact absurd h (by simp)
            | ub => rw [hv] at h; exact absurd h (by simp)
            | fuel => rw [hv] at h; exact absurd h (by simp)
            | ok v s3 e3 =>
              rw [hv] at h
              dsimp only at h ⊢
              by_cases h62 : peek (skip_whitespace s3) = 62
              · rw [if_pos h62] at h
                rw [if_pos h62]
                simp only [Option.some.injEq, Prod.mk.injEq] at h
                obtain ⟨rfl, rfl, rfl⟩ := h
                rfl
              · rw [if_neg h62] at h
                rw [if_neg h62]
                by_cases h47 : peek (skip_whitespace s3) = 47
                · rw [if_pos h47] at h
                  rw [if_pos h47]
                  cases hrec : object_entries pv n (skip_whitespace (skip_whitespace s3).tail) e3 with
                  | none => rw [hrec] at h; exact absurd h (by simp)
                  | some r =>
                    obtain ⟨ps2, s5, e5⟩ := r
                    rw [hrec] at h
                    simp only [Option.some.injEq, Prod.mk.injEq] at h
                    obtain ⟨rfl, rfl, rfl⟩ := h
                    rw [object_loop_of_entries pv n _ _ (dict_set_item acc k v) ps2 s5 e5 hrec]
                    rfl
                · rw [if_neg h47] at h
                  exact absurd h (by simp)
        | none => exact absurd h (by simp)
        | bool b => exact absurd h (by simp)
        | long m => exact absurd h (by simp)
        | float f => exact absurd h (by simp)
        | list xs => exact absurd h (by simp)
        | dict kvs => exact absurd h (by simp)
        | other tag => exact absurd h (by simp)

theorem entries_of_object_loop (pv : List Nat → Option PyErr → Res) :
    ∀ (n : Nat) (s : List Nat) (err : Option PyErr) (acc : List (PyObj × PyObj))
      (v : PyObj) (s' : List Nat) (e' : Option PyErr),
      object_loop pv n s err acc = Res.ok v s' e' →
      ∃ ps, object_entries pv n s err = some (ps, s', e') ∧
        v = PyObj.dict (ps.foldl (fun d p => dict_set_item d p.1 p.2) acc)
  | 0, s, err, acc, v, s', e', h => by
    rw [object_loop] at h
    exact absurd h (by simp)
  | n + 1, s, err, acc, v, s', e', h => by
    rw [object_loop] at h
    rw [object_entries]
    by_cases hp : peek s = 0
    · rw [if_pos hp] at h
      exact absurd h (by simp)
    · rw [if_neg hp] at h
      rw [if_neg hp]
      cases hk : parse_key s err with
      | null s1 e1 => rw [hk] at h; exact absurd h (by simp)
      | ub => rw [hk] at h; exact absurd h (by simp)
      | fuel => rw [hk] at h; exact absurd h (by simp)
      | ok key s1 e1 =>
        rw [hk] at h
        cases key with
        | str k =>
          dsimp only at h ⊢
          by_cases h45 : peek (skip_whitespace s1) ≠ 45
          · rw [if_pos h45] at h
            exact absurd h (by simp)
          · rw [if_neg h45] at h
            rw [if_neg h45]
            cases hv : pv (skip_whitespace (skip_whitespace s1).tail) e1 with
            | null s3 e3 => rw [hv] at h; exact absurd h (by simp)
            | ub => rw [hv] at h; exact absurd h (by simp)
            | fuel => rw [hv] at h; exact absurd h (by simp)
            | ok w s3 e3 =>
              rw [hv] at h
              dsimp only at h ⊢
              by_cases h62 : peek (skip_whitespace s3) = 62
              · rw [if_pos h62] at h
                rw [if_pos h62]
                simp only [Res.ok.injEq] at h
                obtain ⟨rfl, rfl, rfl⟩ := h
                exact ⟨[(k, w)], rfl, rfl⟩
              · rw [if_neg h62] at h
                rw [if_neg h62]
                by_cases h47 : peek (skip_whitespace s3) = 47
                · rw [if_pos h47] at h
                  rw [if_pos h47]
                  obtain ⟨ps2, hps, hv2⟩ := entries_of_object_loop pv n _ _ _ v s' e' h
                  rw [hps]
                  exact ⟨(k, w) :: ps2, rfl, hv2⟩
                · rw [if_neg h47] at h
                  exact absurd h (by simp)
        | none => exact absurd h (by simp)
        | bool b => exact absurd h (by simp)
        | long m => exact absurd h (by simp)
        | float f => exact absurd h (by simp)
        | list xs => exact absurd h (by simp)
        | dict kvs => exact absurd h (by simp)
        | other tag => exact absurd h (by simp)

theorem parse_value_of_text_entries (t : List Nat) (ps : List (List Nat × PyObj))
    (s' : List Nat) (e' : Option PyErr) (h : text_entries t = some (ps, s', e')) :
    parse_value (t.length + 1) (skip_whitespace t) none
      = Res.ok (PyObj.dict (dict_of_pairs ps)) s' e' := by
  unfold text_entries at h
  cases hs : skip_whitespace t with
  | nil => rw [hs] at h; exact absurd h (by simp)
  | cons c rest =>
    rw [hs] at h
    by_cases hc : c = 60
    · subst hc
      dsimp only at h
      rw [parse_value, skip_whitespace_cons_of_not_space rest (by decide), parse_object]
      by_cases h62 : peek (skip_whitespace rest) = 62
      · rw [if_pos h62] at h
        rw [if_pos h62]
        simp only [Option.some.injEq, Prod.mk.injEq] at h
        obtain ⟨rfl, rfl, rfl⟩ := h
        rfl
      · rw [if_neg h62] at h
        rw [if_neg h62, object_loop_of_entries _ _ _ _ [] ps s' e' h]
        rfl
    · exfalso
      revert h
      split
      · rename_i heq
        simp only [List.cons.injEq] at heq
        exact absurd heq.1 hc
      · simp

/-- C12: for every object text, with the pairs `ps` it holds in the order of
the text, decode returns the mapping built from them, and for every key that
occurs in one or more pairs that mapping has a single entry whose value is the
value of the last occurrence in the text. -/
theorem duplicate_keys_last_wins (t : List Nat) (ps : List (List Nat × PyObj))
    (s' : List Nat) (e' : Option PyErr) (h0 : 0 ∉ t)
    (h : text_entries t = some (ps, s', e')) (hend : peek (skip_whitespace s') = 0) :
    xton_loads t = Outcome.ret (some (PyObj.dict (dict_of_pairs ps))) e' ∧
    ∀ k ∈ ps.map Prod.fst,
      dict_count (dict_of_pairs ps) k = 1 ∧
      dict_get (dict_of_pairs ps) k = last_value ps k ∧
      (last_value ps k).isSome = true := by
  refine ⟨loads_with_first_attempt h0 (parse_value_of_text_entries t ps s' e' h) hend, ?_⟩
  intro k hk
  refine ⟨?_, ?_, last_value_isSome ps k hk⟩
  · have h1 := dict_count_foldl_le ps [] k (Nat.zero_le 1)
    have h2 := dict_count_foldl_pos ps [] k (Or.inr hk)
    unfold dict_of_pairs
    omega
  · unfold dict_of_pairs
    rw [dict_get_foldl]
    have := last_value_isSome ps k hk
    cases hl : last_value ps k with
    | some v => rfl
    | none => rw [hl] at this; exact absurd this (by simp)

theorem duplicate_keys_last_wins_witness :
    xton_loads [60, 97, 45, 49, 47, 97, 45, 50, 62]
      = Outcome.ret (some (PyObj.dict [(PyObj.str [97], PyObj.float (Dbl.of_int 2))])) none ∧
    ∀ k ∈ [[97], [97]],
      dict_count [(PyObj.str [97], PyObj.float (Dbl.of_int 2))] k = 1 ∧
      dict_get [(PyObj.str [97], PyObj.float (Dbl.of_int 2))] k
        = last_value [([97], PyObj.float (Dbl.of_int 1)), ([97], PyObj.float (Dbl.of_int 2))] k ∧
      (last_value [([97], PyObj.float (Dbl.of_int 1)), ([97], PyObj.float (Dbl.of_int 2))] k).isSome
        = true :=
  duplicate_keys_last_wins [60, 97, 45, 49, 47, 97, 45, 50, 62]
    [([97], PyObj.float (Dbl.of_int 1)), ([97], PyObj.float (Dbl.of_int 2))] [] none
    (by decide) rfl rfl

/-! ## Whitespace after the document -/

theorem ws_ext_refl (a : List Nat) : ws_ext a a := ⟨[], by simp, by simp⟩

theorem ws_ext_nil {y : List Nat} (hy : ∀ c ∈ y, isspace c = true) : ws_ext [] y :=
  ⟨y, hy, rfl⟩

theorem ws_ext_append (a : List Nat) {y : List Nat} (hy : ∀ c ∈ y, isspace c = true) :
    ws_ext a (a ++ y) := ⟨y, hy, rfl⟩

theorem ws_ext_cons {a b : List Nat} (c : Nat) (h : ws_ext a b) : ws_ext (c :: a) (c :: b) := by
  obtain ⟨y, hy, rfl⟩ := h
  exact ⟨y, hy, rfl⟩

theorem peek_of_ws {y : List Nat} (hy : ∀ c ∈ y, isspace c = true) :
    peek y = 0 ∨ isspace (peek y) = true := by
  cases y with
  | nil => exact Or.inl rfl
  | cons c r => exact Or.inr (hy c (by simp))

theorem ws_ext_peek {a b : List Nat} (h : ws_ext a b) (ha : a ≠ []) : peek b = peek a := by
  obtain ⟨y, _, rfl⟩ := h
  obtain ⟨c, r, rfl⟩ := List.exists_cons_of_ne_nil ha
  rfl

theorem ws_ext_tail {a b : List Nat} (h : ws_ext a b) (ha : a ≠ []) : ws_ext a.tail b.tail := by
  obtain ⟨y, hy, rfl⟩ := h
  obtain ⟨c, r, rfl⟩ := List.exists_cons_of_ne_nil ha
  exact ⟨y, hy, rfl⟩

theorem ws_ext_drop {a b : List Nat} (h : ws_ext a b) (k : Nat) (hk : k ≤ a.length) :
    ws_ext (a.drop k) (b.drop k) := by
  obtain ⟨y, hy, rfl⟩ := h
  refine ⟨y, hy, ?_⟩
  rw [List.drop_append_of_le_length hk]

theorem skip_whitespace_ws_ext {a b : List Nat} (h : ws_ext a b) :
    ws_ext (skip_whitespace a) (skip_whitespace b) ∧
    (skip_whitespace a = [] → skip_whitespace b = []) := by
  obtain ⟨y, hy, rfl⟩ := h
  induction a with
  | nil =>
    rw [List.nil_append, skip_whitespace_all hy]
    exact ⟨ws_ext_refl _, fun _ => rfl⟩
  | cons c r ih =>
    by_cases hc : isspace c = true
    · have e1 : skip_whitespace (c :: r) = skip_whitespace r := by
        simp [skip_whitespace, List.dropWhile, hc]
      have e2 : skip_whitespace (c :: r ++ y) = skip_whitespace (r ++ y) := by
        simp [skip_whitespace, List.dropWhile, hc]
      rw [e1, e2]
      exact ih
    · have hc' : isspace c = false := by simpa using hc
      rw [skip_whitespace_cons_of_not_space r hc', List.cons_append,
        skip_whitespace_cons_of_not_space _ hc']
      exact ⟨⟨y, hy, rfl⟩, fun h => absurd h (by simp)⟩

theorem skip_ws_ext {a b : List Nat} (h : ws_ext a b) :
    ws_ext (skip_whitespace a) (skip_whitespace b) := (skip_whitespace_ws_ext h).1

theorem skip_peek_eq {a b : List Nat} (h : ws_ext a b) :
    peek (skip_whitespace b) = peek (skip_whitespace a) := by
  have h1 := skip_whitespace_ws_ext h
  by_cases hn : skip_whitespace a = []
  · rw [hn, h1.2 hn]
  · exact ws_ext_peek h1.1 hn

theorem skip_tail_ws_ext {a b : List Nat} (h : ws_ext a b) :
    ws_ext (skip_whitespace a).tail (skip_whitespace b).tail := by
  have h1 := skip_whitespace_ws_ext h
  by_cases hn : skip_whitespace a = []
  · rw [hn, h1.2 hn]
    exact ws_ext_refl _
  · exact ws_ext_tail h1.1 hn

theorem skip_whitespace_prefix {w : List Nat} (hw : ∀ c ∈ w, isspace c = true) (t : List Nat) :
    skip_whitespace (w ++ t) = skip_whitespace t := by
  induction w with
  | nil => rfl
  | cons c r ih =>
    have hc := hw c (by simp)
    have : skip_whitespace (c :: r ++ t) = skip_whitespace (r ++ t) := by
      simp [skip_whitespace, List.dropWhile, hc]
    rw [this]
    exact ih (fun x hx => hw x (by simp [hx]))

theorem takeWhile_append_ws {p : Nat → Bool} (hp : ∀ c, isspace c = true → p c = false)
    (a : List Nat) {y : List Nat} (hy : ∀ c ∈ y, isspace c = true) :
    (a ++ y).takeWhile p = a.takeWhile p := by
  induction a with
  | nil =>
    cases y with
    | nil => rfl
    | cons c r => simp [List.takeWhile, hp c (hy c (by simp))]
  | cons x r ih =>
    by_cases hx : p x = true
    · simp [List.takeWhile, hx, ih]
    · simp [List.takeWhile, hx]

theorem dropWhile_append_ws {p : Nat → Bool} (hp : ∀ c, isspace c = true → p c = false)
    (a : List Nat) {y : List Nat} (hy : ∀ c ∈ y, isspace c = true) :
    (a ++ y).dropWhile p = a.dropWhile p ++ y := by
  induction a with
  | nil =>
    cases y with
    | nil => rfl
    | cons c r => simp [List.dropWhile, hp c (hy c (by simp))]
  | cons x r ih =>
    by_cases hx : p x = true
    · simp [List.dropWhile, hx, ih]
    · simp [List.dropWhile, hx]

theorem res_ext_refl_null (s : List Nat) (e : Option PyErr) {s2 : List Nat} (h : ws_ext s s2) :
    res_ext (Res.null s e) (Res.null s2 e) := ⟨s2, rfl, h⟩

theorem res_ext_refl_ok (v : PyObj) (s : List Nat) (e : Option PyErr) {s2 : List Nat}
    (h : ws_ext s s2) : res_ext (Res.ok v s e) (Res.ok v s2 e) := ⟨s2, rfl, h⟩

theorem res_ext_chain (r r2 : Res) (next next2 : List Nat → Option PyErr → Res) :
    res_ext r r2 →
    (∀ s1 s2 e1, ws_ext s1 s2 → res_ext (next s1 e1) (next2 s2 e1)) →
    res_ext (match r with
      | Res.null s1 e1 => next s1 e1
      | r => r)
      (match r2 with
      | Res.null s1 e1 => next2 s1 e1
      | r => r) := by
  intro h hn
  cases r with
  | ok v s e =>
    obtain ⟨s2, rfl, hs⟩ := h
    exact ⟨s2, rfl, hs⟩
  | null s e =>
    obtain ⟨s2, rfl, hs⟩ := h
    exact hn s s2 e hs
  | ub => trivial
  | fuel => trivial

theorem decode_utf8_ws_ext (bytes : List Nat) {s s2 : List Nat} (e : Option PyErr)
    (h : ws_ext s s2) : res_ext (decode_utf8 bytes s e) (decode_utf8 bytes s2 e) := by
  unfold decode_utf8
  split
  · exact ⟨s2, rfl, h⟩
  · exact ⟨s2, rfl, h⟩

theorem parse_unquoted_string_ws_ext {a b : List Nat} (e : Option PyErr) (h : ws_ext a b) :
    res_ext (parse_unquoted_string a e) (parse_unquoted_string b e) := by
  obtain ⟨y, hy, rfl⟩ := h
  have hp : ∀ c, isspace c = true → (!is_xton_identifier_delimiter c) = false := by
    intro c hc
    simp [is_xton_identifier_delimiter, hc]
  unfold parse_unquoted_string
  dsimp only
  rw [takeWhile_append_ws hp a hy, dropWhile_append_ws hp a hy]
  split
  · exact ⟨a ++ y, rfl, y, hy, rfl⟩
  · exact decode_utf8_ws_ext _ e ⟨y, hy, rfl⟩

theorem ws_not_stop {y : List Nat} (hy : ∀ c ∈ y, isspace c = true) :
    ∀ c ∈ y, c ≠ 0 ∧ c ≠ 39 ∧ c ≠ 92 := by
  intro c hc
  have := hy c hc
  simp only [isspace, Bool.or_eq_true, beq_iff_eq, Bool.and_eq_true, decide_eq_true_eq] at this
  omega

theorem quoted_loop_ws_ext {y : List Nat} (hy : ∀ c ∈ y, isspace c = true) :
    ∀ (a buf b c : List Nat), quoted_loop a buf = some (b, c) →
      (c = [] → quoted_loop (a ++ y) buf = some (b ++ y, [])) ∧
      (c ≠ [] → quoted_loop (a ++ y) buf = some (b, c ++ y))
  | [], buf, b, c, h => by
    rw [quoted_loop_nil] at h
    simp only [Option.some.injEq, Prod.mk.injEq] at h
    obtain ⟨rfl, rfl⟩ := h
    refine ⟨fun _ => ?_, fun hc => absurd rfl hc⟩
    rw [List.nil_append]
    exact quoted_loop_no_stop y buf (ws_not_stop hy)
  | [x], buf, b, c, h => by
    by_cases hstop : x = 0 ∨ x = 39
    · rw [quoted_loop_stop hstop] at h
      simp only [Option.some.injEq, Prod.mk.injEq] at h
      obtain ⟨rfl, rfl⟩ := h
      refine ⟨fun hc => absurd hc (by simp), fun _ => ?_⟩
      exact quoted_loop_stop hstop _ _
    · have h0 : x ≠ 0 := fun hc => hstop (Or.inl hc)
      have h39 : x ≠ 39 := fun hc => hstop (Or.inr hc)
      by_cases h92 : x = 92
      · subst h92
        rw [quoted_loop_escape_end] at h
        exact absurd h (by simp)
      · rw [quoted_loop_plain h0 h39 h92, quoted_loop_nil] at h
        simp only [Option.some.injEq, Prod.mk.injEq] at h
        obtain ⟨rfl, rfl⟩ := h
        refine ⟨fun _ => ?_, fun hc => absurd rfl hc⟩
        rw [List.singleton_append, quoted_loop_plain h0 h39 h92]
        exact quoted_loop_no_stop y _ (ws_not_stop hy)
  | x :: d :: rest, buf, b, c, h => by
    by_cases hstop : x = 0 ∨ x = 39
    · rw [quoted_loop_stop hstop] at h
      simp only [Option.some.injEq, Prod.mk.injEq] at h
      obtain ⟨rfl, rfl⟩ := h
      refine ⟨fun hc => absurd hc (by simp), fun _ => ?_⟩
      exact quoted_loop_stop hstop _ _
    · have h0 : x ≠ 0 := fun hc => hstop (Or.inl hc)
      have h39 : x ≠ 39 := fun hc => hstop (Or.inr hc)
      by_cases h92 : x = 92
      · subst h92
        rw [quoted_loop_escape] at h
        have ih := quoted_loop_ws_ext hy rest _ b c h
        rw [List.cons_append, List.cons_append, quoted_loop_escape]
        exact ih
      · rw [quoted_loop_plain h0 h39 h92] at h
        have ih := quoted_loop_ws_ext hy (d :: rest) _ b c h
        rw [List.cons_append, quoted_loop_plain h0 h39 h92]
        exact ih

theorem parse_quoted_string_ws_ext {a b : List Nat} (e : Option PyErr) (h : ws_ext a b) :
    res_ext (parse_quoted_string a e) (parse_quoted_string b e) := by
  obtain ⟨y, hy, rfl⟩ := h
  cases a with
  | nil =>
    rw [parse_quoted_string_nil, List.nil_append]
    cases y with
    | nil => exact ⟨[], rfl, ws_ext_refl _⟩
    | cons c r =>
      have hc : c ≠ 39 := (ws_not_stop hy c (by simp)).2.1
      rw [parse_quoted_string_of_ne r e hc]
      exact ⟨c :: r, rfl, ws_ext_nil hy⟩
  | cons x r =>
    by_cases hx : x = 39
    · subst hx
      cases hq : quoted_loop r [] with
      | none =>
        have : parse_quoted_string (39 :: r) e = Res.ub := by
          simp only [parse_quoted_string, hq]
        rw [this]
        trivial
      | some p =>
        obtain ⟨bf, c⟩ := p
        have hx := quoted_loop_ws_ext hy r [] bf c hq
        rw [parse_quoted_string_of_loop e hq]
        by_cases hc : c = []
        · subst hc
          rw [List.cons_append, parse_quoted_string_of_loop e (hx.1 rfl)]
          rw [if_neg (by decide), if_neg (by decide)]
          exact ⟨[], rfl, ws_ext_refl _⟩
        · rw [List.cons_append, parse_quoted_string_of_loop e (hx.2 hc)]
          have hpk : peek (c ++ y) = peek c := ws_ext_peek ⟨y, hy, rfl⟩ hc
          rw [hpk]
          split
          · exact decode_utf8_ws_ext _ e (ws_ext_tail ⟨y, hy, rfl⟩ hc)
          · exact ⟨c ++ y, rfl, y, hy, rfl⟩
    · rw [parse_quoted_string_of_ne r e hx, List.cons_append, parse_quoted_string_of_ne _ e hx]
      exact ⟨x :: (r ++ y), rfl, y, hy, rfl⟩

theorem parse_key_ws_ext {a b : List Nat} (e : Option PyErr) (h : ws_ext a b) :
    res_ext (parse_key a e) (parse_key b e) := by
  unfold parse_key
  exact res_ext_chain _ _ _ _ (parse_quoted_string_ws_ext e h)
    (fun s1 s2 e1 hs => parse_unquoted_string_ws_ext e1 hs)

theorem invalid_of_null_ws_ext (r r2 : Res) : res_ext r r2 →
    res_ext (match r with
      | Res.null s2 _ => Res.null s2 (some PyErr.invalidFormat)
      | r => r)
      (match r2 with
      | Res.null s2 _ => Res.null s2 (some PyErr.invalidFormat)
      | r => r) := by
  intro h
  cases r with
  | ok v s e =>
    obtain ⟨s2, rfl, hs⟩ := h
    exact ⟨s2, rfl, hs⟩
  | null s e =>
    obtain ⟨s2, rfl, hs⟩ := h
    exact ⟨s2, rfl, hs⟩
  | ub => trivial
  | fuel => trivial

theorem parse_strings_ws_ext {a b : List Nat} (e : Option PyErr) (h : ws_ext a b) :
    res_ext (parse_strings a e) (parse_strings b e) := by
  unfold parse_strings
  exact res_ext_chain _ _ _ _ (parse_quoted_string_ws_ext e h)
    (fun s1 s2 e1 hs => invalid_of_null_ws_ext _ _ (parse_unquoted_string_ws_ext e1 hs))

theorem ws_head_ne {y : List Nat} (hy : ∀ c ∈ y, isspace c = true) {c : Nat} {r : List Nat}
    (h : y = c :: r) : c ≠ 45 ∧ c ≠ 43 ∧ c ≠ 46 ∧ c ≠ 48 ∧ c ≠ 120 ∧ c ≠ 88 ∧ c ≠ 101 ∧
      c ≠ 69 ∧ c ≠ 112 ∧ c ≠ 80 ∧ c ≠ 92 ∧ c ≠ 60 ∧ c ≠ 91 ∧ isdigit c = false := by
  have := hy c (by rw [h]; simp)
  simp only [isspace, Bool.or_eq_true, beq_iff_eq, Bool.and_eq_true, decide_eq_true_eq] at this
  simp only [isdigit, Bool.and_eq_false_imp, decide_eq_true_eq, decide_eq_false_iff_not]
  omega

theorem lex_sign_other {c : Nat} (r : List Nat) (h45 : c ≠ 45) (h43 : c ≠ 43) :
    lex_sign (c :: r) = (false, c :: r) := by
  unfold lex_sign
  split
  · rename_i heq; simp at heq; exact absurd heq.1 h45
  · rename_i heq; simp at heq; exact absurd heq.1 h43
  · rfl

theorem lex_sign_append_ws (a : List Nat) {y : List Nat} (hy : ∀ c ∈ y, isspace c = true) :
    lex_sign (a ++ y) = ((lex_sign a).1, (lex_sign a).2 ++ y) := by
  cases a with
  | nil =>
    cases y with
    | nil => rfl
    | cons c r =>
      have hc := ws_head_ne hy rfl
      rw [List.nil_append, lex_sign_other r hc.1 hc.2.1]
      rfl
  | cons x r =>
    by_cases h45 : x = 45
    · subst h45; rfl
    · by_cases h43 : x = 43
      · subst h43; rfl
      · rw [List.cons_append, lex_sign_other _ h45 h43, lex_sign_other _ h45 h43]
        rfl

theorem lex_mantissa_append_ws {isd : Nat → Bool} (hp : ∀ c, isspace c = true → isd c = false)
    (a : List Nat) {y : List Nat} (hy : ∀ c ∈ y, isspace c = true) :
    lex_mantissa isd (a ++ y)
      = ((lex_mantissa isd a).1, (lex_mantissa isd a).2.1, (lex_mantissa isd a).2.2 ++ y) := by
  unfold lex_mantissa
  dsimp only
  rw [takeWhile_append_ws hp a hy, dropWhile_append_ws hp a hy]
  cases hd : a.dropWhile isd with
  | nil =>
    rw [List.nil_append]
    cases y with
    | nil => rfl
    | cons c r =>
      have hc := ws_head_ne hy rfl
      split
      · rename_i heq; simp at heq; exact absurd heq.1 hc.2.2.1
      · rfl
  | cons x r =>
    rw [List.cons_append]
    by_cases hx : x = 46
    · subst hx
      dsimp only
      rw [takeWhile_append_ws hp r hy, dropWhile_append_ws hp r hy]
      split <;> rfl
    · split
      · rename_i heq; simp at heq; exact absurd heq.1 hx
      · split
        · rename_i heq; simp at heq; exact absurd heq.1 hx
        · rfl

theorem lex_exponent_append_ws {mark : Nat → Bool} (hp : ∀ c, isspace c = true → mark c = false)
    (a : List Nat) {y : List Nat} (hy : ∀ c ∈ y, isspace c = true) :
    lex_exponent mark (a ++ y) = ((lex_exponent mark a).1, (lex_exponent mark a).2 ++ y) := by
  have hd : ∀ c, isspace c = true → isdigit c = false := by
    intro c hc
    cases hdc : isdigit c with
    | false => rfl
    | true => rw [isdigit_not_space hdc] at hc; exact absurd hc (by simp)
  cases a with
  | nil =>
    cases y with
    | nil => rfl
    | cons c r =>
      have := hp c (hy c (by simp))
      simp [lex_exponent, this]
  | cons x r =>
    rw [List.cons_append]
    unfold lex_exponent
    by_cases hm : mark x = true
    · simp only [hm, if_true]
      rw [lex_sign_append_ws r hy]
      dsimp only
      rw [takeWhile_append_ws hd _ hy, dropWhile_append_ws hd _ hy]
      split
      · rfl
      · rfl
    · simp only [hm]
      rfl

theorem isdigit_of_ws : ∀ c, isspace c = true → isdigit c = false := by
  intro c hc
  cases hdc : isdigit c with
  | false => rfl
  | true => rw [isdigit_not_space hdc] at hc; exact absurd hc (by simp)

theorem isxdigit_of_ws : ∀ c, isspace c = true → isxdigit c = false := by
  intro c hc
  simp only [isspace, Bool.or_eq_true, beq_iff_eq, Bool.and_eq_true, decide_eq_true_eq] at hc
  simp only [isxdigit, isdigit, Bool.or_eq_false_iff, Bool.and_eq_false_imp, decide_eq_true_eq,
    decide_eq_false_iff_not]
  omega

theorem strtod_dec_append_ws (neg : Bool) (a : List Nat) {y : List Nat}
    (hy : ∀ c ∈ y, isspace c = true) :
    strtod_dec neg (a ++ y) = (strtod_dec neg a).map (fun r => (r.1, r.2 ++ y)) := by
  have hm : ∀ c, isspace c = true → (c == 101 || c == 69) = false := by
    intro c hc
    simp only [isspace, Bool.or_eq_true, beq_iff_eq, Bool.and_eq_true, decide_eq_true_eq] at hc
    simp only [Bool.or_eq_false_iff, beq_eq_false_iff_ne, ne_eq]
    omega
  unfold strtod_dec
  dsimp only
  rw [lex_mantissa_append_ws isdigit_of_ws a hy]
  dsimp only
  split
  · rfl
  · rw [lex_exponent_append_ws hm _ hy]
    rfl

theorem strtod_hex_of_ne (neg : Bool) {c : Nat} (r : List Nat) (h : c ≠ 48) :
    strtod_hex neg (c :: r) = none := by
  unfold strtod_hex
  split
  · rename_i heq; simp at heq; exact absurd heq.1 h
  · rfl

theorem strtod_hex_append_ws (neg : Bool) (a : List Nat) {y : List Nat}
    (hy : ∀ c ∈ y, isspace c = true) :
    strtod_hex neg (a ++ y) = (strtod_hex neg a).map (fun r => (r.1, r.2 ++ y)) := by
  have hm : ∀ c, isspace c = true → (c == 112 || c == 80) = false := by
    intro c hc
    simp only [isspace, Bool.or_eq_true, beq_iff_eq, Bool.and_eq_true, decide_eq_true_eq] at hc
    simp only [Bool.or_eq_false_iff, beq_eq_false_iff_ne, ne_eq]
    omega
  cases a with
  | nil =>
    cases y with
    | nil => rfl
    | cons c r =>
      have hc := ws_head_ne hy rfl
      rw [List.nil_append, strtod_hex_of_ne neg r hc.2.2.2.1]
      rfl
  | cons x r =>
    by_cases hx : x = 48
    · subst hx
      cases r with
      | nil =>
        cases y with
        | nil => rfl
        | cons c r2 =>
          have hc := ws_head_ne hy rfl
          simp [strtod_hex, hc.2.2.2.2.1, hc.2.2.2.2.2.1]
      | cons x2 r2 =>
        by_cases hx2 : x2 = 120 ∨ x2 = 88
        · simp only [strtod_hex, List.cons_append, hx2, if_true]
          rw [lex_mantissa_append_ws isxdigit_of_ws r2 hy]
          dsimp only
          split
          · rfl
          · rw [lex_exponent_append_ws hm _ hy]
            rfl
        · simp only [strtod_hex, List.cons_append, hx2, if_false]
          rfl
    · rw [List.cons_append, strtod_hex_of_ne neg _ hx, strtod_hex_of_ne neg _ hx]
      rfl

theorem strtod_signed_append_ws (neg : Bool) {d : Nat} (r : List Nat) (hd : isdigit d = true)
    {y : List Nat} (hy : ∀ c ∈ y, isspace c = true) :
    (match strtod_special neg (d :: (r ++ y)) with
      | some p => some p
      | none =>
        match strtod_hex neg (d :: (r ++ y)) with
        | some p => some p
        | none => strtod_dec neg (d :: (r ++ y)))
    = Option.map (fun p : Dbl × List Nat => (p.1, p.2 ++ y))
      (match strtod_special neg (d :: r) with
      | some p => some p
      | none =>
        match strtod_hex neg (d :: r) with
        | some p => some p
        | none => strtod_dec neg (d :: r)) := by
  rw [strtod_special_digit neg _ hd, strtod_special_digit neg _ hd]
  have h1 := strtod_hex_append_ws neg (d :: r) hy
  have h2 := strtod_dec_append_ws neg (d :: r) hy
  rw [List.cons_append] at h1 h2
  dsimp only
  rw [h1, h2]
  cases strtod_hex neg (d :: r) with
  | none => rfl
  | some p => rfl

theorem strtod_append_ws (a : List Nat) (hg : number_gate a = true) {y : List Nat}
    (hy : ∀ c ∈ y, isspace c = true) :
    strtod (a ++ y) = (strtod a).map (fun p => (p.1, p.2 ++ y)) := by
  cases a with
  | nil => exact absurd hg (by decide)
  | cons x r =>
    by_cases hx : isdigit x = true
    · unfold strtod
      rw [List.cons_append, skip_whitespace_cons_of_not_space _ (isdigit_not_space hx),
        skip_whitespace_cons_of_not_space _ (isdigit_not_space hx), lex_sign_digit _ hx,
        lex_sign_digit _ hx]
      exact strtod_signed_append_ws false r hx hy
    · have hx' : isdigit x = false := by simpa using hx
      simp only [number_gate, peek, hx', Bool.false_or, Bool.and_eq_true, beq_iff_eq,
        List.tail_cons] at hg
      obtain ⟨rfl, hd⟩ := hg
      cases r with
      | nil => exact absurd hd (by decide)
      | cons d r2 =>
        have hd' : isdigit d = true := hd
        unfold strtod
        rw [List.cons_append, List.cons_append,
          skip_whitespace_cons_of_not_space _ (by decide : isspace 45 = false),
          skip_whitespace_cons_of_not_space _ (by decide : isspace 45 = false)]
        exact strtod_signed_append_ws true r2 hd' hy

theorem parse_number_ws_ext {a b : List Nat} (e : Option PyErr) (hg : number_gate a = true)
    (h : ws_ext a b) : res_ext (parse_number a e) (parse_number b e) := by
  obtain ⟨y, hy, rfl⟩ := h
  unfold parse_number
  rw [strtod_append_ws a hg hy]
  cases strtod a with
  | none => exact ⟨a ++ y, rfl, y, hy, rfl⟩
  | some p => exact ⟨p.2 ++ y, rfl, y, hy, rfl⟩

theorem number_gate_ws_ext {a b : List Nat} (h : ws_ext a b) : number_gate b = number_gate a := by
  obtain ⟨y, hy, rfl⟩ := h
  have hpy : isdigit (peek y) = false ∧ peek y ≠ 45 := by
    cases y with
    | nil => exact ⟨rfl, by decide⟩
    | cons c r =>
      have hc := ws_head_ne hy rfl
      exact ⟨hc.2.2.2.2.2.2.2.2.2.2.2.2.2, hc.1⟩
  have h45 : (peek y == 45) = false := beq_false_of_ne hpy.2
  cases a with
  | nil =>
    rw [List.nil_append]
    show (isdigit (peek y) || (peek y == 45 && isdigit (peek y.tail))) = false
    rw [hpy.1, h45]
    rfl
  | cons x r =>
    cases r with
    | nil =>
      show (isdigit x || (x == 45 && isdigit (peek y))) = (isdigit x || (x == 45 && isdigit 0))
      rw [hpy.1]
      rfl
    | cons x2 r2 => rfl

theorem take_tag_ws (tag : List Nat) (ht : ∀ c ∈ tag, isspace c = false) :
    ∀ (a : List Nat) {y : List Nat}, (∀ c ∈ y, isspace c = true) →
      ((a ++ y).take tag.length = tag ↔ a.take tag.length = tag) := by
  induction tag with
  | nil => intro a y _; simp
  | cons c tag ih =>
    intro a y hy
    cases a with
    | nil =>
      cases y with
      | nil => simp
      | cons x r =>
        have hx := hy x (by simp)
        have hc := ht c (by simp)
        simp only [List.nil_append, List.length_cons, List.take_succ_cons, List.cons.injEq,
          List.take_nil]
        constructor
        · intro h
          rw [h.1, hc] at hx
          exact absurd hx (by simp)
        · intro h
          exact absurd h (by simp)
    | cons x r =>
      have := ih (fun d hd => ht d (by simp [hd])) r hy
      simp only [List.cons_append, List.length_cons, List.take_succ_cons, List.cons.injEq, this]

theorem length_of_take_eq {a tag : List Nat} {k : Nat} (h : a.take k = tag)
    (hk : tag.length = k) : k ≤ a.length := by
  have := congrArg List.length h
  rw [List.length_take, hk] at this
  omega

theorem parse_scalar_ws_ext {a b : List Nat} (e : Option PyErr) (h : ws_ext a b) :
    res_ext (parse_scalar a e) (parse_scalar b e) := by
  have ht1 := fun y hy => take_tag_ws [92, 116, 114, 117, 101] (by decide) a (y := y) hy
  have ht2 := fun y hy => take_tag_ws [92, 102, 97, 108, 115, 101] (by decide) a (y := y) hy
  have ht3 := fun y hy => take_tag_ws [92, 110, 111, 110, 101] (by decide) a (y := y) hy
  have hg := number_gate_ws_ext h
  obtain ⟨y, hy, rfl⟩ := h
  have h1 := ht1 y hy
  have h2 := ht2 y hy
  have h3 := ht3 y hy
  simp only [List.length_cons, List.length_nil, Nat.zero_add, Nat.reduceAdd] at h1 h2 h3
  unfold parse_scalar
  by_cases c1 : a.take 5 = [92, 116, 114, 117, 101]
  · rw [if_pos c1, if_pos (h1.2 c1)]
    exact ⟨_, rfl, ws_ext_drop ⟨y, hy, rfl⟩ 5 (length_of_take_eq c1 rfl)⟩
  · rw [if_neg c1, if_neg (fun hc => c1 (h1.1 hc))]
    by_cases c2 : a.take 6 = [92, 102, 97, 108, 115, 101]
    · rw [if_pos c2, if_pos (h2.2 c2)]
      exact ⟨_, rfl, ws_ext_drop ⟨y, hy, rfl⟩ 6 (length_of_take_eq c2 rfl)⟩
    · rw [if_neg c2, if_neg (fun hc => c2 (h2.1 hc))]
      by_cases c3 : a.take 5 = [92, 110, 111, 110, 101]
      · rw [if_pos c3, if_pos (h3.2 c3)]
        exact ⟨_, rfl, ws_ext_drop ⟨y, hy, rfl⟩ 5 (length_of_take_eq c3 rfl)⟩
      · rw [if_neg c3, if_neg (fun hc => c3 (h3.1 hc)), hg]
        by_cases cg : number_gate a = true
        · rw [if_pos cg, if_pos cg]
          exact res_ext_chain _ _ _ _ (parse_number_ws_ext e cg ⟨y, hy, rfl⟩)
            (fun s1 s2 e1 hs => parse_strings_ws_ext e1 hs)
        · rw [if_neg cg, if_neg cg]
          exact parse_strings_ws_ext e ⟨y, hy, rfl⟩

theorem ws_norm_peek {a b : List Nat} (h : ws_ext a b) (hn : a = [] → b = []) :
    peek b = peek a := by
  by_cases ha : a = []
  · rw [ha, hn ha]
  · exact ws_ext_peek h ha

theorem array_loop_ws_ext {pv pv2 : List Nat → Option PyErr → Res}
    (hsim : ∀ a b e, ws_ext a b → res_ext (pv a e) (pv2 b e)) :
    ∀ (n m : Nat) (a b : List Nat) (e : Option PyErr) (acc : List PyObj), n ≤ m →
      ws_ext a b → (a = [] → b = []) →
      res_ext (array_loop pv n a e acc) (array_loop pv2 m b e acc)
  | 0, _, _, _, _, _, _, _, _ => by
    rw [array_loop]
    trivial
  | n + 1, 0, _, _, _, _, hnm, _, _ => absurd hnm (by omega)
  | n + 1, m + 1, a, b, e, acc, hnm, h, hn => by
    rw [array_loop, array_loop, ws_norm_peek h hn]
    by_cases hp : peek a = 0
    · rw [if_pos hp, if_pos hp]
      exact ⟨b, rfl, h⟩
    · rw [if_neg hp, if_neg hp]
      have hv := hsim a b e h
      cases hr : pv a e with
      | ok v s1 e1 =>
        rw [hr] at hv
        obtain ⟨s2, hr2, hs⟩ := hv
        rw [hr2]
        dsimp only
        rw [skip_peek_eq hs]
        by_cases h93 : peek (skip_whitespace s1) = 93
        · rw [if_pos h93, if_pos h93]
          exact ⟨_, rfl, skip_tail_ws_ext hs⟩
        · rw [if_neg h93, if_neg h93]
          by_cases h47 : peek (skip_whitespace s1) = 47
          · rw [if_pos h47, if_pos h47]
            have hx := skip_whitespace_ws_ext (skip_tail_ws_ext hs)
            exact array_loop_ws_ext hsim n m _ _ e1 _ (by omega) hx.1 hx.2
          · rw [if_neg h47, if_neg h47]
            exact ⟨_, rfl, skip_ws_ext hs⟩
      | null s1 e1 =>
        rw [hr] at hv
        obtain ⟨s2, hr2, hs⟩ := hv
        rw [hr2]
        exact ⟨s2, rfl, hs⟩
      | ub => trivial
      | fuel => trivial

theorem parse_array_ws_ext {pv pv2 : List Nat → Option PyErr → Res}
    (hsim : ∀ a b e, ws_ext a b → res_ext (pv a e) (pv2 b e))
    (n m : Nat) {a b : List Nat} (e : Option PyErr) (hnm : n ≤ m) (h : ws_ext a b) :
    res_ext (parse_array pv n a e) (parse_array pv2 m b e) := by
  obtain ⟨y, hy, rfl⟩ := h
  cases a with
  | nil =>
    rw [parse_array_nil, List.nil_append]
    cases y with
    | nil => exact ⟨[], rfl, ws_ext_refl _⟩
    | cons c r =>
      have hc := ws_head_ne hy rfl
      rw [parse_array_of_ne hc.2.2.2.2.2.2.2.2.2.2.2.2.1]
      exact ⟨c :: r, rfl, ws_ext_nil hy⟩
  | cons x r =>
    by_cases hx : x = 91
    · subst hx
      rw [List.cons_append, parse_array, parse_array]
      have hs : ws_ext r (r ++ y) := ⟨y, hy, rfl⟩
      have hx := skip_whitespace_ws_ext hs
      rw [skip_peek_eq hs]
      by_cases h93 : peek (skip_whitespace r) = 93
      · rw [if_pos h93, if_pos h93]
        exact ⟨_, rfl, skip_tail_ws_ext hs⟩
      · rw [if_neg h93, if_neg h93]
        exact array_loop_ws_ext hsim n m _ _ e [] hnm hx.1 hx.2
    · rw [List.cons_append, parse_array_of_ne hx, parse_array_of_ne hx]
      exact ⟨x :: (r ++ y), rfl, y, hy, rfl⟩

theorem object_loop_ws_ext {pv pv2 : List Nat → Option PyErr → Res}
    (hsim : ∀ a b e, ws_ext a b → res_ext (pv a e) (pv2 b e)) :
    ∀ (n m : Nat) (a b : List Nat) (e : Option PyErr) (acc : List (PyObj × PyObj)), n ≤ m →
      ws_ext a b → (a = [] → b = []) →
      res_ext (object_loop pv n a e acc) (object_loop pv2 m b e acc)
  | 0, _, _, _, _, _, _, _, _ => by
    rw [object_loop]
    trivial
  | n + 1, 0, _, _, _, _, hnm, _, _ => absurd hnm (by omega)
  | n + 1, m + 1, a, b, e, acc, hnm, h, hn => by
    rw [object_loop, object_loop, ws_norm_peek h hn]
    by_cases hp : peek a = 0
    · rw [if_pos hp, if_pos hp]
      exact ⟨b, rfl, h⟩
    · rw [if_neg hp, if_neg hp]
      have hk := parse_key_ws_ext e h
      cases hr : parse_key a e with
      | ok key s1 e1 =>
        rw [hr] at hk
        obtain ⟨s2, hr2, hs⟩ := hk
        rw [hr2]
        cases key with
        | str k =>
          dsimp only
          rw [skip_peek_eq hs]
          by_cases h45 : peek (skip_whitespace s1) ≠ 45
          · rw [if_pos h45, if_pos h45]
            exact ⟨_, rfl, skip_ws_ext hs⟩
          · rw [if_neg h45, if_neg h45]
            have hv := hsim _ _ e1 (skip_ws_ext (skip_tail_ws_ext hs))
            cases hrv : pv (skip_whitespace (skip_whitespace s1).tail) e1 with
            | ok v s3 e3 =>
              rw [hrv] at hv
              obtain ⟨s4, hr4, hs3⟩ := hv
              rw [hr4]
              dsimp only
              rw [skip_peek_eq hs3]
              by_cases h62 : peek (skip_whitespace s3) = 62
              · rw [if_pos h62, if_pos h62]
                exact ⟨_, rfl, skip_tail_ws_ext hs3⟩
              · rw [if_neg h62, if_neg h62]
                by_cases h47 : peek (skip_whitespace s3) = 47
                · rw [if_pos h47, if_pos h47]
                  have hx := skip_whitespace_ws_ext (skip_tail_ws_ext hs3)
                  exact object_loop_ws_ext hsim n m _ _ e3 _ (by omega) hx.1 hx.2
                · rw [if_neg h47, if_neg h47]
                  exact ⟨_, rfl, skip_ws_ext hs3⟩
            | null s3 e3 =>
              rw [hrv] at hv
              obtain ⟨s4, hr4, hs3⟩ := hv
              rw [hr4]
              exact ⟨s4, rfl, hs3⟩
            | ub => trivial
            | fuel => trivial
        | none => exact ⟨s2, rfl, hs⟩
        | bool b => exact ⟨s2, rfl, hs⟩
        | long z => exact ⟨s2, rfl, hs⟩
        | float f => exact ⟨s2, rfl, hs⟩
        | list xs => exact ⟨s2, rfl, hs⟩
        | dict kvs => exact ⟨s2, rfl, hs⟩
        | other tag => exact ⟨s2, rfl, hs⟩
      | null s1 e1 =>
        rw [hr] at hk
        obtain ⟨s2, hr2, hs⟩ := hk
        rw [hr2]
        exact ⟨s2, rfl, hs⟩
      | ub => trivial
      | fuel => trivial

theorem parse_object_ws_ext {pv pv2 : List Nat → Option PyErr → Res}
    (hsim : ∀ a b e, ws_ext a b → res_ext (pv a e) (pv2 b e))
    (n m : Nat) {a b : List Nat} (e : Option PyErr) (hnm : n ≤ m) (h : ws_ext a b) :
    res_ext (parse_object pv n a e) (parse_object pv2 m b e) := by
  obtain ⟨y, hy, rfl⟩ := h
  cases a with
  | nil =>
    rw [parse_object_nil, List.nil_append]
    cases y with
    | nil => exact ⟨[], rfl, ws_ext_refl _⟩
    | cons c r =>
      have hc := ws_head_ne hy rfl
      rw [parse_object_of_ne hc.2.2.2.2.2.2.2.2.2.2.2.1]
      exact ⟨c :: r, rfl, ws_ext_nil hy⟩
  | cons x r =>
    by_cases hx : x = 60
    · subst hx
      rw [List.cons_append, parse_object, parse_object]
      have hs : ws_ext r (r ++ y) := ⟨y, hy, rfl⟩
      have hx := skip_whitespace_ws_ext hs
      rw [skip_peek_eq hs]
      by_cases h62 : peek (skip_whitespace r) = 62
      · rw [if_pos h62, if_pos h62]
        exact ⟨_, rfl, skip_tail_ws_ext hs⟩
      · rw [if_neg h62, if_neg h62]
        exact object_loop_ws_ext hsim n m _ _ e [] hnm hx.1 hx.2
    · rw [List.cons_append, parse_object_of_ne hx, parse_object_of_ne hx]
      exact ⟨x :: (r ++ y), rfl, y, hy, rfl⟩

theorem parse_value_ws_ext :
    ∀ (n m : Nat) (a b : List Nat) (e : Option PyErr), n ≤ m → ws_ext a b →
      res_ext (parse_value n a e) (parse_value m b e)
  | 0, _, _, _, _, _, _ => by
    rw [parse_value]
    trivial
  | n + 1, 0, _, _, _, hnm, _ => absurd hnm (by omega)
  | n + 1, m + 1, a, b, e, hnm, h => by
    have hsim : ∀ a b e, ws_ext a b → res_ext (parse_value n a e) (parse_value m b e) :=
      fun a b e hab => parse_value_ws_ext n m a b e (by omega) hab
    rw [parse_value, parse_value]
    exact res_ext_chain _ _ _ _
      (parse_object_ws_ext hsim n m e (by omega) (skip_ws_ext h))
      (fun s1 s2 e1 hs => res_ext_chain _ _ _ _
        (parse_array_ws_ext hsim n m e1 (by omega) hs)
        (fun s3 s4 e2 hs2 => parse_scalar_ws_ext e2 hs2))

theorem loads_pair_ws_ext (n m : Nat) {a b : List Nat} (hnm : n ≤ m) (h : ws_ext a b)
    (hub : loads_pair n a ≠ Outcome.ub) (hf : loads_pair n a ≠ Outcome.fuel) :
    loads_pair m b = loads_pair n a := by
  have hk := parse_unquoted_string_ws_ext none h
  unfold loads_pair at hub hf ⊢
  cases hr : parse_unquoted_string a none with
  | ok key s1 e1 =>
    rw [hr] at hk hub hf
    obtain ⟨s2, hr2, hs⟩ := hk
    rw [hr2]
    dsimp only at hub hf ⊢
    rw [skip_peek_eq hs]
    by_cases h45 : peek (skip_whitespace s1) = 45
    · rw [if_pos h45] at hub hf
      rw [if_pos h45, if_pos h45]
      have hv := parse_value_ws_ext n m _ _ e1 hnm (skip_ws_ext (skip_tail_ws_ext hs))
      cases hrv : parse_value n (skip_whitespace (skip_whitespace s1).tail) e1 with
      | ok v s4 e4 =>
        rw [hrv] at hv
        obtain ⟨s5, hr5, hs4⟩ := hv
        rw [hr5]
        dsimp only
        rw [skip_peek_eq hs4]
      | null s4 e4 =>
        rw [hrv] at hv
        obtain ⟨s5, hr5, hs4⟩ := hv
        rw [hr5]
      | ub => rw [hrv] at hub; exact absurd rfl hub
      | fuel => rw [hrv] at hf; exact absurd rfl hf
    · rw [if_neg h45, if_neg h45]
  | null s1 e1 =>
    rw [hr] at hk
    obtain ⟨s2, hr2, hs⟩ := hk
    rw [hr2]
  | ub => rw [hr] at hub; exact absurd rfl hub
  | fuel => rw [hr] at hf; exact absurd rfl hf

theorem loads_with_ws_ext (t w1 w2 : List Nat) (h1 : ∀ c ∈ w1, isspace c = true)
    (h2 : ∀ c ∈ w2, isspace c = true) (hub : xton_loads t ≠ Outcome.ub) :
    xton_loads (w1 ++ t ++ w2) = xton_loads t := by
  have hfuel := xton_loads_not_fuel t
  unfold xton_loads loads_with at hub hfuel ⊢
  by_cases h0 : 0 ∈ t
  · rw [if_pos h0, if_pos (by simp [h0])]
  · have h0p : 0 ∉ w1 ++ t ++ w2 := by
      simp only [List.mem_append, not_or]
      exact ⟨⟨zero_not_mem_of_space h1, h0⟩, zero_not_mem_of_space h2⟩
    rw [if_neg h0] at hub hfuel
    rw [if_neg h0, if_neg h0p]
    dsimp only at hub hfuel ⊢
    have hskip : skip_whitespace (w1 ++ t ++ w2) = skip_whitespace (t ++ w2) := by
      rw [List.append_assoc]
      exact skip_whitespace_prefix h1 _
    have hs0 : ws_ext (skip_whitespace t) (skip_whitespace (w1 ++ t ++ w2)) := by
      rw [hskip]
      exact skip_ws_ext (ws_ext_append t h2)
    have hlen : t.length + 1 ≤ (w1 ++ t ++ w2).length + 1 := by
      simp only [List.length_append]
      omega
    have hv := parse_value_ws_ext (t.length + 1) ((w1 ++ t ++ w2).length + 1) _ _ none hlen hs0
    have hpf := loads_pair_not_fuel (t.length + 1) (skip_whitespace t)
      (by have := skip_whitespace_length_le t; omega)
    cases hr : parse_value (t.length + 1) (skip_whitespace t) none with
    | ok v s1 e1 =>
      rw [hr] at hv hub
      obtain ⟨s2, hr2, hs⟩ := hv
      rw [hr2]
      dsimp only at hub ⊢
      rw [skip_peek_eq hs]
      by_cases hp : peek (skip_whitespace s1) = 0
      · rw [if_pos hp, if_pos hp]
      · rw [if_neg hp] at hub
        rw [if_neg hp, if_neg hp]
        exact loads_pair_ws_ext _ _ hlen hs0 hub hpf
    | null s1 e1 =>
      rw [hr] at hv hub
      obtain ⟨s2, hr2, hs⟩ := hv
      rw [hr2]
      exact loads_pair_ws_ext _ _ hlen hs0 hub hpf
    | ub => rw [hr] at hub; exact absurd rfl hub
    | fuel => rw [hr] at hfuel; exact absurd rfl hfuel

/-- C18, where it holds and where the code breaks it: for every text `t` on
which decode stays inside its buffer and all strings `w1`, `w2` made only of
whitespace characters, decode of `w1 ++ t ++ w2` gives the same outcome as
decode of `t` (the same value, or the same failure).  On the text quote, `a`,
backslash the scan of the quoted string steps over the terminating NUL, while
with a space after it decode fails with the InvalidDocument error. -/
theorem whitespace_around_document (t w1 w2 : List Nat) (h1 : ∀ c ∈ w1, isspace c = true)
    (h2 : ∀ c ∈ w2, isspace c = true) :
    (xton_loads t ≠ Outcome.ub → xton_loads (w1 ++ t ++ w2) = xton_loads t) ∧
    xton_loads [39, 97, 92] = Outcome.ub ∧
    xton_loads ([39, 97, 92] ++ [32]) = Outcome.ret none (some PyErr.invalidFormat) :=
  ⟨loads_with_ws_ext t w1 w2 h1 h2, rfl, rfl⟩

theorem whitespace_around_document_witness :
    xton_loads ([32, 10] ++ [60, 97, 45, 49, 62] ++ [9, 32]) = xton_loads [60, 97, 45, 49, 62] ∧
    xton_loads [60, 97, 45, 49, 62]
      = Outcome.ret (some (PyObj.dict [(PyObj.str [97], PyObj.float (Dbl.of_int 1))])) none :=
  ⟨(whitespace_around_document [60, 97, 45, 49, 62] [32, 10] [9, 32] (by decide) (by decide)).1
      (by intro h; exact Outcome.noConfusion h),
   rfl⟩

/-! ## Which errors `xton_loads` reports -/

theorem parse_strings_null_error {s s1 : List Nat} {err e : Option PyErr}
    (h : parse_strings s err = Res.null s1 e) : e = some PyErr.invalidFormat := by
  unfold parse_strings at h
  cases hq : parse_quoted_string s err with
  | ok v s2 e2 => rw [hq] at h; exact absurd h (by simp)
  | ub => rw [hq] at h; exact absurd h (by simp)
  | fuel => rw [hq] at h; exact absurd h (by simp)
  | null s2 e2 =>
    rw [hq] at h
    dsimp only at h
    cases hu : parse_unquoted_string s2 e2 with
    | ok v s3 e3 => rw [hu] at h; exact absurd h (by simp)
    | ub => rw [hu] at h; exact absurd h (by simp)
    | fuel => rw [hu] at h; exact absurd h (by simp)
    | null s3 e3 =>
      rw [hu] at h
      simp only [Res.null.injEq] at h
      exact h.2.symm

theorem parse_scalar_null_error {s s1 : List Nat} {err e : Option PyErr}
    (h : parse_scalar s err = Res.null s1 e) : e = some PyErr.invalidFormat := by
  unfold parse_scalar at h
  split at h
  · exact absurd h (by simp)
  · split at h
    · exact absurd h (by simp)
    · split at h
      · exact absurd h (by simp)
      · split at h
        · cases hn : parse_number s err with
          | ok v s2 e2 => rw [hn] at h; exact absurd h (by simp)
          | ub => rw [hn] at h; exact absurd h (by simp)
          | fuel => rw [hn] at h; exact absurd h (by simp)
          | null s2 e2 =>
            rw [hn] at h
            exact parse_strings_null_error h
        · exact parse_strings_null_error h

theorem parse_value_null_error : ∀ (n : Nat) {s s1 : List Nat} {err e : Option PyErr},
    parse_value n s err = Res.null s1 e → e = some PyErr.invalidFormat
  | 0, s, s1, err, e, h => by
    rw [parse_value] at h
    exact absurd h (by simp)
  | n + 1, s, s1, err, e, h => by
    rw [parse_value] at h
    cases ho : parse_object (parse_value n) n (skip_whitespace s) err with
    | ok v s2 e2 => rw [ho] at h; exact absurd h (by simp)
    | ub => rw [ho] at h; exact absurd h (by simp)
    | fuel => rw [ho] at h; exact absurd h (by simp)
    | null s2 e2 =>
      rw [ho] at h
      dsimp only at h
      cases ha : parse_array (parse_value n) n s2 e2 with
      | ok v s3 e3 => rw [ha] at h; exact absurd h (by simp)
      | ub => rw [ha] at h; exact absurd h (by simp)
      | fuel => rw [ha] at h; exact absurd h (by simp)
      | null s3 e3 =>
        rw [ha] at h
        exact parse_scalar_null_error h

theorem loads_with_eq_pair_of_none {n : Nat} {t : List Nat} {e : Option PyErr} (h0 : 0 ∉ t)
    (h : loads_with n t = Outcome.ret none e) :
    loads_pair n (skip_whitespace t) = Outcome.ret none e := by
  unfold loads_with at h
  rw [if_neg h0] at h
  dsimp only at h
  cases hv : parse_value n (skip_whitespace t) none with
  | ok v s1 e1 =>
    rw [hv] at h
    dsimp only at h
    by_cases hp : peek (skip_whitespace s1) = 0
    · rw [if_pos hp] at h
      exact absurd h (by simp)
    · rw [if_neg hp] at h
      exact h
  | null s1 e1 => rw [hv] at h; exact h
  | ub => rw [hv] at h; exact absurd h (by simp)
  | fuel => rw [hv] at h; exact absurd h (by simp)

/-- C21 as stated fails: on a text that holds a NUL character the call fails
before any parsing, with the error "embedded null character" of the argument
conversion. -/
theorem decode_error_kinds_counterexample :
    xton_loads [97, 0, 98] = Outcome.ret none (some PyErr.embeddedNull) ∧
    xton_loads [60, 97, 45, 49, 0] = Outcome.ret none (some PyErr.embeddedNull) :=
  ⟨rfl, rfl⟩

/-- C21, amended: a text with a NUL character is rejected by the argument
conversion.  For every other text on which `xton_loads` returns no value, the
reported error is either the generic "Invalid XTon format or unsupported type."
or "Extra characters after XTon value."; the errors set by the nested parsers
do not outlive a failure: `parse_value` returns `NULL` only with the generic
error, and the second attempt starts from a cleared error indicator. -/
theorem decode_error_kinds (t : List Nat) (h0 : 0 ∉ t) :
    (∀ e, xton_loads t = Outcome.ret none e →
      e = some PyErr.invalidFormat ∨ e = some PyErr.extraCharacters) ∧
    (∀ (n : Nat) (s s1 : List Nat) (err e : Option PyErr),
      parse_value n s err = Res.null s1 e → e = some PyErr.invalidFormat) ∧
    (∀ e, xton_loads t = Outcome.ret none e →
      loads_pair (t.length + 1) (skip_whitespace t) = Outcome.ret none e) := by
  refine ⟨?_, fun n s s1 err e h => parse_value_null_error n h,
    fun e he => loads_with_eq_pair_of_none h0 he⟩
  intro e he
  have hp := loads_with_eq_pair_of_none h0 he
  rcases loads_pair_cases (t.length + 1) (skip_whitespace t) with h | h | ⟨v, e2, h⟩ | h | h <;>
    rw [h] at hp
  · simp only [Outcome.ret.injEq, true_and] at hp
    exact Or.inl hp.symm
  · simp only [Outcome.ret.injEq, true_and] at hp
    exact Or.inr hp.symm
  · simp at hp
  · simp at hp
  · simp at hp

theorem decode_error_kinds_witness :
    (parse_object (parse_value 5) 5 [60, 97, 45, 49, 47] none
        = Res.null [] (some PyErr.unterminatedObject) ∧
      xton_loads [60, 97, 45, 49, 47] = Outcome.ret none (some PyErr.invalidFormat)) ∧
    (parse_object (parse_value 4) 4 [60, 97, 45, 49] none
        = Res.null [] (some PyErr.malformedObject) ∧
      xton_loads [60, 97, 45, 49] = Outcome.ret none (some PyErr.invalidFormat)) ∧
    (parse_quoted_string [39, 97] none = Res.null [] (some PyErr.unterminatedString) ∧
      xton_loads [39, 97] = Outcome.ret none (some PyErr.invalidFormat)) ∧
    (parse_array (parse_value 3) 3 [91, 97, 47] none
        = Res.null [] (some PyErr.unterminatedArray) ∧
      xton_loads [91, 97, 47] = Outcome.ret none (some PyErr.invalidFormat)) ∧
    (∀ e, xton_loads [120, 45, 49, 32, 121] = Outcome.ret none e →
      e = some PyErr.invalidFormat ∨ e = some PyErr.extraCharacters) :=
  ⟨⟨rfl, rfl⟩, ⟨rfl, rfl⟩, ⟨rfl, rfl⟩, ⟨rfl, rfl⟩,
    (decode_error_kinds [120, 45, 49, 32, 121] (by decide)).1⟩

/-! ## The step bound does not change a result -/

theorem array_loop_mono {pv pv2 : List Nat → Option PyErr → Res}
    (hpv : ∀ s e, pv s e ≠ Res.fuel → pv2 s e = pv s e) :
    ∀ (n m : Nat) (s : List Nat) (e : Option PyErr) (acc : List PyObj), n ≤ m →
      array_loop pv n s e acc ≠ Res.fuel →
      array_loop pv2 m s e acc = array_loop pv n s e acc
  | 0, _, _, _, _, _, hne => by
    rw [array_loop] at hne
    exact absurd rfl hne
  | n + 1, 0, _, _, _, hnm, _ => absurd hnm (by omega)
  | n + 1, m + 1, s, e, acc, hnm, hne => by
    rw [array_loop] at hne ⊢
    rw [array_loop]
    by_cases hp : peek s = 0
    · rw [if_pos hp, if_pos hp]
    · rw [if_neg hp] at hne ⊢
      rw [if_neg hp]
      cases hr : pv s e with
      | ok v s1 e1 =>
        rw [hr] at hne
        rw [hpv s e (by rw [hr]; simp), hr]
        dsimp only at hne ⊢
        by_cases h93 : peek (skip_whitespace s1) = 93
        · rw [if_pos h93, if_pos h93]
        · rw [if_neg h93] at hne ⊢
          rw [if_neg h93]
          by_cases h47 : peek (skip_whitespace s1) = 47
          · rw [if_pos h47] at hne ⊢
            rw [if_pos h47]
            exact array_loop_mono hpv n m _ _ _ (by omega) hne
          · rw [if_neg h47, if_neg h47]
      | null s1 e1 => rw [hpv s e (by rw [hr]; simp), hr]
      | ub => rw [hpv s e (by rw [hr]; simp), hr]
      | fuel => rw [hr] at hne; exact absurd rfl hne

theorem parse_array_mono {pv pv2 : List Nat → Option PyErr → Res}
    (hpv : ∀ s e, pv s e ≠ Res.fuel → pv2 s e = pv s e)
    (n m : Nat) (s : List Nat) (e : Option PyErr) (hnm : n ≤ m)
    (hne : parse_array pv n s e ≠ Res.fuel) :
    parse_array pv2 m s e = parse_array pv n s e := by
  cases s with
  | nil => rfl
  | cons x r =>
    by_cases hx : x = 91
    · subst hx
      rw [parse_array] at hne ⊢
      rw [parse_array]
      by_cases h93 : peek (skip_whitespace r) = 93
      · rw [if_pos h93, if_pos h93]
      · rw [if_neg h93] at hne ⊢
        rw [if_neg h93]
        exact array_loop_mono hpv n m _ _ _ hnm hne
    · rw [parse_array_of_ne hx, parse_array_of_ne hx]

theorem object_loop_mono {pv pv2 : List Nat → Option PyErr → Res}
    (hpv : ∀ s e, pv s e ≠ Res.fuel → pv2 s e = pv s e) :
    ∀ (n m : Nat) (s : List Nat) (e : Option PyErr) (acc : List (PyObj × PyObj)), n ≤ m →
      object_loop pv n s e acc ≠ Res.fuel →
      object_loop pv2 m s e acc = object_loop pv n s e acc
  | 0, _, _, _, _, _, hne => by
    rw [object_loop] at hne
    exact absurd rfl hne
  | n + 1, 0, _, _, _, hnm, _ => absurd hnm (by omega)
  | n + 1, m + 1, s, e, acc, hnm, hne => by
    rw [object_loop] at hne ⊢
    rw [object_loop]
    by_cases hp : peek s = 0
    · rw [if_pos hp, if_pos hp]
    · rw [if_neg hp] at hne ⊢
      rw [if_neg hp]
      cases hk : parse_key s e with
      | ok key s1 e1 =>
        rw [hk] at hne
        cases key with
        | str k =>
          dsimp only at hne ⊢
          by_cases h45 : peek (skip_whitespace s1) ≠ 45
          · rw [if_pos h45, if_pos h45]
          · rw [if_neg h45] at hne ⊢
            rw [if_neg h45]
            cases hr : pv (skip_whitespace (skip_whitespace s1).tail) e1 with
            | ok v s3 e3 =>
              rw [hr] at hne
              rw [hpv _ _ (by rw [hr]; simp), hr]
              dsimp only at hne ⊢
              by_cases h62 : peek (skip_whitespace s3) = 62
              · rw [if_pos h62, if_pos h62]
              · rw [if_neg h62] at hne ⊢
                rw [if_neg h62]
                by_cases h47 : peek (skip_whitespace s3) = 47
                · rw [if_pos h47] at hne ⊢
                  rw [if_pos h47]
                  exact object_loop_mono hpv n m _ _ _ (by omega) hne
                · rw [if_neg h47, if_neg h47]
            | null s3 e3 => rw [hpv _ _ (by rw [hr]; simp), hr]
            | ub => rw [hpv _ _ (by rw [hr]; simp), hr]
            | fuel => rw [hr] at hne; exact absurd rfl hne
        | none => rfl
        | bool b => rfl
        | long z => rfl
        | float f => rfl
        | list xs => rfl
        | dict kvs => rfl
        | other tag => rfl
      | null s1 e1 => rfl
      | ub => rfl
      | fuel => rfl

theorem parse_object_mono {pv pv2 : List Nat → Option PyErr → Res}
    (hpv : ∀ s e, pv s e ≠ Res.fuel → pv2 s e = pv s e)
    (n m : Nat) (s : List Nat) (e : Option PyErr) (hnm : n ≤ m)
    (hne : parse_object pv n s e ≠ Res.fuel) :
    parse_object pv2 m s e = parse_object pv n s e := by
  cases s with
  | nil => rfl
  | cons x r =>
    by_cases hx : x = 60
    · subst hx
      rw [parse_object] at hne ⊢
      rw [parse_object]
      by_cases h62 : peek (skip_whitespace r) = 62
      · rw [if_pos h62, if_pos h62]
      · rw [if_neg h62] at hne ⊢
        rw [if_neg h62]
        exact object_loop_mono hpv n m _ _ _ hnm hne
    · rw [parse_object_of_ne hx, parse_object_of_ne hx]

theorem parse_value_mono : ∀ (n m : Nat) (s : List Nat) (e : Option PyErr), n ≤ m →
    parse_value n s e ≠ Res.fuel → parse_value m s e = parse_value n s e
  | 0, _, _, _, _, hne => by
    rw [parse_value] at hne
    exact absurd rfl hne
  | n + 1, 0, _, _, hnm, _ => absurd hnm (by omega)
  | n + 1, m + 1, s, e, hnm, hne => by
    have hpv : ∀ s e, parse_value n s e ≠ Res.fuel → parse_value m s e = parse_value n s e :=
      fun s e h => parse_value_mono n m s e (by omega) h
    rw [parse_value] at hne ⊢
    rw [parse_value]
    cases ho : parse_object (parse_value n) n (skip_whitespace s) e with
    | ok v s1 e1 => rw [parse_object_mono hpv n m _ _ (by omega) (by rw [ho]; simp), ho]
    | ub => rw [parse_object_mono hpv n m _ _ (by omega) (by rw [ho]; simp), ho]
    | fuel => rw [ho] at hne; exact absurd rfl hne
    | null s1 e1 =>
      rw [ho] at hne
      rw [parse_object_mono hpv n m _ _ (by omega) (by rw [ho]; simp), ho]
      dsimp only at hne ⊢
      cases ha : parse_array (parse_value n) n s1 e1 with
      | ok v s2 e2 => rw [parse_array_mono hpv n m _ _ (by omega) (by rw [ha]; simp), ha]
      | ub => rw [parse_array_mono hpv n m _ _ (by omega) (by rw [ha]; simp), ha]
      | fuel => rw [ha] at hne; exact absurd rfl hne
      | null s2 e2 => rw [parse_array_mono hpv n m _ _ (by omega) (by rw [ha]; simp), ha]

/-! ## The cursor only moves forward -/

theorem skip_whitespace_suffix (s : List Nat) : skip_whitespace s <:+ s :=
  List.dropWhile_suffix _

theorem skip_tail_suffix (s : List Nat) : (skip_whitespace s).tail <:+ s :=
  (List.tail_suffix _).trans (skip_whitespace_suffix s)

theorem res_forward_of_suffix {s s0 : List Nat} {r : Res} (hs : s <:+ s0)
    (h : res_forward s r) : res_forward s0 r := by
  cases r with
  | ok v s2 e => exact List.IsSuffix.trans h hs
  | null s2 e => exact List.IsSuffix.trans h hs
  | ub => trivial
  | fuel => trivial

theorem res_forward_chain {s : List Nat} (r : Res) (next : List Nat → Option PyErr → Res) :
    res_forward s r → (∀ s1 e1, s1 <:+ s → res_forward s1 (next s1 e1)) →
    res_forward s (match r with
      | Res.null s1 e1 => next s1 e1
      | r => r) := by
  intro h hn
  cases r with
  | ok v s2 e => exact h
  | null s2 e => exact res_forward_of_suffix h (hn s2 e h)
  | ub => trivial
  | fuel => trivial

theorem parse_number_forward (s : List Nat) (err : Option PyErr) :
    res_forward s (parse_number s err) := by
  unfold parse_number
  cases h : strtod s with
  | none => exact List.suffix_refl s
  | some p => exact drops_to_suffix (strtod_drops h)

theorem quoted_loop_suffix : ∀ (s buf : List Nat) {b c : List Nat},
    quoted_loop s buf = some (b, c) → c <:+ s
  | [], buf, b, c, h => by
    rw [quoted_loop_nil] at h
    simp only [Option.some.injEq, Prod.mk.injEq] at h
    rw [← h.2]
  | [x], buf, b, c, h => by
    by_cases hstop : x = 0 ∨ x = 39
    · rw [quoted_loop_stop hstop] at h
      simp only [Option.some.injEq, Prod.mk.injEq] at h
      rw [← h.2]
    · have h0 : x ≠ 0 := fun hc => hstop (Or.inl hc)
      have h39 : x ≠ 39 := fun hc => hstop (Or.inr hc)
      by_cases h92 : x = 92
      · subst h92
        rw [quoted_loop_escape_end] at h
        exact absurd h (by simp)
      · rw [quoted_loop_plain h0 h39 h92, quoted_loop_nil] at h
        simp only [Option.some.injEq, Prod.mk.injEq] at h
        rw [← h.2]
        exact List.nil_suffix
  | x :: d :: rest, buf, b, c, h => by
    by_cases hstop : x = 0 ∨ x = 39
    · rw [quoted_loop_stop hstop] at h
      simp only [Option.some.injEq, Prod.mk.injEq] at h
      rw [← h.2]
    · have h0 : x ≠ 0 := fun hc => hstop (Or.inl hc)
      have h39 : x ≠ 39 := fun hc => hstop (Or.inr hc)
      by_cases h92 : x = 92
      · subst h92
        rw [quoted_loop_escape] at h
        have ih := quoted_loop_suffix rest _ h
        exact ih.trans ((List.suffix_cons d rest).trans (List.suffix_cons 92 _))
      · rw [quoted_loop_plain h0 h39 h92] at h
        have ih := quoted_loop_suffix (d :: rest) _ h
        exact ih.trans (List.suffix_cons x _)

theorem decode_utf8_forward {s s0 : List Nat} (bytes : List Nat) (err : Option PyErr)
    (h : s <:+ s0) : res_forward s0 (decode_utf8 bytes s err) := by
  unfold decode_utf8
  split
  · exact h
  · exact h

theorem parse_quoted_string_forward (s : List Nat) (err : Option PyErr) :
    res_forward s (parse_quoted_string s err) := by
  cases s with
  | nil => exact List.suffix_refl _
  | cons x r =>
    by_cases hx : x = 39
    · subst hx
      cases hq : quoted_loop r [] with
      | none =>
        have : parse_quoted_string (39 :: r) err = Res.ub := by
          simp only [parse_quoted_string, hq]
        rw [this]
        trivial
      | some p =>
        obtain ⟨b, c⟩ := p
        have hc : c <:+ 39 :: r := (quoted_loop_suffix r [] hq).trans (List.suffix_cons 39 r)
        rw [parse_quoted_string_of_loop err hq]
        split
        · exact decode_utf8_forward b err ((List.tail_suffix c).trans hc)
        · exact hc
    · rw [parse_quoted_string_of_ne r err hx]
      exact List.suffix_refl _

theorem parse_unquoted_string_forward (s : List Nat) (err : Option PyErr) :
    res_forward s (parse_unquoted_string s err) := by
  unfold parse_unquoted_string
  dsimp only
  split
  · exact List.suffix_refl s
  · exact decode_utf8_forward _ err (List.dropWhile_suffix _)

theorem parse_key_forward (s : List Nat) (err : Option PyErr) :
    res_forward s (parse_key s err) := by
  unfold parse_key
  exact res_forward_chain _ _ (parse_quoted_string_forward s err)
    (fun s1 e1 _ => parse_unquoted_string_forward s1 e1)

theorem invalid_of_null_forward {s : List Nat} (r : Res) : res_forward s r →
    res_forward s (match r with
      | Res.null s2 _ => Res.null s2 (some PyErr.invalidFormat)
      | r => r) := by
  intro h
  cases r with
  | ok v s2 e => exact h
  | null s2 e => exact h
  | ub => trivial
  | fuel => trivial

theorem parse_strings_forward (s : List Nat) (err : Option PyErr) :
    res_forward s (parse_strings s err) := by
  unfold parse_strings
  exact res_forward_chain _ _ (parse_quoted_string_forward s err)
    (fun s1 e1 _ => invalid_of_null_forward _ (parse_unquoted_string_forward s1 e1))

theorem parse_scalar_forward (s : List Nat) (err : Option PyErr) :
    res_forward s (parse_scalar s err) := by
  unfold parse_scalar
  split
  · exact List.drop_suffix 5 s
  · split
    · exact List.drop_suffix 6 s
    · split
      · exact List.drop_suffix 5 s
      · split
        · exact res_forward_chain _ _ (parse_number_forward s err)
            (fun s1 e1 _ => parse_strings_forward s1 e1)
        · exact parse_strings_forward s err

theorem array_loop_forward {pv : List Nat → Option PyErr → Res}
    (hpv : ∀ s e, res_forward s (pv s e)) :
    ∀ (n : Nat) (s : List Nat) (err : Option PyErr) (acc : List PyObj),
      res_forward s (array_loop pv n s err acc)
  | 0, _, _, _ => by
    rw [array_loop]
    trivial
  | n + 1, s, err, acc => by
    rw [array_loop]
    by_cases hp : peek s = 0
    · rw [if_pos hp]
      exact List.suffix_refl s
    · rw [if_neg hp]
      have hv := hpv s err
      cases hr : pv s err with
      | ok v s1 e1 =>
        rw [hr] at hv
        have hs1 : s1 <:+ s := hv
        dsimp only
        split
        · exact (skip_tail_suffix s1).trans hs1
        · split
          · exact res_forward_of_suffix
              ((skip_whitespace_suffix _).trans ((skip_tail_suffix s1).trans hs1))
              (array_loop_forward hpv n _ _ _)
          · exact (skip_whitespace_suffix s1).trans hs1
      | null s1 e1 => rw [hr] at hv; exact hv
      | ub => trivial
      | fuel => trivial

theorem parse_array_forward {pv : List Nat → Option PyErr → Res}
    (hpv : ∀ s e, res_forward s (pv s e)) (n : Nat) (s : List Nat) (err : Option PyErr) :
    res_forward s (parse_array pv n s err) := by
  cases s with
  | nil => exact List.suffix_refl _
  | cons x r =>
    by_cases hx : x = 91
    · subst hx
      rw [parse_array]
      split
      · exact (skip_tail_suffix r).trans (List.suffix_cons 91 r)
      · exact res_forward_of_suffix ((skip_whitespace_suffix r).trans (List.suffix_cons 91 r))
          (array_loop_forward hpv n _ _ _)
    · rw [parse_array_of_ne hx]
      exact List.suffix_refl _

theorem object_loop_forward {pv : List Nat → Option PyErr → Res}
    (hpv : ∀ s e, res_forward s (pv s e)) :
    ∀ (n : Nat) (s : List Nat) (err : Option PyErr) (acc : List (PyObj × PyObj)),
      res_forward s (object_loop pv n s err acc)
  | 0, _, _, _ => by
    rw [object_loop]
    trivial
  | n + 1, s, err, acc => by
    rw [object_loop]
    by_cases hp : peek s = 0
    · rw [if_pos hp]
      exact List.suffix_refl s
    · rw [if_neg hp]
      have hk := parse_key_forward s err
      cases hr : parse_key s err with
      | ok key s1 e1 =>
        rw [hr] at hk
        have hs1 : s1 <:+ s := hk
        cases key with
        | str k =>
          dsimp only
          split
          · exact (skip_whitespace_suffix s1).trans hs1
          · have hcur : skip_whitespace (skip_whitespace s1).tail <:+ s :=
              (skip_whitespace_suffix _).trans ((skip_tail_suffix s1).trans hs1)
            have hv := hpv (skip_whitespace (skip_whitespace s1).tail) e1
            cases hrv : pv (skip_whitespace (skip_whitespace s1).tail) e1 with
            | ok v s3 e3 =>
              rw [hrv] at hv
              have hs3 : s3 <:+ s := List.IsSuffix.trans hv hcur
              dsimp only
              split
              · exact (skip_tail_suffix s3).trans hs3
              · split
                · exact res_forward_of_suffix
                    ((skip_whitespace_suffix _).trans ((skip_tail_suffix s3).trans hs3))
                    (object_loop_forward hpv n _ _ _)
                · exact (skip_whitespace_suffix s3).trans hs3
            | null s3 e3 =>
              rw [hrv] at hv
              exact List.IsSuffix.trans hv hcur
            | ub => trivial
            | fuel => trivial
        | none => exact hs1
        | bool b => exact hs1
        | long z => exact hs1
        | float f => exact hs1
        | list xs => exact hs1
        | dict kvs => exact hs1
        | other tag => exact hs1
      | null s1 e1 => rw [hr] at hk; exact hk
      | ub => trivial
      | fuel => trivial

theorem parse_object_forward {pv : List Nat → Option PyErr → Res}
    (hpv : ∀ s e, res_forward s (pv s e)) (n : Nat) (s : List Nat) (err : Option PyErr) :
    res_forward s (parse_object pv n s err) := by
  cases s with
  | nil => exact List.suffix_refl _
  | cons x r =>
    by_cases hx : x = 60
    · subst hx
      rw [parse_object]
      split
      · exact (skip_tail_suffix r).trans (List.suffix_cons 60 r)
      · exact res_forward_of_suffix ((skip_whitespace_suffix r).trans (List.suffix_cons 60 r))
          (object_loop_forward hpv n _ _ _)
    · rw [parse_object_of_ne hx]
      exact List.suffix_refl _

theorem parse_value_forward : ∀ (n : Nat) (s : List Nat) (err : Option PyErr),
    res_forward s (parse_value n s err)
  | 0, _, _ => by
    rw [parse_value]
    trivial
  | n + 1, s, err => by
    have hpv : ∀ s e, res_forward s (parse_value n s e) := fun s e => parse_value_forward n s e
    rw [parse_value]
    exact res_forward_chain _ _
      (res_forward_of_suffix (skip_whitespace_suffix s) (parse_object_forward hpv n _ err))
      (fun s1 e1 _ => res_forward_chain _ _ (parse_array_forward hpv n s1 e1)
        (fun s2 e2 _ => parse_scalar_forward s2 e2))

theorem parse_value_advances {n : Nat} {s s2 : List Nat} {err e : Option PyErr} {v : PyObj}
    (h : parse_value n s err = Res.ok v s2 e) : s2 <:+ s ∧ s2.length < s.length := by
  constructor
  · have := parse_value_forward n s err
    rw [h] at this
    exact this
  · have hm := parse_value_mono n (max n (s.length + 1)) s err (Nat.le_max_left _ _)
      (by rw [h]; simp)
    have hp := parse_value_progress (max n (s.length + 1)) s err
      (by have := Nat.le_max_right n (s.length + 1); omega)
    rw [hm, h] at hp
    exact hp

theorem loads_pair_mono (n m : Nat) (s : List Nat) (hnm : n ≤ m)
    (hne : loads_pair n s ≠ Outcome.fuel) : loads_pair m s = loads_pair n s := by
  unfold loads_pair at hne ⊢
  cases hk : parse_unquoted_string s none with
  | ok key s1 e1 =>
    rw [hk] at hne
    dsimp only at hne ⊢
    by_cases h45 : peek (skip_whitespace s1) = 45
    · rw [if_pos h45] at hne
      rw [if_pos h45, if_pos h45]
      cases hv : parse_value n (skip_whitespace (skip_whitespace s1).tail) e1 with
      | fuel => rw [hv] at hne; exact absurd rfl hne
      | ok v s4 e4 => rw [parse_value_mono n m _ _ hnm (by rw [hv]; simp), hv]
      | null s4 e4 => rw [parse_value_mono n m _ _ hnm (by rw [hv]; simp), hv]
      | ub => rw [parse_value_mono n m _ _ hnm (by rw [hv]; simp), hv]
    · rw [if_neg h45, if_neg h45]
  | null s1 e1 => rfl
  | ub => rfl
  | fuel => rfl

theorem loads_with_mono (n m : Nat) (t : List Nat) (hnm : n ≤ m)
    (hne : loads_with n t ≠ Outcome.fuel) : loads_with m t = loads_with n t := by
  unfold loads_with at hne ⊢
  by_cases h0 : 0 ∈ t
  · rw [if_pos h0, if_pos h0]
  · rw [if_neg h0] at hne
    rw [if_neg h0, if_neg h0]
    dsimp only at hne ⊢
    cases hv : parse_value n (skip_whitespace t) none with
    | fuel => rw [hv] at hne; exact absurd rfl hne
    | ub => rw [parse_value_mono n m _ _ hnm (by rw [hv]; simp), hv]
    | null s1 e1 =>
      rw [hv] at hne
      rw [parse_value_mono n m _ _ hnm (by rw [hv]; simp), hv]
      exact loads_pair_mono n m _ hnm hne
    | ok v s1 e1 =>
      rw [hv] at hne
      rw [parse_value_mono n m _ _ hnm (by rw [hv]; simp), hv]
      dsimp only at hne ⊢
      by_cases hp : peek (skip_whitespace s1) = 0
      · rw [if_pos hp, if_pos hp]
      · rw [if_neg hp] at hne
        rw [if_neg hp, if_neg hp]
        exact loads_pair_mono n m _ hnm hne

theorem array_iteration_progress {n : Nat} {s s1 : List Nat} {err e1 : Option PyErr}
    {v : PyObj} (h : parse_value n s err = Res.ok v s1 e1) :
    (skip_whitespace (skip_whitespace s1).tail).length < s.length := by
  have h1 := (parse_value_advances h).2
  have h2 := skip_whitespace_length_le (skip_whitespace s1).tail
  have h3 : (skip_whitespace s1).tail.length ≤ (skip_whitespace s1).length := by simp
  have h4 := skip_whitespace_length_le s1
  omega

theorem object_iteration_progress {n : Nat} {s s1 s3 : List Nat} {err e1 e3 : Option PyErr}
    {k v : PyObj} (hk : parse_key s err = Res.ok k s1 e1)
    (h : parse_value n (skip_whitespace (skip_whitespace s1).tail) e1 = Res.ok v s3 e3) :
    (skip_whitespace (skip_whitespace s3).tail).length < s.length := by
  have h0 := array_iteration_progress h
  have hf := parse_key_forward s err
  rw [hk] at hf
  have h1 : s1.length ≤ s.length := List.IsSuffix.length_le hf
  have h2 := skip_whitespace_length_le (skip_whitespace s1).tail
  have h3 : (skip_whitespace s1).tail.length ≤ (skip_whitespace s1).length := by simp
  have h4 := skip_whitespace_length_le s1
  omega

/-- C22, where it holds and where the code breaks it.  In every call that
stays inside the buffer no parser moves the cursor backward: what is left
after `skip_whitespace`, `parse_number`, `parse_quoted_string`,
`parse_unquoted_string`, `parse_array`, `parse_object` and `parse_value` is an
end part of what was left before; a successful `parse_value` leaves strictly
less; each iteration of the element loop and of the pair loop starts strictly
after the one before; and decode ends within a number of steps bounded by the
length of the text, with a result that no larger bound changes.  On the text
quote, `a`, backslash the scan of `parse_quoted_string` steps over the
terminating NUL: the cursor leaves the text. -/
theorem cursor_progress_and_termination :
    (∀ s, skip_whitespace s <:+ s) ∧
    (∀ s err, res_forward s (parse_number s err) ∧ res_forward s (parse_quoted_string s err) ∧
      res_forward s (parse_unquoted_string s err)) ∧
    (∀ n s err, res_forward s (parse_value n s err) ∧
      res_forward s (parse_array (parse_value n) n s err) ∧
      res_forward s (parse_object (parse_value n) n s err)) ∧
    (∀ n s err v s2 e, parse_value n s err = Res.ok v s2 e →
      s2 <:+ s ∧ s2.length < s.length) ∧
    (∀ n s err v s1 e1, parse_value n s err = Res.ok v s1 e1 →
      (skip_whitespace (skip_whitespace s1).tail).length < s.length) ∧
    (∀ n s err k s1 e1 v s3 e3, parse_key s err = Res.ok k s1 e1 →
      parse_value n (skip_whitespace (skip_whitespace s1).tail) e1 = Res.ok v s3 e3 →
      (skip_whitespace (skip_whitespace s3).tail).length < s.length) ∧
    (∀ n s err, s.length < n → parse_value n s err ≠ Res.fuel) ∧
    (∀ t, xton_loads t ≠ Outcome.fuel ∧
      ∀ n, t.length + 1 ≤ n → loads_with n t = xton_loads t) ∧
    (parse_quoted_string [39, 97, 92] none = Res.ub ∧ xton_loads [39, 97, 92] = Outcome.ub) := by
  refine ⟨skip_whitespace_suffix, ?_, ?_, ?_, ?_, ?_, ?_, ?_, rfl, rfl⟩
  · exact fun s err => ⟨parse_number_forward s err, parse_quoted_string_forward s err,
      parse_unquoted_string_forward s err⟩
  · exact fun n s err => ⟨parse_value_forward n s err,
      parse_array_forward (parse_value_forward n) n s err,
      parse_object_forward (parse_value_forward n) n s err⟩
  · exact fun n s err v s2 e h => parse_value_advances h
  · exact fun n s err v s1 e1 h => array_iteration_progress h
  · exact fun n s err k s1 e1 v s3 e3 hk h => object_iteration_progress hk h
  · intro n s err hn hf
    have := parse_value_progress n s err hn
    rw [hf] at this
    exact this
  · intro t
    refine ⟨xton_loads_not_fuel t, fun n hn => ?_⟩
    exact loads_with_mono (t.length + 1) n t hn (xton_loads_not_fuel t)

/-! ## Bare strings in arrays -/

theorem intercalate_cons_cons (sep s0 s1 : List Nat) (L : List (List Nat)) :
    List.intercalate sep (s0 :: s1 :: L) = s0 ++ sep ++ List.intercalate sep (s1 :: L) := by
  simp [List.intercalate, List.intersperse]

theorem intercalate_singleton (sep s0 : List Nat) : List.intercalate sep [s0] = s0 := by
  simp [List.intercalate, List.intersperse]

theorem intercalate_head (sep s0 : List Nat) (L : List (List Nat)) :
    ∃ u, List.intercalate sep (s0 :: L) = s0 ++ u := by
  cases L with
  | nil => exact ⟨[], by rw [intercalate_singleton, List.append_nil]⟩
  | cons s1 L => exact ⟨sep ++ List.intercalate sep (s1 :: L), by
      rw [intercalate_cons_cons, List.append_assoc]⟩

theorem length_le_intercalate (sep s0 : List Nat) (hsep : sep ≠ []) (L : List (List Nat)) :
    L.length ≤ (List.intercalate sep (s0 :: L)).length := by
  induction L generalizing s0 with
  | nil => simp
  | cons s1 L ih =>
    rw [intercalate_cons_cons]
    have := ih s1
    have hl : 0 < sep.length := List.length_pos.2 hsep
    simp only [List.length_append, List.length_cons]
    omega

theorem mem_intercalate {sep : List Nat} {c : Nat} :
    ∀ (L : List (List Nat)), c ∈ List.intercalate sep L → c ∈ sep ∨ ∃ s ∈ L, c ∈ s
  | [], h => by simp [List.intercalate, List.intersperse] at h
  | [s0], h => by
    rw [intercalate_singleton] at h
    exact Or.inr ⟨s0, by simp, h⟩
  | s0 :: s1 :: L, h => by
    rw [intercalate_cons_cons] at h
    simp only [List.mem_append] at h
    rcases h with (h | h) | h
    · exact Or.inr ⟨s0, by simp, h⟩
    · exact Or.inl h
    · rcases mem_intercalate (s1 :: L) h with h2 | ⟨s, hs, hc⟩
      · exact Or.inl h2
      · exact Or.inr ⟨s, by simp only [List.mem_cons] at hs ⊢; exact Or.inr hs, hc⟩

theorem parse_value_bare_word (m : Nat) {s : List Nat} (t : List Nat)
    (hq : needs_quoting s = false) (hd : isdigit (peek s) = false) (hu : utf8_valid s = true)
    (ht : is_xton_identifier_delimiter (peek t) = true) :
    parse_value (m + 1) (s ++ t) none = Res.ok (PyObj.str s) t none := by
  obtain ⟨hne, hk⟩ := (needs_quoting_false_iff s).1 hq
  have hkd : ∀ c ∈ s, is_xton_identifier_delimiter c = false := fun c hc => (hk c hc).1
  obtain ⟨c, r, rfl⟩ := List.exists_cons_of_ne_nil hne
  have hc := hk c (by simp)
  have hcs : isspace c = false := isspace_not_delim hc.1
  have hc' : c ≠ 60 ∧ c ≠ 91 ∧ c ≠ 45 := by
    have := hc.1
    simp [is_xton_identifier_delimiter] at this
    omega
  have hcd : isdigit c = false := hd
  rw [List.cons_append, parse_value_of_plain m _ none hcs hc'.1 hc'.2.1 hc.2.2 hcd hc'.2.2]
  have hq1 := parse_quoted_string_of_ne (r ++ t) none hc.2.1
  have hrun := parse_unquoted_string_run none hne hkd ht
  have hun : parse_unquoted_string (c :: (r ++ t)) none = Res.ok (PyObj.str (c :: r)) t none := by
    rw [← List.cons_append, hrun]
    simp [decode_utf8, hu]
  exact parse_strings_of_unquoted_ok hq1 hun

theorem bare_word_head {s : List Nat} (hq : needs_quoting s = false) (t : List Nat) :
    skip_whitespace (s ++ t) = s ++ t ∧ peek (s ++ t) ≠ 0 ∧ peek (s ++ t) ≠ 93 := by
  obtain ⟨hne, hk⟩ := (needs_quoting_false_iff s).1 hq
  obtain ⟨c, r, rfl⟩ := List.exists_cons_of_ne_nil hne
  have hc := (hk c (by simp)).1
  have hcs : isspace c = false := isspace_not_delim hc
  have hc' : c ≠ 0 ∧ c ≠ 93 := by
    simp [is_xton_identifier_delimiter] at hc
    omega
  exact ⟨skip_whitespace_cons_of_not_space _ hcs, hc'.1, hc'.2⟩

theorem array_loop_bare_words (m : Nat) :
    ∀ (L : List (List Nat)) (s0 : List Nat) (n : Nat) (acc : List PyObj),
      (∀ s ∈ s0 :: L, needs_quoting s = false ∧ isdigit (peek s) = false ∧ utf8_valid s = true) →
      L.length < n →
      array_loop (parse_value (m + 1)) n (List.intercalate [47] (s0 :: L) ++ [93]) none acc
        = Res.ok (PyObj.list (acc ++ (s0 :: L).map PyObj.str)) [] none
  | [], s0, 0, acc, _, hn => absurd hn (by simp)
  | [], s0, n + 1, acc, hb, _ => by
    have h0 := hb s0 (by simp)
    rw [intercalate_singleton, array_loop, if_neg (bare_word_head h0.1 [93]).2.1,
      parse_value_bare_word m [93] h0.1 h0.2.1 h0.2.2 (by decide)]
    rfl
  | s1 :: L, s0, 0, acc, _, hn => absurd hn (by simp)
  | s1 :: L, s0, n + 1, acc, hb, hn => by
    have h0 := hb s0 (by simp)
    have h1 := hb s1 (by simp)
    obtain ⟨u, hu⟩ := intercalate_head [47] s1 L
    have ih := array_loop_bare_words m L s1 n (acc ++ [PyObj.str s0])
      (fun s hs => hb s (by simp only [List.mem_cons] at hs ⊢; exact Or.inr hs))
      (by simp only [List.length_cons] at hn; omega)
    have e : List.intercalate [47] (s0 :: s1 :: L) ++ [93]
        = s0 ++ 47 :: (List.intercalate [47] (s1 :: L) ++ [93]) := by
      rw [intercalate_cons_cons]
      simp
    have hsk : skip_whitespace (List.intercalate [47] (s1 :: L) ++ [93])
        = List.intercalate [47] (s1 :: L) ++ [93] := by
      rw [hu, List.append_assoc]
      exact (bare_word_head h1.1 _).1
    have hd47 : is_xton_identifier_delimiter
        (peek (47 :: (List.intercalate [47] (s1 :: L) ++ [93]))) = true := rfl
    have hp93 : ¬ peek (47 :: (List.intercalate [47] (s1 :: L) ++ [93])) = 93 := by
      show ¬ (47 : Nat) = 93
      decide
    have hp47 : peek (47 :: (List.intercalate [47] (s1 :: L) ++ [93])) = 47 := rfl
    rw [e, array_loop, if_neg (bare_word_head h0.1 _).2.1,
      parse_value_bare_word m _ h0.1 h0.2.1 h0.2.2 hd47]
    dsimp only
    rw [skip_whitespace_cons_of_not_space _ (by decide : isspace 47 = false),
      if_neg hp93, if_pos hp47, List.tail_cons, hsk, ih]
    simp

theorem serialize_bare_words (L : List (List Nat))
    (hb : ∀ s ∈ L, needs_quoting s = false) :
    serialize_elements (L.map PyObj.str) = Except.ok L := by
  induction L with
  | nil => rfl
  | cons s L ih =>
    rw [List.map_cons, serialize_elements_str, ih (fun x hx => hb x (by simp [hx]))]
    simp [_serialize_maybe_unquoted_string, hb s (by simp)]

theorem bare_word_facts {s : List Nat} (hb : spec_bare s = true) (h0 : 0 ∉ s) :
    needs_quoting s = false := by
  rw [needs_quoting_eq_not_bare h0, hb]
  rfl

theorem parse_value_bare_array (L : List (List Nat))
    (hb : ∀ s ∈ L, needs_quoting s = false ∧ isdigit (peek s) = false ∧ utf8_valid s = true) :
    parse_value (([91] ++ List.intercalate [47] L ++ [93]).length + 1)
        ([91] ++ List.intercalate [47] L ++ [93]) none
      = Res.ok (PyObj.list (L.map PyObj.str)) [] none := by
  have e : [91] ++ List.intercalate [47] L ++ [93] = 91 :: (List.intercalate [47] L ++ [93]) := by
    simp
  rw [e, parse_value, skip_whitespace_cons_of_not_space _ (by decide : isspace 91 = false),
    parse_object_of_ne (by decide : (91 : Nat) ≠ 60)]
  dsimp only
  rw [parse_array]
  cases L with
  | nil => rfl
  | cons s0 L =>
    have h0 := hb s0 (by simp)
    obtain ⟨u, hu⟩ := intercalate_head [47] s0 L
    have hhead := bare_word_head h0.1 (u ++ [93])
    have hlen := length_le_intercalate [47] s0 (by simp) L
    have hm : (91 :: (List.intercalate [47] (s0 :: L) ++ [93])).length
        = ((List.intercalate [47] (s0 :: L)).length + 1) + 1 := by simp
    rw [hm]
    have hloop := array_loop_bare_words ((List.intercalate [47] (s0 :: L)).length + 1) L s0
      ((List.intercalate [47] (s0 :: L)).length + 1 + 1) [] hb (by omega)
    have hsk : skip_whitespace (List.intercalate [47] (s0 :: L) ++ [93])
        = List.intercalate [47] (s0 :: L) ++ [93] := by
      rw [hu, List.append_assoc]
      exact hhead.1
    have hp : ¬ peek (List.intercalate [47] (s0 :: L) ++ [93]) = 93 := by
      rw [hu, List.append_assoc]
      exact hhead.2.2
    rw [hsk, if_neg hp, hloop]
    rfl

/-- C23: for every list `L` of strings each of which is non-empty, contains no
delimiter, whitespace, single quote, backslash or NUL, and does not start with
a digit, encode of `L` is `[`, the strings joined by `/`, `]`, and decode of
that text returns `L`, the same elements in the same order, with no error
pending. -/
theorem bare_strings_array_roundtrip (L : List (List Nat))
    (hb : ∀ s ∈ L, spec_bare s = true ∧ 0 ∉ s ∧ isdigit (peek s) = false ∧
      utf8_valid s = true) :
    xton_dumps (PyObj.list (L.map PyObj.str))
      = Except.ok ([91] ++ List.intercalate [47] L ++ [93]) ∧
    xton_loads ([91] ++ List.intercalate [47] L ++ [93])
      = Outcome.ret (some (PyObj.list (L.map PyObj.str))) none := by
  have hq : ∀ s ∈ L, needs_quoting s = false ∧ isdigit (peek s) = false ∧
      utf8_valid s = true :=
    fun s hs => ⟨bare_word_facts (hb s hs).1 (hb s hs).2.1, (hb s hs).2.2.1, (hb s hs).2.2.2⟩
  constructor
  · have hc : collapsible (PyObj.list (L.map PyObj.str)) = false := rfl
    rw [xton_dumps_of_not_collapsible _ hc, serialize_list_eq,
      serialize_bare_words L (fun s hs => (hq s hs).1)]
  · have h0 : 0 ∉ [91] ++ List.intercalate [47] L ++ [93] := by
      intro h
      simp only [List.mem_append, List.mem_singleton] at h
      rcases h with (h | h) | h
      · exact absurd h (by decide)
      · rcases mem_intercalate L h with h2 | ⟨s, hs, hc⟩
        · simp at h2
        · exact (hb s hs).2.1 hc
      · exact absurd h (by decide)
    have hv := parse_value_bare_array L hq
    have hs : skip_whitespace ([91] ++ List.intercalate [47] L ++ [93])
        = [91] ++ List.intercalate [47] L ++ [93] := by
      have e : [91] ++ List.intercalate [47] L ++ [93]
          = 91 :: (List.intercalate [47] L ++ [93]) := by simp
      rw [e]
      exact skip_whitespace_cons_of_not_space _ (by decide)
    have hv2 : parse_value (([91] ++ List.intercalate [47] L ++ [93]).length + 1)
        (skip_whitespace ([91] ++ List.intercalate [47] L ++ [93])) none
        = Res.ok (PyObj.list (L.map PyObj.str)) [] none := by
      rw [hs]
      exact hv
    unfold xton_loads
    exact loads_with_first_attempt h0 hv2 rfl

theorem bare_strings_array_roundtrip_witness :
    xton_dumps (PyObj.list ([[97, 98], [43, 53], [105, 110, 102], [195, 169]].map PyObj.str))
      = Except.ok ([91] ++ List.intercalate [47] [[97, 98], [43, 53], [105, 110, 102], [195, 169]]
          ++ [93]) ∧
    xton_loads ([91] ++ List.intercalate [47] [[97, 98], [43, 53], [105, 110, 102], [195, 169]]
        ++ [93])
      = Outcome.ret (some (PyObj.list
          ([[97, 98], [43, 53], [105, 110, 102], [195, 169]].map PyObj.str))) none :=
  bare_strings_array_roundtrip [[97, 98], [43, 53], [105, 110, 102], [195, 169]] (by decide)

end XTon
